import Mathlib

/-!
# NullBatchInstaller: the installation engine (`installer_engine.go`)

A shallow embedding of the installer engine: the command resolver
`determineSilentFlags`, the process runner `executeInstaller`, and the
lifecycle operations `Start`, `Stop`, `Queue` together with the goroutines
they launch (`processInstallations`, `cancelQueuedItems`).

Go strings are modelled by `String`, Go `error` values by their `Error()`
text, `*InstallerItem` pointers by indices into a heap of items, and the
goroutines by program counters that a schedule advances one atomic step at a
time.
-/

namespace NullInstaller

/-! ## Standard-library functions used by the engine -/

/-- The path and string functions of the Go standard library that the engine
calls.  They are not part of the repository, so the engine is embedded over an
arbitrary implementation of them. -/
structure GoLib where
  /-- The function `filepath.Ext`. -/
  Ext : String → String
  /-- The function `strings.ToLower`. -/
  ToLower : String → String
  /-- The function `filepath.Base`. -/
  Base : String → String

/-- Scan of `filepath.Ext` over the reversed path: walk back from the last
character, stop at a path separator, return the suffix starting at the first
dot met. -/
def extScan : List Char → List Char → List Char
  | [], _ => []
  | c :: rest, acc =>
    if c = '/' then [] else if c = '.' then c :: acc else extScan rest (c :: acc)

/-- The function `filepath.Ext` of a Unix build (the only separator is `/`). -/
def unixExt (path : String) : String :=
  String.mk (extScan path.data.reverse [])

/-- ASCII lower-casing of one character (the fast path of `strings.ToLower`). -/
def asciiLower (c : Char) : Char :=
  if 65 ≤ c.toNat ∧ c.toNat ≤ 90 then Char.ofNat (c.toNat + 32) else c

/-- The function `strings.ToLower` on ASCII text. -/
def asciiToLower (s : String) : String :=
  String.mk (s.data.map asciiLower)

/-- Last path element of a reversed path without trailing separators. -/
def baseScan : List Char → List Char → List Char
  | [], acc => acc
  | c :: rest, acc => if c = '/' then acc else baseScan rest (c :: acc)

/-- The function `filepath.Base` of a Unix build. -/
def unixBase (path : String) : String :=
  if path.data = [] then "."
  else
    let stripped := path.data.reverse.dropWhile (fun c => c = '/')
    let last := baseScan stripped []
    if last = [] then "/" else String.mk last

/-- The standard library of a Unix build, exact on ASCII paths. -/
def unixLib : GoLib :=
  { Ext := unixExt, ToLower := asciiToLower, Base := unixBase }

/-! ## Data model -/

/-- The struct `InstallerItem` of `main.go`, without its widget and binding
fields (the engine never touches them). -/
structure InstallerItem where
  Path : String
  Size : Int
  Selected : Bool
  Status : String
  Progress : String
deriving DecidableEq, Repr

/-- A non-nil `*InstallerItem`: the address of an item on the heap. -/
abbrev Ref := Nat

/-- The Go `error` returned by `execCmd.Wait()`, as `executeInstaller`
distinguishes it: an `*exec.ExitError` with its `ExitCode()`, or any other
error with its text. -/
inductive ExecError where
  | exitError (exitCode : Int)
  | other (text : String)
deriving DecidableEq, Repr

/-- How the child process ended: it exited with a code, or waiting for it
failed with an error that is not an exit-code error. -/
inductive ProcExit where
  | exited (code : Int)
  | abnormal (text : String)
deriving DecidableEq, Repr

/-- The method `exec.Cmd.Wait`: `nil` when the process exited with code 0, an
`*exec.ExitError` when it exited with another code, the error itself
otherwise. -/
def cmdWait : ProcExit → Option ExecError
  | .exited code => if code = 0 then none else some (.exitError code)
  | .abnormal text => some (.other text)

/-- The method `exec.Cmd.Start` of a command made by `exec.CommandContext`: a
spawn error is returned as it is, and a command whose context is already done
is not started (`ctx.Err()` is returned). -/
def cmdStart (ctxDone : Bool) (spawnErr : Option String) : Option String :=
  match spawnErr with
  | some e => some e
  | none => if ctxDone then some "context canceled" else none

/-- Which case of the `select` at the end of `executeInstaller` fires. -/
inductive WaitEvent where
  /-- The case `<-engine.ctx.Done()`. -/
  | ctxDone
  /-- The case `err := <-done`, with the captured output at that time. -/
  | done (stdout stderr : String) (result : ProcExit)
deriving DecidableEq, Repr

/-- What the engine does to the outside world, in order. -/
inductive Event where
  /-- A line written by `engine.logger.Printf` (without tag and timestamp). -/
  | log (line : String)
  /-- A call `engine.statusCallback(path, status)`. -/
  | statusCallback (path status : String)
  /-- A call `engine.updateUI(message)`. -/
  | updateUI (message : String)
  /-- A successful `execCmd.Start()`. -/
  | spawn (cmd : String) (args : List String)
  /-- A call `execCmd.Process.Kill()`. -/
  | kill (cmd : String)
  /-- A call `engine.progressCallback()`.  The engine stores this callback
  (`SetProgressCallback`), but no method of the engine calls it. -/
  | progressCallback
deriving DecidableEq, Repr

/-! ## Command resolver -/

/-- The candidate list `silentFlags` of `determineSilentFlags`. -/
def silentFlags : List (List String) :=
  [["/S"], ["/silent"], ["/qn"], ["/quiet"], ["/VERYSILENT"]]

/-- The method `determineSilentFlags`: the command and its arguments, the
empty command (with `nil` arguments) for an unknown file type. -/
def determineSilentFlags (lib : GoLib) (filePath : String) : String × List String :=
  let ext := lib.ToLower (lib.Ext filePath)
  if ext = ".msi" then ("msiexec", ["/i", filePath, "/qn", "/norestart"])
  else if ext = ".exe" then (filePath, silentFlags.headD [])
  else ("", [])

/-! ## Process runner -/

/-- The guarded call `if engine.statusCallback != nil`. -/
def notify (hasCallback : Bool) (path status : String) : List Event :=
  if hasCallback then [.statusCallback path status] else []

/-- The verb `%v` applied to a `[]string`. -/
def fmtArgs (args : List String) : String :=
  "[" ++ " ".intercalate args ++ "]"

/-- The verb `%d` applied to an `int`. -/
def fmtInt (n : Int) : String :=
  match n with
  | .ofNat k => String.mk (Nat.toDigits 10 k)
  | .negSucc k => String.mk ('-' :: Nat.toDigits 10 (k + 1))

/-- Lines 203-216 of `executeInstaller`: the item becomes `Installing`. -/
def execBegin (lib : GoLib) (hasCallback : Bool) (item : InstallerItem) :
    InstallerItem × List Event :=
  ({ item with Status := "Installing", Progress := "Determining installation flags..." },
   [.log ("Starting installation: " ++ item.Path)]
     ++ notify hasCallback item.Path "Installing"
     ++ [.updateUI ("Installing " ++ lib.Base item.Path)])

/-- Lines 218-274 of `executeInstaller`: resolve the command and start the
process.  The third component is the started command, `none` when the function
has returned.  The two progress texts written before `Start()` are written in
one step, so only the second one, "Installation in progress...", is seen. -/
def execLaunch (lib : GoLib) (hasCallback : Bool) (ctxDone : Bool)
    (spawnErr : Option String) (item : InstallerItem) :
    InstallerItem × List Event × Option (String × List String) :=
  let (cmd, args) := determineSilentFlags lib item.Path
  if cmd = "" then
    ({ item with Status := "Failed", Progress := "Could not determine installation command" },
     [.log ("FAILED: " ++ item.Path ++ " - Unknown installer type")]
       ++ notify hasCallback item.Path "Failed"
       ++ [.updateUI ("Failed to install " ++ lib.Base item.Path ++ ": Unknown installer type")],
     none)
  else
    let logged := [Event.log ("Executing command: " ++ cmd ++ " " ++ fmtArgs args)]
    match cmdStart ctxDone spawnErr with
    | some err =>
      ({ item with Status := "Failed", Progress := "Failed to start: " ++ err },
       logged ++ [.log ("FAILED TO START: " ++ item.Path ++ " - Error: " ++ err)]
         ++ notify hasCallback item.Path "Failed"
         ++ [.updateUI ("Failed to start " ++ lib.Base item.Path ++ ": " ++ err)],
       none)
    | none =>
      ({ item with Progress := "Installation in progress..." },
       logged ++ [.spawn cmd args],
       some (cmd, args))

/-- Lines 306-315 of `executeInstaller`: the captured output is logged when it
is not empty. -/
def logOutput (path stdout stderr : String) : List Event :=
  (if stdout ≠ "" then [Event.log ("STDOUT for " ++ path ++ ":\n" ++ stdout)] else [])
    ++ (if stderr ≠ "" then [Event.log ("STDERR for " ++ path ++ ":\n" ++ stderr)] else [])

/-- Lines 282-364 of `executeInstaller`: the `select` on the cancellation
scope and on the end of the process.  It is only reached after a successful
`Start()`, so `execCmd.Process` is not `nil` and the kill is issued. -/
def execWait (lib : GoLib) (hasCallback : Bool) (cmd : String) (ev : WaitEvent)
    (item : InstallerItem) : InstallerItem × List Event :=
  match ev with
  | .ctxDone =>
    ({ item with Status := "Cancelled", Progress := "Installation was cancelled" },
     [.log ("CANCELLED: " ++ item.Path)]
       ++ notify hasCallback item.Path "Cancelled"
       ++ [.updateUI ("Cancelled installation of " ++ lib.Base item.Path), .kill cmd])
  | .done stdout stderr result =>
    match cmdWait result with
    | some (.exitError exitCode) =>
      ({ item with Status := "Failed",
                   Progress := "Installation failed with exit code " ++ fmtInt exitCode },
       logOutput item.Path stdout stderr
         ++ [.log ("FAILED: " ++ item.Path ++ " - Exit code: " ++ fmtInt exitCode
                    ++ ", STDERR: " ++ stderr)]
         ++ notify hasCallback item.Path "Failed"
         ++ [.updateUI ("Failed to install " ++ lib.Base item.Path
                    ++ " (exit code " ++ fmtInt exitCode ++ ")")])
    | some (.other err) =>
      ({ item with Status := "Failed", Progress := "Installation failed: " ++ err },
       logOutput item.Path stdout stderr
         ++ [.log ("FAILED: " ++ item.Path ++ " - Error: " ++ err ++ ", STDERR: " ++ stderr)]
         ++ notify hasCallback item.Path "Failed"
         ++ [.updateUI ("Failed to install " ++ lib.Base item.Path ++ ": " ++ err)])
    | none =>
      ({ item with Status := "Completed", Progress := "Installation completed successfully" },
       logOutput item.Path stdout stderr
         ++ [.log ("COMPLETED: " ++ item.Path ++ " - Installation successful")]
         ++ notify hasCallback item.Path "Completed"
         ++ [.updateUI ("Successfully installed " ++ lib.Base item.Path)])

/-- What the environment does during one call of `executeInstaller`. -/
structure ExecEnv where
  /-- The cancellation scope is already done when `Start()` is called. -/
  ctxDoneAtStart : Bool
  /-- The error of spawning the process, if any. -/
  spawnErr : Option String
  /-- The case of the final `select` that fires. -/
  wait : WaitEvent

/-- The method `executeInstaller`, run from its first line to its return. -/
def executeInstaller (lib : GoLib) (hasCallback : Bool) (env : ExecEnv)
    (item : InstallerItem) : InstallerItem × List Event :=
  let (item1, ev1) := execBegin lib hasCallback item
  match execLaunch lib hasCallback env.ctxDoneAtStart env.spawnErr item1 with
  | (item2, ev2, none) => (item2, ev1 ++ ev2)
  | (item2, ev2, some (cmd, _)) =>
    let (item3, ev3) := execWait lib hasCallback cmd env.wait item2
    (item3, ev1 ++ ev2 ++ ev3)

/-- The process of this call was spawned: the command resolved and `Start()`
returned no error. -/
def spawned (lib : GoLib) (env : ExecEnv) (item : InstallerItem) : Bool :=
  (determineSilentFlags lib item.Path).1 ≠ "" ∧ cmdStart env.ctxDoneAtStart env.spawnErr = none

/-! ## The engine and its goroutines -/

/-- The struct `InstallerEngine`: the channels, the cancellation scope and the
running flag.  The two mutexes are the atomicity of the steps below; the
logger and the UI references are the `Event`s. -/
structure InstallerEngine where
  /-- The buffered channel `queue`, oldest element first. -/
  queue : List (Option Ref)
  /-- The channel `stop` has been closed (nothing is ever sent on it). -/
  stopClosed : Bool
  /-- The fields `ctx` and `cancel`: the identity of the current cancellation
  scope, `none` for `nil`. -/
  ctx : Option Nat
  /-- The field `running`. -/
  running : Bool
  /-- The field `statusCallback` is not `nil`. -/
  hasStatusCallback : Bool

/-- Capacity of the channel `queue` made by `NewInstallerEngine`. -/
def queueCap : Nat := 100

/-- A goroutine of the engine between two of its atomic steps. -/
inductive Goroutine where
  /-- A caller inside `Queue`, at the `select` of lines 154-164: the item it
  sends and the scope whose `Done()` it waits for. -/
  | queueSelect (item : Ref) (ctx : Nat)
  /-- The worker `processInstallations` at the `select` of lines 183-197. -/
  | workerSelect (ctx : Nat)
  /-- The worker has received an item and is about to call `executeInstaller`. -/
  | workerGot (item : Ref)
  /-- The worker inside `executeInstaller`, after line 216. -/
  | workerInstalling (item : Ref)
  /-- The worker inside `executeInstaller`, at the `select` of line 282, with
  the process of `cmd` started; `ctx` is the scope read from `engine.ctx` when
  the command was made (line 245). -/
  | workerWaiting (item : Ref) (ctx : Nat) (cmd : String)
  /-- The cleanup `cancelQueuedItems` at its `select`. -/
  | drainSelect
  /-- The cleanup has received an item and is about to mark it. -/
  | drainGot (item : Ref)
deriving DecidableEq, Repr

/-- The item pointer a goroutine holds in a local variable. -/
def Goroutine.item : Goroutine → Option Ref
  | .queueSelect item _ => some item
  | .workerSelect _ => none
  | .workerGot item => some item
  | .workerInstalling item => some item
  | .workerWaiting item _ _ => some item
  | .drainSelect => none
  | .drainGot item => some item

/-- The whole program state the engine acts on. -/
structure System where
  engine : InstallerEngine
  /-- The heap of items the callers own. -/
  items : Ref → InstallerItem
  /-- Number of cancellation scopes created so far. -/
  ctxCount : Nat
  /-- The scopes whose `cancel()` has been called. -/
  cancelled : List Nat
  /-- The goroutines launched so far (workers, cleanups, callers blocked in
  `Queue`), each at its position for good; `none` once it has returned. -/
  threads : List (Option Goroutine)
  /-- Log lines, callbacks and process operations so far, oldest first. -/
  events : List Event
  /-- A goroutine has panicked (the program is dead). -/
  panicked : Bool

/-- The state after `NewInstallerEngine`. -/
def newSystem (items : Ref → InstallerItem) (hasStatusCallback : Bool) : System :=
  { engine := { queue := [], stopClosed := false, ctx := none, running := false,
                hasStatusCallback := hasStatusCallback },
    items := items, ctxCount := 0, cancelled := [], threads := [], events := [],
    panicked := false }

/-- A write to the fields of `*item` under `stateMutex`. -/
def System.setItem (s : System) (item : Ref) (v : InstallerItem) : System :=
  { s with items := Function.update s.items item v }

/-- A state with more events. -/
def System.emit (s : System) (evs : List Event) : System :=
  { s with events := s.events ++ evs }

/-- The method `IsRunning`. -/
def IsRunning (s : System) : Bool := s.engine.running

/-- The method `GetQueueLength`. -/
def GetQueueLength (s : System) : Nat := s.engine.queue.length

/-- The scope `ctx` is done. -/
def System.ctxDone (s : System) (ctx : Nat) : Bool := decide (ctx ∈ s.cancelled)

/-- The method `Start`. -/
def Start (s : System) : System :=
  if s.engine.running then s
  else
    { s with engine := { s.engine with ctx := some s.ctxCount, running := true },
             ctxCount := s.ctxCount + 1,
             threads := s.threads ++ [some (.workerSelect s.ctxCount)] }

/-- The method `Stop`.  Closing the closed channel `stop` panics. -/
def Stop (s : System) : System :=
  if !s.engine.running then s
  else
    let s1 := { s.emit [.log "Stopping installer engine"] with
                cancelled := match s.engine.ctx with
                  | some c => c :: s.cancelled
                  | none => s.cancelled }
    if s.engine.stopClosed then { s1 with panicked := true }
    else
      { s1 with engine := { s.engine with stopClosed := true, running := false },
                threads := s.threads ++ [some .drainSelect] }

/-- The method `Queue` up to its `select` (lines 132-153); the caller then
waits as `Goroutine.queueSelect`.  Reading `Done()` of a `nil` scope panics. -/
def Queue (s : System) (item : Ref) : System :=
  let it := s.items item
  if !s.engine.running then
    (s.setItem item { it with Status := "Engine not running" }).emit
      [.log ("Failed to queue " ++ it.Path ++ ": engine not running")]
  else
    let s1 := (s.setItem item { it with Status := "Queued", Progress := "Waiting in queue" }).emit
      [.log ("Queued installer: " ++ it.Path)]
    match s.engine.ctx with
    | some c => { s1 with threads := s.threads ++ [some (.queueSelect item c)] }
    | none => { s1 with panicked := true }

/-- The worker arrives at the `select` of `processInstallations` and
evaluates `engine.ctx.Done()`. -/
def workerLoop (s : System) : System × Option Goroutine :=
  match s.engine.ctx with
  | some c => (s, some (.workerSelect c))
  | none => ({ s with panicked := true }, none)

/-- The deferred function of `processInstallations`, run when the worker
returns. -/
def workerExit (s : System) : System × Option Goroutine :=
  ({ s with engine := { s.engine with running := false } }, none)

/-- The choice the scheduler and the environment make for one goroutine. -/
inductive Move where
  /-- A `select` takes its send case. -/
  | send
  /-- A `select` takes its case `<-engine.ctx.Done()`. -/
  | ctxDone
  /-- A `select` takes its case `<-engine.stop`. -/
  | stop
  /-- A `select` takes its receive case `<-engine.queue`. -/
  | recv
  /-- A `select` takes its `default` case. -/
  | dflt
  /-- The goroutine runs its next statements up to the next blocking point. -/
  | run
  /-- The worker resolves the command and calls `Start()`, which meets the
  given spawn error. -/
  | launch (spawnErr : Option String)
  /-- The `select` of `executeInstaller` takes the `done` case with the given
  captured output and process end. -/
  | finish (stdout stderr : String) (result : ProcExit)
deriving DecidableEq, Repr

/-- One atomic step of a goroutine: the new shared state and the goroutine's
next program point (`none` when it has returned), or `none` when the move is
not enabled.  The send case of `Queue` is the send into the buffer of the
channel; the send to a worker that waits in its `select` is `handOff`. -/
def goStep (lib : GoLib) (s : System) : Goroutine → Move → Option (System × Option Goroutine)
  | .queueSelect item _, .send =>
    if s.engine.queue.length < queueCap then
      some (({ s with engine := { s.engine with queue := s.engine.queue ++ [some item] } }).emit
        [.log ("Successfully added " ++ (s.items item).Path ++ " to installation queue")], none)
    else none
  | .queueSelect item ctx, .ctxDone =>
    if s.ctxDone ctx then
      some ((s.setItem item { s.items item with
                Status := "Cancelled", Progress := "Installation engine was stopped" }).emit
        [.log ("Cancelled queueing of " ++ (s.items item).Path ++ ": engine stopped")], none)
    else none
  | .workerSelect _, .stop =>
    if s.engine.stopClosed then some (workerExit s) else none
  | .workerSelect ctx, .ctxDone =>
    if s.ctxDone ctx then some (workerExit s) else none
  | .workerSelect _, .recv =>
    match s.engine.queue with
    | [] => none
    | none :: rest => some (workerLoop { s with engine := { s.engine with queue := rest } })
    | some item :: rest =>
      some ({ s with engine := { s.engine with queue := rest } }, some (.workerGot item))
  | .workerGot item, .run =>
    let (it, evs) := execBegin lib s.engine.hasStatusCallback (s.items item)
    some ((s.setItem item it).emit evs, some (.workerInstalling item))
  | .workerInstalling item, .launch spawnErr =>
    match s.engine.ctx with
    | none => some ({ s with panicked := true }, none)
    | some c =>
      match execLaunch lib s.engine.hasStatusCallback (s.ctxDone c) spawnErr (s.items item) with
      | (it, evs, none) => some (workerLoop ((s.setItem item it).emit evs))
      | (it, evs, some (cmd, _)) =>
        some ((s.setItem item it).emit evs, some (.workerWaiting item c cmd))
  | .workerWaiting item ctx cmd, .ctxDone =>
    if s.ctxDone ctx then
      let (it, evs) := execWait lib s.engine.hasStatusCallback cmd .ctxDone (s.items item)
      some (workerLoop ((s.setItem item it).emit evs))
    else none
  | .workerWaiting item _ cmd, .finish stdout stderr result =>
    let (it, evs) := execWait lib s.engine.hasStatusCallback cmd (.done stdout stderr result)
      (s.items item)
    some (workerLoop ((s.setItem item it).emit evs))
  | .drainSelect, .recv =>
    match s.engine.queue with
    | [] => none
    | none :: rest => some ({ s with engine := { s.engine with queue := rest } }, some .drainSelect)
    | some item :: rest =>
      some ({ s with engine := { s.engine with queue := rest } }, some (.drainGot item))
  | .drainSelect, .dflt =>
    if s.engine.queue = [] then some (s, none) else none
  | .drainGot item, .run =>
    some ((s.setItem item { s.items item with
              Status := "Cancelled", Progress := "Installation was cancelled before execution" }).emit
      [.log ("CANCELLED (queued): " ++ (s.items item).Path)], some .drainSelect)
  | _, _ => none

/-- What can happen next: a call of the API by some caller, or a step of the
goroutine at position `g` of `threads`. -/
inductive Action where
  | callStart
  | callStop
  | callQueue (item : Ref)
  | go (g : Nat) (m : Move)
deriving DecidableEq, Repr

/-- One step of the program; `none` when the action is not enabled. -/
def step (lib : GoLib) (s : System) (a : Action) : Option System :=
  if s.panicked then none
  else
    match a with
    | .callStart => some (Start s)
    | .callStop => some (Stop s)
    | .callQueue item => some (Queue s item)
    | .go g m =>
      match s.threads[g]? with
      | some (some t) =>
        match goStep lib s t m with
        | none => none
        | some (s1, next) => some { s1 with threads := s.threads.set g next }
      | _ => none

/-- The state after a schedule; `none` when one of its actions is not enabled. -/
def run (lib : GoLib) : System → List Action → Option System
  | s, [] => some s
  | s, a :: rest =>
    match step lib s a with
    | none => none
    | some s1 => run lib s1 rest

/-- The field `Status` of an item. -/
def System.status (s : System) (item : Ref) : String := (s.items item).Status

/-- The statuses of the items in the given list. -/
def System.statusOf (s : System) (items : List Ref) : List String :=
  items.map s.status

/-- The goroutines that have not returned. -/
def System.live (s : System) : List Goroutine :=
  s.threads.filterMap id

/-- The engine holds no reference to the item: it is not in the queue and no
goroutine has it in a local variable. -/
def System.holdsNot (s : System) (item : Ref) : Prop :=
  some item ∉ s.engine.queue ∧ ∀ t ∈ s.live, t.item ≠ some item

/-- The values of the item's `Status` along a schedule: in the starting state
and after each action, up to the first action that is not enabled. -/
def statuses (lib : GoLib) (item : Ref) : System → List Action → List String
  | s, [] => [s.status item]
  | s, a :: rest =>
    s.status item ::
      match step lib s a with
      | none => []
      | some s1 => statuses lib item s1 rest

/-- A sequence of observations without its repetitions: the sequence of values
taken. -/
def changes : List String → List String
  | [] => []
  | [x] => [x]
  | x :: y :: rest => if x = y then changes (y :: rest) else x :: changes (y :: rest)

/-- The terminal statuses. -/
def terminal (status : String) : Prop :=
  status = "Completed" ∨ status = "Failed" ∨ status = "Cancelled"

/-- The status changes of the item state machine that the engine makes. -/
def Allowed (a b : String) : Prop :=
  (a = "Queued" ∧ b = "Installing") ∨ (a = "Installing" ∧ terminal b) ∨
    (a = "Queued" ∧ b = "Cancelled")

/-- The status a goroutine last saw or wrote on the item it holds. -/
def Goroutine.expects : Goroutine → String
  | .workerInstalling _ => "Installing"
  | .workerWaiting _ _ _ => "Installing"
  | _ => "Queued"

/-- The engine holds at most one reference to the item, and the item's status
`st` is the one its holder expects; `n` is the number of times the item is in
the queue and `ths` are the goroutines. -/
def TrackedCore (r : Ref) (n : Nat) (st : String) (ths : List (Option Goroutine)) : Prop :=
  n ≤ 1 ∧ (0 < n → st = "Queued") ∧
    ∀ (g : Nat) (t : Goroutine), ths[g]? = some (some t) → t.item = some r →
      n = 0 ∧ st = t.expects ∧
        ∀ (g1 : Nat) (t1 : Goroutine), ths[g1]? = some (some t1) → t1.item = some r → g1 = g

/-- The invariant of an item that was handed to the engine once. -/
def Tracked (s : System) (r : Ref) : Prop :=
  TrackedCore r (s.engine.queue.count (some r)) (s.status r) s.threads

/-- What one step of a goroutine `t` does to the shared state. -/
inductive Effect (s s1 : System) (t : Goroutine) (next : Option Goroutine) : Prop where
  /-- No item is touched. -/
  | idle (ht : t.item = none) (hnext : ∀ t1, next = some t1 → t1.item = none)
      (hitems : s1.items = s.items) (hqueue : s1.engine.queue = s.engine.queue)
  /-- A `nil` is received from the queue. -/
  | recvNil (ht : t.item = none) (hnext : ∀ t1, next = some t1 → t1.item = none)
      (hitems : s1.items = s.items) (hqueue : s.engine.queue = none :: s1.engine.queue)
  /-- An item is received from the queue. -/
  | recv (it : Ref) (t1 : Goroutine) (ht : t.item = none) (hnext : next = some t1)
      (hit : t1.item = some it) (hexp : t1.expects = "Queued")
      (hitems : s1.items = s.items) (hqueue : s.engine.queue = some it :: s1.engine.queue)
  /-- The held item is sent to the queue. -/
  | send (it : Ref) (ht : t.item = some it) (hexp : t.expects = "Queued") (hnext : next = none)
      (hitems : s1.items = s.items) (hqueue : s1.engine.queue = s.engine.queue ++ [some it])
  /-- The held item is written (or left as it is). -/
  | write (it : Ref) (ht : t.item = some it)
      (hnext : ∀ t1, next = some t1 →
        t1.item = none ∨
          (t1.item = some it ∧ (s.status it = t.expects → s1.status it = t1.expects)))
      (hother : ∀ r, r ≠ it → s1.items r = s.items r)
      (hqueue : s1.engine.queue = s.engine.queue)
      (htrans : s.status it = t.expects →
        s1.status it = s.status it ∨ Allowed (s.status it) (s1.status it))

/-- A heap with `a.msi`, `b.exe` and `c.unknown` at addresses 0, 1 and 2, all
`Ready`. -/
def sampleItems : Ref → InstallerItem := fun r =>
  { Path := if r = 0 then "a.msi" else if r = 1 then "b.exe" else "c.unknown",
    Size := 0, Selected := true, Status := "Ready", Progress := "" }

/-- A schedule with a restart: `a.msi` is queued and its process started, the
engine is stopped and started again before the first worker has looked at its
cancelled scope, `b.exe` is queued and the second worker begins to install
it. -/
def schedRestart : List Action :=
  [.callStart, .callQueue 0, .go 1 .send, .go 0 .recv, .go 0 .run, .go 0 (.launch none),
   .callStop, .callStart, .callQueue 1, .go 4 .send, .go 3 .recv, .go 3 .run]

/-- A schedule of one run: `a.msi` and `b.exe` are queued in this order, the
engine is stopped, the cleanup receives `a.msi`, and before it marks it the
worker receives `b.exe` and begins to install it. -/
def schedOvertake : List Action :=
  [.callStart, .callQueue 0, .go 1 .send, .callQueue 1, .go 2 .send, .callStop,
   .go 3 .recv, .go 0 .recv, .go 0 .run]

/-- The start of a run up to `Stop()`: `a.msi` and `b.exe` are queued and still
waiting in the queue when the engine is stopped. -/
def schedStopWithTwoQueued : List Action :=
  [.callStart, .callQueue 0, .go 1 .send, .callQueue 1, .go 2 .send, .callStop]

/-- After `Stop()`: the worker's `select` takes `a.msi` from the queue and runs
it, the cleanup takes `b.exe`, then both return. -/
def schedWorkerTakesOne : List Action :=
  [.go 0 .recv, .go 0 .run, .go 0 (.launch none), .go 3 .recv, .go 3 .run, .go 3 .dflt,
   .go 0 .stop]

/-- After `Queue(a.msi)` on a started engine: the item is enqueued, the engine
is stopped, the cleanup cancels the item, and worker and cleanup return. -/
def schedCancelQueued : List Action :=
  [.go 1 .send, .callStop, .go 2 .recv, .go 2 .run, .go 2 .dflt, .go 0 .stop]

/-- After `Queue(b.exe)` on a started engine: the item is enqueued, received
by the worker, installed, and its process exits with code 0. -/
def schedInstall : List Action :=
  [.go 1 .send, .go 0 .recv, .go 0 .run, .go 0 (.launch none),
   .go 0 (.finish "done" "" (.exited 0))]

/-- The goroutine runs `processInstallations`. -/
def Goroutine.isWorker : Goroutine → Bool
  | .workerSelect _ => true
  | .workerGot _ => true
  | .workerInstalling _ => true
  | .workerWaiting _ _ _ => true
  | _ => false

/-- The goroutine is inside `executeInstaller`. -/
def Goroutine.inExec : Goroutine → Bool
  | .workerGot _ => true
  | .workerInstalling _ => true
  | .workerWaiting _ _ _ => true
  | _ => false

/-- Number of live workers. -/
def System.workers (s : System) : Nat :=
  s.live.countP Goroutine.isWorker

/-- The scopes in use were made by earlier calls of `Start`: the counter of
scopes is above the current scope and above every cancelled scope. -/
def System.scopesMade (s : System) : Prop :=
  (∀ c ∈ s.cancelled, c < s.ctxCount) ∧ ∀ c, s.engine.ctx = some c → c < s.ctxCount

/-- The six values of `Status` in the data model. -/
def sixStatuses : List String :=
  ["Ready", "Queued", "Installing", "Completed", "Failed", "Cancelled"]

/-- An event is a call of one of the two registered observers. -/
def Event.isCallback : Event → Bool
  | .statusCallback _ _ => true
  | .progressCallback => true
  | _ => false

/-- A `Queue` call overtaken by `Stop()`: the caller has seen the engine
running and marked `a.msi`, then the engine is stopped, the cleanup finds the
queue empty and returns, and the worker returns. -/
def schedQueueThenStop : List Action :=
  [.callStart, .callQueue 0, .callStop, .go 2 .dflt, .go 0 .stop]

/-- The engine is started, stopped and started again. -/
def schedStartStopStart : List Action :=
  [.callStart, .callStop, .callStart]

/-- The engine has not been stopped yet: nothing has panicked, the channel
`stop` is open, no scope is cancelled, and there is one live worker exactly
when the engine is running. -/
def FirstRun (s : System) : Prop :=
  s.panicked = false ∧ s.engine.stopClosed = false ∧ s.cancelled = [] ∧
    (s.engine.running = true → s.engine.ctx ≠ none ∧ s.workers = 1) ∧
    (s.engine.running = false → s.workers = 0)

/-- The next program point of a goroutine is a worker's. -/
def nextIsWorker : Option Goroutine → Bool
  | some t => t.isWorker
  | none => false

/-- What a step leaves alone and what it may change: the scopes, the channel
`stop` and the registered callback stay, the events `evs` are appended, and
at most the one item of `w` is written. -/
def Touch (s s1 : System) (evs : List Event) (w : Option (Ref × InstallerItem)) : Prop :=
  s1.cancelled = s.cancelled ∧ s1.ctxCount = s.ctxCount ∧ s1.engine.ctx = s.engine.ctx ∧
    s1.engine.stopClosed = s.engine.stopClosed ∧
    s1.engine.hasStatusCallback = s.engine.hasStatusCallback ∧
    s1.events = s.events ++ evs ∧
    s1.items = match w with
      | none => s.items
      | some (it, v) => Function.update s.items it v

/-- A write of `executeInstaller`: the path stays, the progress callback is
not called, and a new status is one of four values and is reported to the
registered status callback. -/
def ExecWrite (cb : Bool) (item v : InstallerItem) (evs : List Event) : Prop :=
  v.Path = item.Path ∧ Event.progressCallback ∉ evs ∧
    (v.Status = item.Status ∨
      (v.Status ∈ ["Installing", "Completed", "Failed", "Cancelled"] ∧
        (cb = true → Event.statusCallback item.Path v.Status ∈ evs)))

/-- A write of `Queue` or of `cancelQueuedItems` after the engine was stopped:
the path stays, the status becomes `Cancelled`, and no callback is called. -/
def QuietWrite (item v : InstallerItem) (evs : List Event) : Prop :=
  v.Path = item.Path ∧ v.Status = "Cancelled" ∧ ∀ e ∈ evs, Event.isCallback e = false

/-- The item written by a step of the goroutine `t` and the events of the
step. -/
def Written (s : System) (t : Goroutine) (evs : List Event) :
    Option (Ref × InstallerItem) → Prop
  | none => ∀ e ∈ evs, Event.isCallback e = false
  | some (it, v) =>
    t.item = some it ∧
      ((t.inExec = true ∧ ExecWrite s.engine.hasStatusCallback (s.items it) v evs) ∨
        (t.inExec = false ∧ QuietWrite (s.items it) v evs))

/-- A heap like `sampleItems` whose items are all `Completed`. -/
def doneItems : Ref → InstallerItem := fun r =>
  { sampleItems r with Status := "Completed", Progress := "Installation completed successfully" }

/-- The callbacks among the events. -/
def callbacks (evs : List Event) : List Event :=
  evs.filter Event.isCallback

/-- A running engine with the status callback registered whose worker has
just received `b.exe` and is about to call `executeInstaller`. -/
def gotSystem : System :=
  { Start (newSystem sampleItems true) with threads := [some (.workerGot 1)] }

/-! ## The flag prober `tryExecuteWithFlags` -/

/-- What the environment does for one flag set of `tryExecuteWithFlags`. -/
structure Probe where
  /-- The flag set. -/
  flags : List String
  /-- The error of the trial `cmd.Run()` under the ten-second timeout. -/
  trial : Option ExecError
  /-- The scope `engine.ctx` is done when the trial has ended. -/
  ctxDone : Bool
  /-- The error of the full run `fullCmd.Run()` with this flag set, if it is
  made. -/
  full : Option ExecError

/-- The errors `tryExecuteWithFlags` returns: the error of a full run, the
error `engine.ctx.Err()` of the cancelled scope, or the error made by
`fmt.Errorf("no suitable silent installation flags found")`. -/
inductive TryError where
  | run (e : ExecError)
  | ctxErr
  | noSuitableFlags
deriving DecidableEq, Repr

/-- The method `tryExecuteWithFlags`: the error returned (`none` for `nil`)
and the flag sets of the runs made, in order.  Every run is a run of the file
`filePath` itself, which is left out.  `ctxSet` says that `engine.ctx` is not
`nil`; with a `nil` scope `exec.CommandContext` panics at the first flag set,
and the result is `none`. -/
def tryExecuteWithFlags (ctxSet : Bool) :
    List Probe → Option (Option TryError × List (List String))
  | [] => some (some .noSuitableFlags, [])
  | p :: rest =>
    if !ctxSet then none
    else if p.ctxDone then some (some .ctxErr, [p.flags])
    else
      match p.trial with
      | none => some (p.full.map .run, [p.flags, p.flags])
      | some (.exitError exitCode) =>
        if exitCode ≠ 1 ∧ exitCode ≠ 87 then some (p.full.map .run, [p.flags, p.flags])
        else (tryExecuteWithFlags ctxSet rest).map (fun r => (r.1, p.flags :: r.2))
      | some (.other _) =>
        (tryExecuteWithFlags ctxSet rest).map (fun r => (r.1, p.flags :: r.2))

/-- The trial run succeeded or exited with a code other than 1 and 87. -/
def Probe.accepted (p : Probe) : Prop :=
  p.trial = none ∨ ∃ c, p.trial = some (.exitError c) ∧ c ≠ 1 ∧ c ≠ 87

/-- The trial run exited with code 1 or 87 or failed with an error that is
not an exit-code error. -/
def Probe.rejected (p : Probe) : Prop :=
  p.trial = some (.exitError 1) ∨ p.trial = some (.exitError 87) ∨ ∃ t, p.trial = some (.other t)

/-- Four flag sets: the first is refused with code 87, the second cannot be
run, the third exits with code 3 in the trial and with code 0 in full, the
fourth would be accepted as well. -/
def sampleProbes : List Probe :=
  [⟨["/S"], some (.exitError 87), false, none⟩,
   ⟨["/silent"], some (.other "fork/exec: permission denied"), false, none⟩,
   ⟨["/qn"], some (.exitError 3), false, none⟩,
   ⟨["/quiet"], none, false, none⟩]

/-! ## File sizes and the installer list of the window (`main.go`) -/

/-- Wrap-around of `int64` arithmetic. -/
def wrap64 (x : Int) : Int := (x + 2 ^ 63) % 2 ^ 64 - 2 ^ 63

/-- The loop of `formatFileSize`, `for n := bytes / unit; n >= unit; n /= unit`,
from the state `(n, div, exp)`; `none` when the fuel runs out. -/
def unitLoop : Nat → Int → Int → Nat → Option (Int × Nat)
  | 0, _, _, _ => none
  | fuel + 1, n, div, exp =>
    if n ≥ 1024 then unitLoop fuel (n / 1024) (wrap64 (div * 1024)) (exp + 1)
    else some (div, exp)

/-- The method `formatFileSize`.  The text of `%.1f` applied to
`float64(bytes)/float64(div)` is floating-point arithmetic and formatting of
the standard library; it is the parameter `scaled`.  The result is `none` when
the index into `"KMGTPE"` is out of range (a panic) or the fuel runs out. -/
def formatFileSize (scaled : Int → Int → String) (bytes : Int) : Option String :=
  if bytes < 1024 then some (fmtInt bytes ++ " B")
  else
    match unitLoop 64 (bytes / 1024) 1024 0 with
    | none => none
    | some (div, exp) =>
      match "KMGTPE".data[exp]? with
      | none => none
      | some c => some (scaled bytes div ++ " " ++ String.mk [c] ++ "B")

/-- The number of low bits that a non-negative `int64` loses in a `float64`,
whose significand has 53 bits; ten halvings are enough below `2^63`. -/
def lostBits : Nat → Int → Nat
  | 0, _ => 0
  | fuel + 1, x => if x < 2 ^ 53 then 0 else lostBits fuel (x / 2) + 1

/-- The conversion `float64(bytes)` for `bytes < 2^63`, as the integer that
the result denotes: the nearest number with 53 significant bits, ties to the
even significand.  Negative values, which are exact down to `-2^53`, do not
reach the conversion. -/
def toFloat64 (x : Int) : Int :=
  let low := 2 ^ lostBits 10 x
  let q := x / low
  let r := x % low
  if 2 * r > low ∨ (2 * r = low ∧ q % 2 = 1) then (q + 1) * low else q * low

/-- The number of tenths that `%.1f` prints for the quotient `num / den`: the
decimal expansion of the `float64` is rounded to one digit after the point,
ties to the even digit.  The quotient of a `float64` by a power of two up to
`2^60`, as `float64(bytes)/float64(div)` is, is exact. -/
def roundTenths (num den : Int) : Int :=
  let q := 10 * num / den
  let r := 10 * num % den
  if 2 * r > den ∨ (2 * r = den ∧ q % 2 = 1) then q + 1 else q

/-- The decimal text of a non-negative number of tenths, as `%.1f` prints
it. -/
def fmtTenths (t : Int) : String := fmtInt (t / 10) ++ "." ++ fmtInt (t % 10)

/-- The text of `%.1f` applied to `float64(bytes)/float64(div)`. -/
def sprintfScaled (bytes div : Int) : String :=
  fmtTenths (roundTenths (toFloat64 bytes) div)

/-- In the words of the specification: `t` tenths are `num / den` rounded to
one decimal place, that is, no multiple of 0.1 is nearer to `num / den` than
`t / 10`. -/
def NearestTenth (num den t : Int) : Prop :=
  2 * (10 * num - t * den) ≤ den ∧ 2 * (t * den - 10 * num) ≤ den

/-- The struct `UI` of `main.go`, without its widgets and bindings.  The
elements of the slice `installers` are the heap cells `0 .. count-1` of `sys`,
so that `&ui.installers[i]` is the address `i`; `engine` is the engine of
`sys`.  The progress value `float64(a)/float64(b)` is kept as the pair
`(a, b)`, and `0.0` as `(0, 1)`. -/
structure UI where
  sys : System
  /-- The length of `installers`. -/
  count : Nat
  /-- The map `installerMap`; a missing key reads `false`. -/
  installerMap : String → Bool
  totalSelected : Int
  completedItems : Int
  overallProgress : Int × Int

/-- The slice `ui.installers`. -/
def UI.installers (ui : UI) : List InstallerItem :=
  (List.range ui.count).map ui.sys.items

/-- The window after `setupUI` with the given installers in the list: the
engine is new and has `updateItemStatus` registered as status callback. -/
def newUI (items : Ref → InstallerItem) (count : Nat) : UI :=
  { sys := newSystem items true, count := count,
    installerMap := fun p => decide (p ∈ (List.range count).map (fun i => (items i).Path)),
    totalSelected := 0, completedItems := 0, overallProgress := (0, 1) }

/-- One entry met by `filepath.WalkDir` in `scanDefaultFolder`: the arguments
of the callback and the result of `d.Info()` (the size, `none` for an
error). -/
structure WalkEntry where
  path : String
  name : String
  isDir : Bool
  walkErr : Bool
  info : Option Int

/-- The callback of `filepath.WalkDir` in `scanDefaultFolder` (lines 288-334),
on the items found so far. -/
def scanEntry (lib : GoLib) (found : List InstallerItem) (e : WalkEntry) : List InstallerItem :=
  if e.walkErr then found
  else if !e.isDir then
    let ext := lib.ToLower (lib.Ext e.name)
    if ext = ".exe" || ext = ".msi" then
      match e.info with
      | none => found
      | some size =>
        found ++ [{ Path := e.path, Size := size, Selected := false, Status := "Ready",
                    Progress := "" }]
    else found
  else found

/-- The items collected by the walk of `scanDefaultFolder`. -/
def scanFound (lib : GoLib) (entries : List WalkEntry) : List InstallerItem :=
  entries.foldl (scanEntry lib) []

/-- The method `addInstallerFromPath`, with the result of `os.Stat` (the
size, `none` for an error). -/
def addInstallerFromPath (ui : UI) (filePath : String) (stat : Option Int) : UI × Bool :=
  match stat with
  | none => (ui, false)
  | some size =>
    ({ ui with
        sys := ui.sys.setItem ui.count
          { Path := filePath, Size := size, Selected := false, Status := "Ready", Progress := "" },
        count := ui.count + 1,
        installerMap := Function.update ui.installerMap filePath true },
     true)

/-- One dropped path with what the file system answers for it: whether the
first `os.Stat` reports that it does not exist, and the result of the
`os.Stat` in `addInstallerFromPath`. -/
structure Dropped where
  path : String
  notExist : Bool
  stat : Option Int

/-- The body of the loop of `processDroppedFiles` (lines 144-168), on the
window and the two counters. -/
def dropFile (lib : GoLib) (st : UI × Nat × Nat) (f : Dropped) : UI × Nat × Nat :=
  let (ui, addedCount, skippedCount) := st
  if f.notExist then (ui, addedCount, skippedCount + 1)
  else
    let ext := lib.ToLower (lib.Ext f.path)
    if ext ≠ ".exe" && ext ≠ ".msi" then (ui, addedCount, skippedCount + 1)
    else if ui.installerMap f.path then (ui, addedCount, skippedCount + 1)
    else
      match addInstallerFromPath ui f.path f.stat with
      | (ui1, true) => (ui1, addedCount + 1, skippedCount)
      | (ui1, false) => (ui1, addedCount, skippedCount)

/-- The method `processDroppedFiles`: the window after the loop and the
counters `addedCount` and `skippedCount` that make the status message. -/
def processDroppedFiles (lib : GoLib) (ui : UI) (filePaths : List Dropped) : UI × Nat × Nat :=
  filePaths.foldl (dropFile lib) (ui, 0, 0)

/-- No two entries of `installers` share a path, and `installerMap` is true
exactly for the paths in `installers`. -/
def UI.noDuplicates (ui : UI) : Prop :=
  (ui.installers.map InstallerItem.Path).Nodup ∧
    ∀ p, ui.installerMap p = true ↔ p ∈ ui.installers.map InstallerItem.Path

/-- The file names of `TestDirectoryScanning`, as regular files of 12 bytes. -/
def sampleEntries : List WalkEntry :=
  ["installer1.exe", "installer2.msi", "document.txt", "script.bat", "setup.EXE"].map
    (fun name => ⟨"tmp/" ++ name, name, false, false, some 12⟩)

/-- A drop that repeats a path, has a path already in the list and one file
that is no installer. -/
def sampleDrop : List Dropped :=
  [⟨"new.exe", false, some 1⟩, ⟨"new.exe", false, some 1⟩, ⟨"a.msi", false, some 1⟩,
   ⟨"notes.txt", false, some 1⟩]

/-- The index of the first installer with the given path: the loop
`for i := range ui.installers` with `if ui.installers[i].Path == path` and
`break`. -/
def UI.findPath (ui : UI) (path : String) : Option Nat :=
  (List.range ui.count).find? (fun i => (ui.sys.items i).Path = path)

/-- The method `updateOverallProgress`, without the status text. -/
def updateOverallProgress (ui : UI) : UI :=
  if ui.totalSelected = 0 then { ui with overallProgress := (0, 1) }
  else { ui with overallProgress := (ui.completedItems, ui.totalSelected) }

/-- The method `updateItemStatus`, the status callback of the engine, without
the status label. -/
def updateItemStatus (ui : UI) (path status : String) : UI :=
  match ui.findPath path with
  | none => ui
  | some i =>
    let ui1 := { ui with sys := ui.sys.setItem i { ui.sys.items i with Status := status } }
    if status = "Completed" ∨ status = "Failed" ∨ status = "Cancelled" then
      updateOverallProgress { ui1 with completedItems := ui1.completedItems + 1 }
    else ui1

/-- The method `getSelectedInstallersCount`. -/
def getSelectedInstallersCount (ui : UI) : Int :=
  (ui.installers.filter (fun it => it.Selected)).length

/-- The call `engine.Queue(item)` from its first line to its return by the
send case of its `select`; `none` when the send has to wait for room in the
queue. -/
def queueCall (lib : GoLib) (s : System) (item : Ref) : Option System :=
  if s.engine.running then step lib (Queue s item) (.go s.threads.length .send)
  else some (Queue s item)

/-- The second loop of `onStartClicked`: every selected installer is
queued. -/
def queueSelected (lib : GoLib) : System → List Ref → Option System
  | s, [] => some s
  | s, i :: rest =>
    if (s.items i).Selected then
      match queueCall lib s i with
      | none => none
      | some s1 => queueSelected lib s1 rest
    else queueSelected lib s rest

/-- The handler `onStartClicked`, run as one step of the UI goroutine. -/
def onStartClicked (lib : GoLib) (ui : UI) : Option UI :=
  let selectedCount := getSelectedInstallersCount ui
  if selectedCount = 0 then some ui
  else
    let ui1 := { ui with totalSelected := selectedCount, completedItems := 0 }
    let ui2 := (List.range ui1.count).foldl
      (fun u i =>
        if (u.sys.items i).Selected then updateItemStatus u (u.sys.items i).Path "Queued" else u)
      ui1
    match queueSelected lib (Start ui2.sys) (List.range ui2.count) with
    | none => none
    | some s => some (updateOverallProgress { ui2 with sys := s })

/-- The handler `onStopClicked`; when `engine.Stop()` panics the handler does
not go on. -/
def onStopClicked (ui : UI) : UI :=
  let ui1 := { ui with sys := Stop ui.sys }
  if ui1.sys.panicked then ui1
  else
    let ui2 := (List.range ui1.count).foldl
      (fun u i =>
        if (u.sys.items i).Selected &&
            ((u.sys.items i).Status = "Installing" || (u.sys.items i).Status = "Queued") then
          updateItemStatus u (u.sys.items i).Path "Cancelled"
        else u)
      ui1
    { ui2 with overallProgress := (0, 1) }

/-- The handler `onClearClicked`. -/
def onClearClicked (ui : UI) : UI :=
  let ui1 := (List.range ui.count).foldl
    (fun u i =>
      updateItemStatus
        { u with sys := u.sys.setItem i { u.sys.items i with Selected := false } }
        (u.sys.items i).Path "Ready")
    ui
  { ui1 with totalSelected := 0, completedItems := 0, overallProgress := (0, 1) }

/-- The calls of the status callback among the events are made, in order. -/
def deliver (ui : UI) : List Event → UI
  | [] => ui
  | .statusCallback path status :: rest => deliver (updateItemStatus ui path status) rest
  | _ :: rest => deliver ui rest

/-- What can happen next in the window: a click, or a step of a goroutine of
the engine. -/
inductive UIAction where
  | clickStart
  | clickStop
  | clickClear
  | engine (g : Nat) (m : Move)
deriving DecidableEq, Repr

/-- One step of the window; a step of the engine runs the status callbacks it
calls. -/
def uiStep (lib : GoLib) (ui : UI) (a : UIAction) : Option UI :=
  if ui.sys.panicked then none
  else
    match a with
    | .clickStart => onStartClicked lib ui
    | .clickStop => some (onStopClicked ui)
    | .clickClear => some (onClearClicked ui)
    | .engine g m =>
      match step lib ui.sys (.go g m) with
      | none => none
      | some s1 => some (deliver { ui with sys := s1 } (s1.events.drop ui.sys.events.length))

/-- The window after a sequence of steps. -/
def uiRun (lib : GoLib) : UI → List UIAction → Option UI
  | ui, [] => some ui
  | ui, a :: rest =>
    match uiStep lib ui a with
    | none => none
    | some ui1 => uiRun lib ui1 rest

/-- A heap like `sampleItems` in which only `a.msi` is selected. -/
def oneSelected : Ref → InstallerItem := fun r =>
  { sampleItems r with Selected := decide (r = 0) }

/-- Start is clicked with `a.msi` selected and the worker starts its process;
then Stop is clicked while the item is `Installing`. -/
def clicksStartStop : List UIAction :=
  [.clickStart, .engine 0 .recv, .engine 0 .run, .engine 0 (.launch none), .clickStop]

/-- A send on `engine.queue` by the caller at position `g` while the worker
at position `r` waits in its `select` with no case ready, so that the buffer is
empty: the channel hands the item to the waiting receiver and the item never
enters the buffer.  Only a worker can wait so: the `select` of
`cancelQueuedItems` has a `default` case. -/
def handOff (s : System) (g r : Nat) : Option System :=
  if s.panicked then none
  else
    match s.threads[g]?, s.threads[r]? with
    | some (some (.queueSelect item _)), some (some (.workerSelect ctx)) =>
      if s.engine.queue = [] ∧ s.engine.stopClosed = false ∧ s.ctxDone ctx = false then
        some { s.emit [.log ("Successfully added " ++ (s.items item).Path
                  ++ " to installation queue")] with
               threads := (s.threads.set g none).set r (some (.workerGot item)) }
      else none
    | _, _ => none

/-- The process of `a.msi` is started and the engine is stopped before the
worker has looked at the `select` at the end of `executeInstaller`. -/
def schedStopWhileInstalling : List Action :=
  [.callStart, .callQueue 0, .go 1 .send, .go 0 .recv, .go 0 .run, .go 0 (.launch none),
   .callStop]

/-- The event is a kill of a child process. -/
def Event.isKill : Event → Bool
  | .kill _ => true
  | _ => false

/-! # Theorems -/

/-! ## The command resolver and the process runner -/

theorem notify_no_spawn (cb : Bool) (path status cmd : String) (args : List String) :
    Event.spawn cmd args ∉ notify cb path status := by
  unfold notify
  split <;> simp

/-- C2: a path whose lower-cased extension is `.msi` resolves to the command
`msiexec` with exactly the arguments `/i`, the path unchanged, `/qn` and
`/norestart`. -/
theorem determineSilentFlags_msi (lib : GoLib) (filePath : String)
    (hext : lib.ToLower (lib.Ext filePath) = ".msi") :
    determineSilentFlags lib filePath = ("msiexec", ["/i", filePath, "/qn", "/norestart"]) := by
  simp [determineSilentFlags, hext]

theorem determineSilentFlags_msi_witness :
    unixLib.ToLower (unixLib.Ext "test/Setup.MSI") = ".msi" ∧
    determineSilentFlags unixLib "test/Setup.MSI"
      = ("msiexec", ["/i", "test/Setup.MSI", "/qn", "/norestart"]) :=
  ⟨by decide, determineSilentFlags_msi unixLib "test/Setup.MSI" (by decide)⟩

/-- C3: a path whose lower-cased extension is `.exe` resolves to the path
itself as the command and the single argument `/S`, the first entry of the
ordered candidate list; the result is a function of the path alone. -/
theorem determineSilentFlags_exe (lib : GoLib) (filePath : String)
    (hext : lib.ToLower (lib.Ext filePath) = ".exe") :
    determineSilentFlags lib filePath = (filePath, ["/S"]) ∧
    silentFlags = [["/S"], ["/silent"], ["/qn"], ["/quiet"], ["/VERYSILENT"]] ∧
    silentFlags.head? = some (determineSilentFlags lib filePath).2 ∧
    (∀ other : String, other = filePath →
      determineSilentFlags lib other = determineSilentFlags lib filePath) := by
  have hne : (".exe" : String) ≠ ".msi" := by decide
  refine ⟨?_, rfl, ?_, ?_⟩
  · simp [determineSilentFlags, hext, hne, silentFlags]
  · simp [determineSilentFlags, hext, hne, silentFlags]
  · intro other h
    rw [h]

theorem determineSilentFlags_exe_witness :
    unixLib.ToLower (unixLib.Ext "b.EXE") = ".exe" ∧
    determineSilentFlags unixLib "b.EXE" = ("b.EXE", ["/S"]) :=
  ⟨by decide, (determineSilentFlags_exe unixLib "b.EXE" (by decide)).1⟩

/-- C4: the resolver returns the "no command" sentinel (empty command, no
arguments) exactly when the lower-cased extension is neither `.msi` nor
`.exe`; this is the case of `c.unknown`, `notes.txt` and `setup`. -/
theorem determineSilentFlags_none_iff :
    (∀ (lib : GoLib) (filePath : String),
      determineSilentFlags lib filePath = ("", []) ↔
        (lib.ToLower (lib.Ext filePath) ≠ ".msi" ∧ lib.ToLower (lib.Ext filePath) ≠ ".exe")) ∧
    determineSilentFlags unixLib "c.unknown" = ("", []) ∧
    determineSilentFlags unixLib "notes.txt" = ("", []) ∧
    determineSilentFlags unixLib "setup" = ("", []) := by
  refine ⟨?_, by decide, by decide, by decide⟩
  intro lib filePath
  unfold determineSilentFlags
  by_cases hmsi : lib.ToLower (lib.Ext filePath) = ".msi"
  · simp [hmsi]
  · by_cases hexe : lib.ToLower (lib.Ext filePath) = ".exe"
    · simp [hmsi, hexe, silentFlags]
    · simp [hmsi, hexe]

/-- C5: an item whose path has an unsupported extension ends `Failed` with the
progress text "Could not determine installation command", and no process is
spawned: the run of `executeInstaller` contains no spawn, whatever the
environment would have done. -/
theorem executeInstaller_unsupported (lib : GoLib) (cb : Bool) (env : ExecEnv)
    (item : InstallerItem)
    (hmsi : lib.ToLower (lib.Ext item.Path) ≠ ".msi")
    (hexe : lib.ToLower (lib.Ext item.Path) ≠ ".exe") :
    (executeInstaller lib cb env item).1.Status = "Failed" ∧
    (executeInstaller lib cb env item).1.Progress = "Could not determine installation command" ∧
    spawned lib env item = false ∧
    (∀ cmd args, Event.spawn cmd args ∉ (executeInstaller lib cb env item).2) := by
  have hres : determineSilentFlags lib item.Path = ("", []) := by
    simp [determineSilentFlags, hmsi, hexe]
  refine ⟨?_, ?_, ?_, ?_⟩
  · simp [executeInstaller, execBegin, execLaunch, hres]
  · simp [executeInstaller, execBegin, execLaunch, hres]
  · simp [spawned, hres]
  · intro cmd args
    have h := notify_no_spawn cb item.Path
    simp [executeInstaller, execBegin, execLaunch, hres, h]

theorem executeInstaller_unsupported_witness :
    (executeInstaller unixLib true ⟨false, none, .done "" "" (.exited 0)⟩ (sampleItems 2)).1.Status
      = "Failed" :=
  (executeInstaller_unsupported unixLib true ⟨false, none, .done "" "" (.exited 0)⟩ (sampleItems 2)
    (by decide) (by decide)).1

/-- When the process was spawned and the final `select` takes the case of the
ended cancellation scope, the item is left `Cancelled` with the progress text
"Installation was cancelled", and a kill of the started child process is
issued. -/
theorem executeInstaller_cancelled (lib : GoLib) (cb : Bool) (env : ExecEnv)
    (item : InstallerItem)
    (hspawn : spawned lib env item = true) (hwait : env.wait = .ctxDone) :
    (executeInstaller lib cb env item).1.Status = "Cancelled" ∧
    (executeInstaller lib cb env item).1.Progress = "Installation was cancelled" ∧
    Event.kill (determineSilentFlags lib item.Path).1 ∈ (executeInstaller lib cb env item).2 := by
  obtain ⟨hcmd, hstart⟩ : (determineSilentFlags lib item.Path).1 ≠ "" ∧
      cmdStart env.ctxDoneAtStart env.spawnErr = none := by
    simpa [spawned] using hspawn
  simp [executeInstaller, execBegin, execLaunch, execWait, hcmd, hstart, hwait]

theorem executeInstaller_cancelled_witness :
    (executeInstaller unixLib true ⟨false, none, .ctxDone⟩ (sampleItems 0)).1.Status = "Cancelled" ∧
    Event.kill "msiexec" ∈ (executeInstaller unixLib true ⟨false, none, .ctxDone⟩ (sampleItems 0)).2 :=
  have h := executeInstaller_cancelled unixLib true ⟨false, none, .ctxDone⟩ (sampleItems 0)
    (by decide) rfl
  ⟨h.1, h.2.2⟩

/-- C7: for an item with a resolvable command, a `Start()` that fails with
error `e` leaves the item `Failed` with progress "Failed to start: e", and a
spawned process that ends with an error `e` that is not an exit-code error
leaves it `Failed` with progress "Installation failed: e"; the progress text
ends with the raw error text in both cases. -/
theorem executeInstaller_errors (lib : GoLib) (cb : Bool) (env : ExecEnv)
    (item : InstallerItem) (e : String)
    (hcmd : (determineSilentFlags lib item.Path).1 ≠ "") :
    (cmdStart env.ctxDoneAtStart env.spawnErr = some e →
      (executeInstaller lib cb env item).1.Status = "Failed" ∧
      (executeInstaller lib cb env item).1.Progress = "Failed to start: " ++ e) ∧
    (cmdStart env.ctxDoneAtStart env.spawnErr = none →
      (∃ stdout stderr, env.wait = .done stdout stderr (.abnormal e)) →
      (executeInstaller lib cb env item).1.Status = "Failed" ∧
      (executeInstaller lib cb env item).1.Progress = "Installation failed: " ++ e) := by
  constructor
  · intro hstart
    simp [executeInstaller, execBegin, execLaunch, hcmd, hstart]
  · rintro hstart ⟨stdout, stderr, hwait⟩
    simp [executeInstaller, execBegin, execLaunch, execWait, cmdWait, hcmd, hstart, hwait]

theorem executeInstaller_errors_witness :
    (executeInstaller unixLib true ⟨false, some "exec: not found", .ctxDone⟩ (sampleItems 0)).1.Progress
      = "Failed to start: exec: not found" ∧
    (executeInstaller unixLib true ⟨false, none, .done "" "" (.abnormal "wait: interrupted")⟩
      (sampleItems 1)).1.Progress = "Installation failed: wait: interrupted" :=
  ⟨((executeInstaller_errors unixLib true ⟨false, some "exec: not found", .ctxDone⟩ (sampleItems 0)
      "exec: not found" (by decide)).1 rfl).2,
   ((executeInstaller_errors unixLib true ⟨false, none, .done "" "" (.abnormal "wait: interrupted")⟩
      (sampleItems 1) "wait: interrupted" (by decide)).2 rfl ⟨"", "", rfl⟩).2⟩

/-! ## Status changes of a queued item -/

theorem getElem?_set_cases {α : Type} (l : List α) (g j : Nat) (a x : α)
    (h : (l.set g a)[j]? = some x) : (j = g ∧ x = a) ∨ (j ≠ g ∧ l[j]? = some x) := by
  rw [List.getElem?_set] at h
  by_cases hj : g = j
  · left
    subst hj
    simp only [if_true] at h
    split at h
    · exact ⟨rfl, (Option.some.inj h).symm⟩
    · exact absurd h (by simp)
  · right
    rw [if_neg hj] at h
    exact ⟨fun e => hj e.symm, h⟩

theorem getElem?_append_cases {α : Type} (l : List α) (j : Nat) (a x : α)
    (h : (l ++ [a])[j]? = some x) : l[j]? = some x ∨ x = a := by
  by_cases hj : j < l.length
  · left
    rwa [List.getElem?_append_left hj] at h
  · right
    rw [List.getElem?_append_right (Nat.le_of_not_lt hj)] at h
    have hmem := List.getElem?_mem h
    simpa using hmem

/-- A goroutine that does not hold the item can be replaced by one that does
not hold it. -/
theorem TrackedCore.frame {r : Ref} {n : Nat} {st : String} {ths : List (Option Goroutine)}
    (h : TrackedCore r n st ths) (g : Nat) (next : Option Goroutine)
    (hnext : ∀ t1, next = some t1 → t1.item ≠ some r) :
    TrackedCore r n st (ths.set g next) := by
  obtain ⟨h1, h2, h3⟩ := h
  refine ⟨h1, h2, ?_⟩
  intro g1 t1 hg1 ht1
  rcases getElem?_set_cases _ _ _ _ _ hg1 with ⟨_, e⟩ | ⟨_, hold⟩
  · exact absurd ht1 (hnext t1 e.symm)
  · obtain ⟨a, b, c⟩ := h3 g1 t1 hold ht1
    refine ⟨a, b, ?_⟩
    intro g2 t2 hg2 ht2
    rcases getElem?_set_cases _ _ _ _ _ hg2 with ⟨_, e⟩ | ⟨_, hold2⟩
    · exact absurd ht2 (hnext t2 e.symm)
    · exact c g2 t2 hold2 ht2

/-- A new goroutine that does not hold the item can be launched. -/
theorem TrackedCore.launch {r : Ref} {n : Nat} {st : String} {ths : List (Option Goroutine)}
    (h : TrackedCore r n st ths) (t : Goroutine) (ht : t.item ≠ some r) :
    TrackedCore r n st (ths ++ [some t]) := by
  obtain ⟨h1, h2, h3⟩ := h
  refine ⟨h1, h2, ?_⟩
  intro g1 t1 hg1 ht1
  rcases getElem?_append_cases _ _ _ _ hg1 with hold | e
  · obtain ⟨a, b, c⟩ := h3 g1 t1 hold ht1
    refine ⟨a, b, ?_⟩
    intro g2 t2 hg2 ht2
    rcases getElem?_append_cases _ _ _ _ hg2 with hold2 | e
    · exact c g2 t2 hold2 ht2
    · rw [Option.some.inj e] at ht2
      exact absurd ht2 ht
  · rw [Option.some.inj e] at ht1
    exact absurd ht1 ht

/-- The holder of the item goes on holding it, or lets it go. -/
theorem TrackedCore.hold {r : Ref} {n : Nat} {st st1 : String} {ths : List (Option Goroutine)}
    (h : TrackedCore r n st ths) (g : Nat) (t : Goroutine) (next : Option Goroutine)
    (hg : ths[g]? = some (some t)) (ht : t.item = some r)
    (hnext : ∀ t1, next = some t1 → t1.item = none ∨ (t1.item = some r ∧ st1 = t1.expects)) :
    TrackedCore r n st1 (ths.set g next) := by
  obtain ⟨h1, _, h3⟩ := h
  obtain ⟨hn, _, huniq⟩ := h3 g t hg ht
  refine ⟨h1, fun hpos => absurd hn (Nat.ne_of_gt hpos), ?_⟩
  intro g1 t1 hg1 ht1
  rcases getElem?_set_cases _ _ _ _ _ hg1 with ⟨e1, e⟩ | ⟨hne, hold⟩
  · rcases hnext t1 e.symm with hnone | ⟨_, hst⟩
    · rw [hnone] at ht1
      exact absurd ht1 (by simp)
    · refine ⟨hn, hst, ?_⟩
      intro g2 t2 hg2 ht2
      rcases getElem?_set_cases _ _ _ _ _ hg2 with ⟨e2, _⟩ | ⟨_, hold2⟩
      · rw [e1, e2]
      · rw [e1]
        exact huniq g2 t2 hold2 ht2
  · exact absurd (huniq g1 t1 hold ht1) hne

/-- The holder of the item sends it to the queue and returns. -/
theorem TrackedCore.sent {r : Ref} {n : Nat} {st : String} {ths : List (Option Goroutine)}
    (h : TrackedCore r n st ths) (g : Nat) (t : Goroutine)
    (hg : ths[g]? = some (some t)) (ht : t.item = some r) (hexp : t.expects = "Queued") :
    TrackedCore r (n + 1) st (ths.set g none) := by
  obtain ⟨_, _, h3⟩ := h
  obtain ⟨hn, hst, huniq⟩ := h3 g t hg ht
  refine ⟨by omega, fun _ => hst.trans hexp, ?_⟩
  intro g1 t1 hg1 ht1
  rcases getElem?_set_cases _ _ _ _ _ hg1 with ⟨_, e⟩ | ⟨hne, hold⟩
  · exact absurd e (by simp)
  · exact absurd (huniq g1 t1 hold ht1) hne

/-- A goroutine receives the item from the queue. -/
theorem TrackedCore.received {r : Ref} {n : Nat} {st : String} {ths : List (Option Goroutine)}
    (h : TrackedCore r (n + 1) st ths) (g : Nat) (t1 : Goroutine)
    (hexp : t1.expects = "Queued") :
    TrackedCore r n st (ths.set g (some t1)) := by
  obtain ⟨h1, h2, h3⟩ := h
  have hst : st = "Queued" := h2 (Nat.succ_pos n)
  have hnone : ∀ (g2 : Nat) (t2 : Goroutine), ths[g2]? = some (some t2) → t2.item ≠ some r := by
    intro g2 t2 hg2 ht2
    exact absurd (h3 g2 t2 hg2 ht2).1 (Nat.succ_ne_zero n)
  refine ⟨by omega, fun _ => hst, ?_⟩
  intro g1 t2 hg1 ht2
  rcases getElem?_set_cases _ _ _ _ _ hg1 with ⟨e1, e⟩ | ⟨_, hold⟩
  · refine ⟨by omega, ?_, ?_⟩
    · rw [Option.some.inj e, hexp, hst]
    · intro g2 t3 hg2 ht3
      rcases getElem?_set_cases _ _ _ _ _ hg2 with ⟨e2, _⟩ | ⟨_, hold2⟩
      · rw [e1, e2]
      · exact absurd ht3 (hnone g2 t3 hold2)
  · exact absurd ht2 (hnone g1 t2 hold)


theorem workerLoop_effect (s s1 : System) (next : Option Goroutine)
    (h : workerLoop s = (s1, next)) :
    s1.items = s.items ∧ s1.engine.queue = s.engine.queue ∧
      ∀ t1, next = some t1 → t1.item = none := by
  unfold workerLoop at h
  split at h <;> simp only [Prod.mk.injEq] at h <;> obtain ⟨h1, h2⟩ := h <;> subst h1 <;> subst h2
  · simp [Goroutine.item]
  · simp

theorem workerExit_effect (s s1 : System) (next : Option Goroutine)
    (h : workerExit s = (s1, next)) :
    s1.items = s.items ∧ s1.engine.queue = s.engine.queue ∧
      ∀ t1, next = some t1 → t1.item = none := by
  unfold workerExit at h
  simp only [Prod.mk.injEq] at h
  obtain ⟨h1, h2⟩ := h
  subst h1
  subst h2
  simp

theorem execBegin_status (lib : GoLib) (cb : Bool) (item : InstallerItem) :
    (execBegin lib cb item).1.Status = "Installing" := rfl

theorem execLaunch_status (lib : GoLib) (cb ctxDone : Bool) (spawnErr : Option String)
    (item it : InstallerItem) (evs : List Event) (started : Option (String × List String))
    (h : execLaunch lib cb ctxDone spawnErr item = (it, evs, started)) :
    (started = none ∧ it.Status = "Failed") ∨ (started ≠ none ∧ it.Status = item.Status) := by
  unfold execLaunch at h
  simp only at h
  split at h
  · simp only [Prod.mk.injEq] at h
    obtain ⟨h1, _, h3⟩ := h
    left
    exact ⟨h3.symm, by rw [← h1]⟩
  · split at h
    · simp only [Prod.mk.injEq] at h
      obtain ⟨h1, _, h3⟩ := h
      left
      exact ⟨h3.symm, by rw [← h1]⟩
    · simp only [Prod.mk.injEq] at h
      obtain ⟨h1, _, h3⟩ := h
      right
      exact ⟨by rw [← h3]; simp, by rw [← h1]⟩

theorem execWait_terminal (lib : GoLib) (cb : Bool) (cmd : String) (ev : WaitEvent)
    (item : InstallerItem) : terminal (execWait lib cb cmd ev item).1.Status := by
  unfold execWait terminal
  cases ev with
  | ctxDone => simp
  | done stdout stderr result =>
    simp only
    split <;> simp

theorem setItem_emit_status (s : System) (item : Ref) (v : InstallerItem) (evs : List Event) :
    ((s.setItem item v).emit evs).status item = v.Status := by
  simp [System.setItem, System.emit, System.status]

theorem setItem_emit_other (s : System) (item : Ref) (v : InstallerItem) (evs : List Event)
    (r : Ref) (h : r ≠ item) : ((s.setItem item v).emit evs).items r = s.items r := by
  simp [System.setItem, System.emit, Function.update_noteq h]

theorem Allowed.queuedInstalling : Allowed "Queued" "Installing" :=
  Or.inl ⟨rfl, rfl⟩

theorem Allowed.installingTerminal {b : String} (h : terminal b) : Allowed "Installing" b :=
  Or.inr (Or.inl ⟨rfl, h⟩)

theorem Allowed.queuedCancelled : Allowed "Queued" "Cancelled" :=
  Or.inr (Or.inr ⟨rfl, rfl⟩)

/-- Every step of a goroutine is one of the five effects. -/
theorem goStep_effect (lib : GoLib) (s s1 : System) (t : Goroutine) (m : Move)
    (next : Option Goroutine) (h : goStep lib s t m = some (s1, next)) :
    Effect s s1 t next := by
  cases t with
  | queueSelect item ctx =>
    cases m <;> simp [goStep] at h
    case send =>
      obtain ⟨_, h1, h2⟩ := h
      subst h1
      exact Effect.send item rfl rfl h2.symm rfl rfl
    case ctxDone =>
      obtain ⟨_, h1, h2⟩ := h
      subst h1
      subst h2
      refine Effect.write item rfl (by simp) (fun r hr => setItem_emit_other _ _ _ _ r hr) rfl ?_
      intro hst
      right
      rw [setItem_emit_status, hst]
      exact Allowed.queuedCancelled
  | workerSelect ctx =>
    cases m <;> simp [goStep] at h
    case ctxDone =>
      obtain ⟨a, b, c⟩ := workerExit_effect _ _ _ h.2
      exact Effect.idle rfl c a b
    case stop =>
      obtain ⟨a, b, c⟩ := workerExit_effect _ _ _ h.2
      exact Effect.idle rfl c a b
    case recv =>
      split at h
      · exact absurd h (by simp)
      · rename_i rest hq
        obtain ⟨a, b, c⟩ := workerLoop_effect _ _ _ (Option.some.inj h)
        exact Effect.recvNil rfl c a (by rw [hq, b])
      · rename_i item rest hq
        simp only [Option.some.injEq, Prod.mk.injEq] at h
        obtain ⟨h1, h2⟩ := h
        subst h1
        exact Effect.recv item (.workerGot item) rfl h2.symm rfl rfl rfl hq
  | workerGot item =>
    cases m <;> simp [goStep] at h
    case run =>
      obtain ⟨h1, h2⟩ := h
      subst h1
      subst h2
      refine Effect.write item rfl ?_ (fun r hr => setItem_emit_other _ _ _ _ r hr) rfl ?_
      · intro t1 ht1
        right
        rw [← Option.some.inj ht1, setItem_emit_status]
        exact ⟨rfl, fun _ => rfl⟩
      · intro hst
        right
        rw [setItem_emit_status, hst]
        exact Allowed.queuedInstalling
  | workerInstalling item =>
    cases m <;> simp [goStep] at h
    case launch spawnErr =>
      split at h
      · simp only [Option.some.injEq, Prod.mk.injEq] at h
        obtain ⟨h1, h2⟩ := h
        subst h1
        subst h2
        exact Effect.write item rfl (by simp) (fun _ _ => rfl) rfl (fun _ => Or.inl rfl)
      · rename_i c hc
        split at h
        · rename_i it evs hl
          obtain ⟨a, b, c⟩ := workerLoop_effect _ _ _ (Option.some.inj h)
          refine Effect.write item rfl (fun t1 ht1 => Or.inl (c t1 ht1)) ?_ b ?_
          · intro r hr
            rw [a]
            exact setItem_emit_other _ _ _ _ r hr
          · intro hst
            right
            have hs : s1.status item = it.Status := by
              unfold System.status
              rw [a]
              exact setItem_emit_status _ _ _ _
            rcases execLaunch_status _ _ _ _ _ _ _ _ hl with ⟨_, hf⟩ | ⟨hne, _⟩
            · rw [hs, hf, hst]
              exact Allowed.installingTerminal (Or.inr (Or.inl rfl))
            · exact absurd rfl hne
        · rename_i it evs cmd args hl
          simp only [Option.some.injEq, Prod.mk.injEq] at h
          obtain ⟨h1, h2⟩ := h
          subst h1
          subst h2
          have hs : it.Status = (s.items item).Status := by
            rcases execLaunch_status _ _ _ _ _ _ _ _ hl with ⟨hn, _⟩ | ⟨_, hsame⟩
            · exact absurd hn (by simp)
            · exact hsame
          refine Effect.write item rfl ?_ (fun r hr => setItem_emit_other _ _ _ _ r hr) rfl ?_
          · intro t1 ht1
            right
            rw [← Option.some.inj ht1, setItem_emit_status, hs]
            exact ⟨rfl, fun hst => hst⟩
          · intro _
            left
            rw [setItem_emit_status, hs]
            rfl
  | workerWaiting item ctx cmd =>
    have key : ∀ ev, workerLoop ((s.setItem item
          (execWait lib s.engine.hasStatusCallback cmd ev (s.items item)).1).emit
          (execWait lib s.engine.hasStatusCallback cmd ev (s.items item)).2) = (s1, next) →
        Effect s s1 (.workerWaiting item ctx cmd) next := by
      intro ev hw
      obtain ⟨a, b, c⟩ := workerLoop_effect _ _ _ hw
      refine Effect.write item rfl (fun t1 ht1 => Or.inl (c t1 ht1)) ?_ b ?_
      · intro r hr
        rw [a]
        exact setItem_emit_other _ _ _ _ r hr
      · intro hst
        right
        have hs : s1.status item
            = (execWait lib s.engine.hasStatusCallback cmd ev (s.items item)).1.Status := by
          unfold System.status
          rw [a]
          exact setItem_emit_status _ _ _ _
        rw [hs, hst]
        exact Allowed.installingTerminal (execWait_terminal _ _ _ _ _)
    cases m <;> simp [goStep] at h
    case ctxDone => exact key _ h.2
    case finish stdout stderr result => exact key _ h
  | drainSelect =>
    cases m <;> simp [goStep] at h
    case recv =>
      split at h
      · exact absurd h (by simp)
      · rename_i rest hq
        simp only [Option.some.injEq, Prod.mk.injEq] at h
        obtain ⟨h1, h2⟩ := h
        subst h1
        subst h2
        exact Effect.recvNil rfl (by simp [Goroutine.item]) rfl hq
      · rename_i item rest hq
        simp only [Option.some.injEq, Prod.mk.injEq] at h
        obtain ⟨h1, h2⟩ := h
        subst h1
        exact Effect.recv item (.drainGot item) rfl h2.symm rfl rfl rfl hq
    case dflt =>
      obtain ⟨_, h1, h2⟩ := h
      subst h1
      subst h2
      exact Effect.idle rfl (by simp) rfl rfl
  | drainGot item =>
    cases m <;> simp [goStep] at h
    case run =>
      obtain ⟨h1, h2⟩ := h
      subst h1
      subst h2
      refine Effect.write item rfl (by simp [Goroutine.item]) (fun r hr => setItem_emit_other _ _ _ _ r hr) rfl ?_
      intro hst
      right
      rw [setItem_emit_status, hst]
      exact Allowed.queuedCancelled

/-- The invariant of a tracked item is kept by every step of a goroutine, and
the step leaves the item's status or changes it along the state machine. -/
theorem tracked_of_effect (s s1 : System) (g : Nat) (t : Goroutine) (next : Option Goroutine)
    (r : Ref) (hinv : Tracked s r) (hg : s.threads[g]? = some (some t))
    (heff : Effect s s1 t next) :
    Tracked { s1 with threads := s.threads.set g next } r ∧
      (s1.status r = s.status r ∨ Allowed (s.status r) (s1.status r)) := by
  unfold Tracked at hinv ⊢
  have hstatus : ∀ s2 : System, s2.items = s.items → s2.status r = s.status r := by
    intro s2 h2
    unfold System.status
    rw [h2]
  cases heff with
  | idle ht hnext hitems hqueue =>
    refine ⟨?_, Or.inl (hstatus _ hitems)⟩
    show TrackedCore r (s1.engine.queue.count (some r)) (s1.status r) (s.threads.set g next)
    rw [hqueue, hstatus _ hitems]
    exact hinv.frame g next (fun t1 h1 => by rw [hnext t1 h1]; simp)
  | recvNil ht hnext hitems hqueue =>
    refine ⟨?_, Or.inl (hstatus _ hitems)⟩
    show TrackedCore r (s1.engine.queue.count (some r)) (s1.status r) (s.threads.set g next)
    have hc : s.engine.queue.count (some r) = s1.engine.queue.count (some r) := by
      rw [hqueue]
      simp
    rw [← hc, hstatus _ hitems]
    exact hinv.frame g next (fun t1 h1 => by rw [hnext t1 h1]; simp)
  | recv it t1 ht hnext hit hexp hitems hqueue =>
    refine ⟨?_, Or.inl (hstatus _ hitems)⟩
    show TrackedCore r (s1.engine.queue.count (some r)) (s1.status r) (s.threads.set g next)
    rw [hstatus _ hitems, hnext]
    by_cases hr : it = r
    · subst hr
      have hc : s.engine.queue.count (some it) = s1.engine.queue.count (some it) + 1 := by
        rw [hqueue]
        simp
      rw [hc] at hinv
      exact hinv.received g t1 hexp
    · have hne : some r ≠ some it := fun e => hr (Option.some.inj e).symm
      have hc : s.engine.queue.count (some r) = s1.engine.queue.count (some r) := by
        rw [hqueue, List.count_cons_of_ne hne]
      rw [← hc]
      exact hinv.frame g (some t1) (fun t2 h2 => by
        rw [← Option.some.inj h2, hit]
        simpa using hr)
  | send it ht hexp hnext hitems hqueue =>
    refine ⟨?_, Or.inl (hstatus _ hitems)⟩
    show TrackedCore r (s1.engine.queue.count (some r)) (s1.status r) (s.threads.set g next)
    rw [hstatus _ hitems, hnext]
    by_cases hr : it = r
    · subst hr
      have hc : s1.engine.queue.count (some it) = s.engine.queue.count (some it) + 1 := by
        rw [hqueue]
        simp
      rw [hc]
      exact hinv.sent g t hg ht hexp
    · have hne : some r ≠ some it := fun e => hr (Option.some.inj e).symm
      have hc : s1.engine.queue.count (some r) = s.engine.queue.count (some r) := by
        rw [hqueue, List.count_append, List.count_cons_of_ne hne]
        rfl
      rw [hc]
      exact hinv.frame g none (by simp)
  | write it ht hnext hother hqueue htrans =>
    show TrackedCore r (s1.engine.queue.count (some r)) (s1.status r) (s.threads.set g next) ∧ _
    rw [hqueue]
    by_cases hr : it = r
    · subst hr
      have hst : s.status it = t.expects := (hinv.2.2 g t hg ht).2.1
      refine ⟨?_, htrans hst⟩
      refine hinv.hold g t next hg ht ?_
      intro t1 h1
      rcases hnext t1 h1 with hn | ⟨hi, he⟩
      · exact Or.inl hn
      · exact Or.inr ⟨hi, he hst⟩
    · have hs : s1.status r = s.status r := by
        unfold System.status
        rw [hother r (fun e => hr e.symm)]
      rw [hs]
      refine ⟨?_, Or.inl rfl⟩
      refine hinv.frame g next ?_
      intro t1 h1
      rcases hnext t1 h1 with hn | ⟨hi, _⟩
      · rw [hn]
        simp
      · rw [hi]
        simpa using hr

theorem live_of_getElem? (s : System) (g : Nat) (t : Goroutine)
    (h : s.threads[g]? = some (some t)) : t ∈ s.live := by
  unfold System.live
  rw [List.mem_filterMap]
  exact ⟨some t, List.getElem?_mem h, rfl⟩

/-- An item the engine does not hold satisfies the invariant, whatever its
status. -/
theorem tracked_of_holdsNot (s : System) (r : Ref) (h : s.holdsNot r) (st : String) :
    TrackedCore r (s.engine.queue.count (some r)) st s.threads := by
  have hc : s.engine.queue.count (some r) = 0 := List.count_eq_zero.mpr h.1
  rw [hc]
  refine ⟨Nat.zero_le _, fun hpos => absurd hpos (Nat.lt_irrefl 0), ?_⟩
  intro g t hg ht
  exact absurd ht (h.2 t (live_of_getElem? s g t hg))

/-- The call `Queue` on a running engine that does not hold the item sets the
status `Queued` and establishes the invariant. -/
theorem Queue_tracked (s : System) (r : Ref) (hrun : s.engine.running = true)
    (hfree : s.holdsNot r) :
    Tracked (Queue s r) r ∧ (Queue s r).status r = "Queued" := by
  have hc : s.engine.queue.count (some r) = 0 := List.count_eq_zero.mpr hfree.1
  unfold Queue
  simp only [hrun, Bool.not_true, Bool.false_eq_true, if_false]
  split
  · rename_i c hctx
    refine ⟨?_, by simp [System.status, System.setItem, System.emit]⟩
    show TrackedCore r (s.engine.queue.count (some r)) _ (s.threads ++ [some (.queueSelect r c)])
    simp only [System.status, System.setItem, System.emit, Function.update_same]
    rw [hc]
    refine ⟨Nat.zero_le _, fun _ => rfl, ?_⟩
    intro g t hg ht
    have hlen : g = s.threads.length := by
      rcases getElem?_append_cases _ _ _ _ hg with hold | e
      · exact absurd ht (hfree.2 t (live_of_getElem? s g t hold))
      · by_contra hne
        have hlt : g < s.threads.length := by
          have := (List.getElem?_eq_some.mp hg).1
          simp at this
          omega
        rw [List.getElem?_append_left hlt] at hg
        exact absurd ht (hfree.2 t (live_of_getElem? s g t hg))
    have ht' : t = .queueSelect r c := by
      rw [hlen] at hg
      simpa using hg.symm
    refine ⟨rfl, by rw [ht']; rfl, ?_⟩
    intro g1 t1 hg1 ht1
    rw [hlen]
    rcases getElem?_append_cases _ _ _ _ hg1 with hold | e
    · exact absurd ht1 (hfree.2 t1 (live_of_getElem? s g1 t1 hold))
    · by_contra hne
      have hlt : g1 < s.threads.length := by
        have := (List.getElem?_eq_some.mp hg1).1
        simp at this
        omega
      rw [List.getElem?_append_left hlt] at hg1
      exact absurd ht1 (hfree.2 t1 (live_of_getElem? s g1 t1 hg1))
  · refine ⟨?_, by simp [System.status, System.setItem, System.emit]⟩
    exact tracked_of_holdsNot s r hfree _

/-- The call `Queue` on one item leaves the other items alone. -/
theorem Queue_other (s : System) (item r : Ref) (hne : r ≠ item) :
    (Queue s item).status r = s.status r ∧
    (Queue s item).engine.queue = s.engine.queue ∧
    ((Queue s item).threads = s.threads ∨
      ∃ c, (Queue s item).threads = s.threads ++ [some (.queueSelect item c)]) := by
  unfold Queue
  simp only
  split
  · exact ⟨by simp [System.status, System.setItem, System.emit, Function.update_noteq hne],
      rfl, Or.inl rfl⟩
  · split
    · rename_i c _
      exact ⟨by simp [System.status, System.setItem, System.emit, Function.update_noteq hne],
        rfl, Or.inr ⟨c, rfl⟩⟩
    · exact ⟨by simp [System.status, System.setItem, System.emit, Function.update_noteq hne],
        rfl, Or.inl rfl⟩

/-- Every action other than a second `Queue` of the tracked item keeps its
invariant, and leaves the item's status or changes it along the state
machine. -/
theorem step_tracked (lib : GoLib) (s s1 : System) (a : Action) (r : Ref)
    (hinv : Tracked s r) (ha : a ≠ .callQueue r) (h : step lib s a = some s1) :
    Tracked s1 r ∧ (s1.status r = s.status r ∨ Allowed (s.status r) (s1.status r)) := by
  unfold step at h
  split at h
  · exact absurd h (by simp)
  · cases a with
    | callStart =>
      simp only [Option.some.injEq] at h
      subst h
      refine ⟨?_, Or.inl ?_⟩
      · unfold Start
        split
        · exact hinv
        · exact TrackedCore.launch hinv _ (by simp [Goroutine.item])
      · unfold Start
        split <;> rfl
    | callStop =>
      simp only [Option.some.injEq] at h
      subst h
      refine ⟨?_, Or.inl ?_⟩
      · unfold Stop
        split
        · exact hinv
        · simp only
          split
          · exact hinv
          · exact TrackedCore.launch hinv _ (by simp [Goroutine.item])
      · unfold Stop
        split
        · rfl
        · simp only
          split <;> rfl
    | callQueue item =>
      have hne : r ≠ item := fun e => ha (by rw [e])
      simp only [Option.some.injEq] at h
      subst h
      obtain ⟨hst, hq, hth⟩ := Queue_other s item r hne
      refine ⟨?_, Or.inl hst⟩
      unfold Tracked
      rw [hst, hq]
      rcases hth with hth | ⟨c, hth⟩
      · rw [hth]
        exact hinv
      · rw [hth]
        exact TrackedCore.launch hinv _ (by
          simp only [Goroutine.item]
          exact fun e => hne (Option.some.inj e).symm)
    | go g m =>
      simp only at h
      split at h
      · rename_i t hg
        split at h
        · exact absurd h (by simp)
        · rename_i s2 next hstep
          simp only [Option.some.injEq] at h
          subst h
          exact tracked_of_effect s s2 g t next r hinv hg (goStep_effect lib s s2 t m next hstep)
      · exact absurd h (by simp)

theorem statuses_head (lib : GoLib) (r : Ref) (s : System) (sched : List Action) :
    ∃ l, statuses lib r s sched = s.status r :: l := by
  cases sched with
  | nil => exact ⟨[], rfl⟩
  | cons a rest => exact ⟨_, rfl⟩

theorem changes_cons_same (x : String) (l : List String) :
    changes (x :: x :: l) = changes (x :: l) := by
  simp [changes]

theorem changes_cons_ne (x y : String) (l : List String) (h : x ≠ y) :
    changes (x :: y :: l) = x :: changes (y :: l) := by
  simp [changes, h]

theorem allowed_ne {a b : String} (h : Allowed a b) : a ≠ b := by
  rcases h with ⟨ha, hb⟩ | ⟨ha, hb⟩ | ⟨ha, hb⟩
  · rw [ha, hb]
    decide
  · rw [ha]
    rcases hb with hb | hb | hb <;> rw [hb] <;> decide
  · rw [ha, hb]
    decide

/-- Along every schedule without a second `Queue` of a tracked item, the values
taken by its status form a chain of the state machine. -/
theorem statuses_chain (lib : GoLib) (r : Ref) (sched : List Action) :
    ∀ s : System, Tracked s r → Action.callQueue r ∉ sched →
      ∃ l, changes (statuses lib r s sched) = s.status r :: l ∧
        List.Chain Allowed (s.status r) l := by
  induction sched with
  | nil =>
    intro s _ _
    exact ⟨[], rfl, List.Chain.nil⟩
  | cons a rest ih =>
    intro s hinv hq
    have ha : a ≠ .callQueue r := fun e => hq (by rw [e]; exact List.mem_cons_self _ _)
    have hrest : Action.callQueue r ∉ rest := fun hmem => hq (List.mem_cons_of_mem _ hmem)
    cases hstep : step lib s a with
    | none =>
      refine ⟨[], ?_, List.Chain.nil⟩
      simp [statuses, hstep, changes]
    | some s1 =>
      obtain ⟨hinv1, htrans⟩ := step_tracked lib s s1 a r hinv ha hstep
      obtain ⟨l, hl, hchain⟩ := ih s1 hinv1 hrest
      obtain ⟨tl, htl⟩ := statuses_head lib r s1 rest
      have hunfold : statuses lib r s (a :: rest) = s.status r :: s1.status r :: tl := by
        simp [statuses, hstep, htl]
      rw [hunfold]
      rw [htl] at hl
      rcases htrans with hsame | hallowed
      · rw [hsame] at hl hchain
        rw [hsame, changes_cons_same]
        exact ⟨l, hl, hchain⟩
      · rw [changes_cons_ne _ _ _ (allowed_ne hallowed), hl]
        exact ⟨s1.status r :: l, rfl, List.Chain.cons hallowed hchain⟩

/-- The chains of the state machine that start at `Queued`. -/
theorem chain_from_queued (l : List String) (h : List.Chain Allowed "Queued" l) :
    l = [] ∨ l = ["Installing"] ∨ l = ["Cancelled"] ∨
      ∃ t, terminal t ∧ l = ["Installing", t] := by
  have hterm : ∀ (t : String) (l2 : List String), terminal t → List.Chain Allowed t l2 → l2 = [] := by
    intro t l2 ht hc
    cases hc with
    | nil => rfl
    | cons hab _ =>
      exfalso
      rcases hab with ⟨ha, _⟩ | ⟨ha, _⟩ | ⟨ha, _⟩ <;>
        rcases ht with ht | ht | ht <;> rw [ht] at ha <;> revert ha <;> decide
  cases h with
  | nil => exact Or.inl rfl
  | cons hab hrest =>
    rename_i b l1
    rcases hab with ⟨_, hb⟩ | ⟨ha, _⟩ | ⟨_, hb⟩
    · subst hb
      cases hrest with
      | nil => exact Or.inr (Or.inl rfl)
      | cons hbc hrest2 =>
        rename_i c l2
        right
        right
        right
        rcases hbc with ⟨ha, _⟩ | ⟨_, hc⟩ | ⟨ha, _⟩
        · exact absurd ha (by decide)
        · exact ⟨c, hc, by rw [hterm c l2 hc hrest2]⟩
        · exact absurd ha (by decide)
    · exact absurd ha (by decide)
    · subst hb
      right
      right
      left
      rw [hterm "Cancelled" l1 (Or.inr (Or.inr rfl)) hrest]

/-- C9 (amended): an item handed to `Queue` once on a running engine that
does not hold it takes the status `Queued`, and from then on, along every
schedule without another `Queue` of it, the values taken by its status are
`Queued`, then either `Installing` followed by one of `Completed`, `Failed`,
`Cancelled`, or `Cancelled` directly (cancelled before execution); every such
sequence may stop early. -/
theorem Queue_status_sequence (lib : GoLib) (s : System) (r : Ref) (sched : List Action)
    (hrun : s.engine.running = true) (hfree : s.holdsNot r)
    (honce : Action.callQueue r ∉ sched) :
    changes (statuses lib r (Queue s r) sched) = ["Queued"] ∨
    changes (statuses lib r (Queue s r) sched) = ["Queued", "Installing"] ∨
    changes (statuses lib r (Queue s r) sched) = ["Queued", "Cancelled"] ∨
    ∃ t, terminal t ∧ changes (statuses lib r (Queue s r) sched) = ["Queued", "Installing", t] := by
  obtain ⟨hinv, hst⟩ := Queue_tracked s r hrun hfree
  obtain ⟨l, hl, hchain⟩ := statuses_chain lib r sched (Queue s r) hinv honce
  rw [hst] at hl hchain
  rw [hl]
  rcases chain_from_queued l hchain with h | h | h | ⟨t, ht, h⟩
  · exact Or.inl (by rw [h])
  · exact Or.inr (Or.inl (by rw [h]))
  · exact Or.inr (Or.inr (Or.inl (by rw [h])))
  · exact Or.inr (Or.inr (Or.inr ⟨t, ht, by rw [h]⟩))

theorem Queue_status_sequence_witness :
    (Start (newSystem sampleItems true)).engine.running = true ∧
    (Start (newSystem sampleItems true)).holdsNot 1 ∧
    Action.callQueue 1 ∉ schedInstall ∧
    (∃ t, terminal t ∧
      changes (statuses unixLib 1 (Queue (Start (newSystem sampleItems true)) 1) schedInstall)
        = ["Queued", "Installing", t]) := by
  have hrun : (Start (newSystem sampleItems true)).engine.running = true := rfl
  have hfree : (Start (newSystem sampleItems true)).holdsNot 1 := by
    unfold System.holdsNot
    decide
  have honce : Action.callQueue 1 ∉ schedInstall := by decide
  have hseq : changes (statuses unixLib 1 (Queue (Start (newSystem sampleItems true)) 1)
      schedInstall) = ["Queued", "Installing", "Completed"] := by decide
  refine ⟨hrun, hfree, honce, ?_⟩
  rcases Queue_status_sequence unixLib (Start (newSystem sampleItems true)) 1 schedInstall
    hrun hfree honce with h | h | h | h
  · rw [hseq] at h
    exact absurd h (by decide)
  · rw [hseq] at h
    exact absurd h (by decide)
  · rw [hseq] at h
    exact absurd h (by decide)
  · exact h

/-- C9 (as stated) fails: `a.msi` is queued on a running engine, the engine is
stopped while the item waits in the queue, and the cleanup marks it: the
values taken by its status are `Queued` and `Cancelled`, never `Installing`,
and every goroutine has returned. -/
theorem Queue_status_sequence_counterexample :
    (Start (newSystem sampleItems true)).engine.running = true ∧
    changes (statuses unixLib 0 (Queue (Start (newSystem sampleItems true)) 0) schedCancelQueued)
      = ["Queued", "Cancelled"] ∧
    (run unixLib (Queue (Start (newSystem sampleItems true)) 0) schedCancelQueued).map
      (fun s => (s.live, s.engine.queue)) = some ([], []) := by
  decide

/-! ## Races after `Stop` -/

/-- C8 (code at the failing input): after `Start`, `Stop`, `Start` the first
worker is still installing `a.msi` when the second worker begins to install
`b.exe`, so two items are `Installing` at once; and within one run, after
`Stop`, the worker begins to install `b.exe` while `a.msi`, queued before it,
is still `Queued`. -/
theorem two_items_installing :
    (run unixLib (newSystem sampleItems true) schedRestart).map
      (fun s => s.statusOf [0, 1]) = some ["Installing", "Installing"] ∧
    (run unixLib (newSystem sampleItems true) schedOvertake).map
      (fun s => (s.statusOf [0, 1], s.engine.queue)) = some (["Queued", "Installing"], []) := by
  decide

/-- C10 (code at the failing input): `Stop()` is called with `a.msi` and
`b.exe` waiting in the queue, both `Queued`; the worker's `select` then takes
`a.msi` and runs it against the cancelled scope, so it ends `Failed`, not
`Cancelled`, while the cleanup cancels `b.exe`; afterwards the queue is empty
and every goroutine has returned. -/
theorem Stop_leaves_item_failed :
    (run unixLib (newSystem sampleItems true) schedStopWithTwoQueued).map
      (fun s => (s.engine.queue, s.statusOf [0, 1], IsRunning s))
      = some ([some 0, some 1], ["Queued", "Queued"], false) ∧
    (run unixLib (newSystem sampleItems true) (schedStopWithTwoQueued ++ schedWorkerTakesOne)).map
      (fun s => (s.statusOf [0, 1], (s.items 0).Progress, s.engine.queue, s.live))
      = some (["Failed", "Cancelled"], "Failed to start: context canceled", [], []) := by
  decide

/-! ## The call `Queue` -/

theorem getElem?_length_append {α : Type} (l : List α) (a : α) :
    (l ++ [a])[l.length]? = some a := by
  simp

theorem set_length_append {α : Type} (l : List α) (a b : α) :
    (l ++ [a]).set l.length b = l ++ [b] := by
  induction l with
  | nil => rfl
  | cons x xs ih => simp [ih]

/-- The state of an admitted `Queue` call: the item is marked and the caller
waits at the `select` as the newest goroutine. -/
theorem Queue_running (s : System) (item : Ref) (c : Nat)
    (hrun : s.engine.running = true) (hctx : s.engine.ctx = some c) :
    Queue s item =
      { (s.setItem item { s.items item with Status := "Queued", Progress := "Waiting in queue" }).emit
          [.log ("Queued installer: " ++ (s.items item).Path)] with
        threads := s.threads ++ [some (.queueSelect item c)] } := by
  simp [Queue, hrun, hctx]

/-- What a direct hand-over needs and does. -/
theorem handOff_some (s s2 : System) (g r : Nat) (h : handOff s g r = some s2) :
    ∃ (item : Ref) (c ctx : Nat), s.threads[g]? = some (some (.queueSelect item c)) ∧
      s.threads[r]? = some (some (.workerSelect ctx)) ∧ s.panicked = false ∧
      s.engine.queue = [] ∧ s.engine.stopClosed = false ∧ s.ctxDone ctx = false ∧
      s2 = { s.emit [.log ("Successfully added " ++ (s.items item).Path
                ++ " to installation queue")] with
             threads := (s.threads.set g none).set r (some (.workerGot item)) } := by
  unfold handOff at h
  split at h
  · exact absurd h (by simp)
  · rename_i hp
    split at h
    · rename_i item c ctx hg hr
      split at h
      · rename_i hc
        exact ⟨item, c, ctx, hg, hr, by simpa using hp, hc.1, hc.2.1, hc.2.2,
          (Option.some.inj h).symm⟩
      · exact absurd h (by simp)
    · exact absurd h (by simp)

/-- A direct hand-over leaves the state that the send into the buffer followed
by the worker's receive leaves. -/
theorem handOff_send_recv (lib : GoLib) (s s2 : System) (g r : Nat)
    (h : handOff s g r = some s2) :
    run lib s [.go g .send, .go r .recv] = some s2 := by
  obtain ⟨item, c, ctx, hg, hr, hp, hq, _, _, rfl⟩ := handOff_some s s2 g r h
  have hne : g ≠ r := by
    intro e
    subst e
    rw [hg] at hr
    simp at hr
  have hr2 : (s.threads.set g none)[r]? = some (some (.workerSelect ctx)) := by
    rw [List.getElem?_set_ne hne]
    exact hr
  obtain ⟨eng, items, cnt, can, thr, evs, pan⟩ := s
  obtain ⟨queue, sc, ctx0, running, cb⟩ := eng
  simp only at hg hr hp hq hr2
  subst hq
  simp [run, step, hp, hg, goStep, queueCap, System.emit, hr2]

/-- C11 (amended): on a running engine whose cancellation scope has not ended
and whose queue holds fewer than 100 items, `Queue(item)` sets `Queued` and
"Waiting in queue" and its `select` can only take the send case; the send
appends the item reference at the tail of the queue (the length grows by one,
the items queued before keep their places) or, when the queue is empty and the
worker waits in its `select`, hands the reference to the worker, the length
staying 0; either way the call returns and the item is not dropped. -/
theorem Queue_enqueues (lib : GoLib) (s : System) (item : Ref) (c : Nat)
    (hpanic : s.panicked = false) (hrun : IsRunning s = true)
    (hctx : s.engine.ctx = some c) (hlive : s.ctxDone c = false)
    (hroom : GetQueueLength s < queueCap) :
    (∃ s2, run lib s [.callQueue item, .go s.threads.length .send] = some s2 ∧
      (s2.items item).Status = "Queued" ∧ (s2.items item).Progress = "Waiting in queue" ∧
      s2.engine.queue = s.engine.queue ++ [some item] ∧
      GetQueueLength s2 = GetQueueLength s + 1 ∧
      s2.threads = s.threads ++ [none]) ∧
    (∀ m, m ≠ Move.send → step lib (Queue s item) (.go s.threads.length m) = none) ∧
    (∀ (r : Nat) (s2 : System), handOff (Queue s item) s.threads.length r = some s2 →
      GetQueueLength s = 0 ∧ GetQueueLength s2 = 0 ∧
      (s2.items item).Status = "Queued" ∧ (s2.items item).Progress = "Waiting in queue" ∧
      s2.threads = (s.threads.set r (some (.workerGot item))) ++ [none] ∧
      ∃ ctx, s.threads[r]? = some (some (.workerSelect ctx))) ∧
    (∀ (r ctx : Nat), s.threads[r]? = some (some (.workerSelect ctx)) →
      GetQueueLength s = 0 → s.engine.stopClosed = false → s.ctxDone ctx = false →
      ∃ s2, handOff (Queue s item) s.threads.length r = some s2) := by
  have hq := Queue_running s item c hrun hctx
  unfold GetQueueLength at hroom
  have hnot : c ∉ s.cancelled := by simpa [System.ctxDone] using hlive
  refine ⟨?_, ?_, ?_, ?_⟩
  · simp [run, step, hpanic, hq, System.emit, System.setItem, goStep, hroom, GetQueueLength,
      set_length_append]
  · intro m hm
    cases m <;>
      simp [step, hq, System.emit, System.setItem, goStep, hpanic, System.ctxDone, hnot] at hm ⊢
  · intro r s2 h
    obtain ⟨item1, c1, ctx, hg, hr, _, hqueue, _, _, rfl⟩ := handOff_some _ s2 _ r h
    rw [hq] at hg hr hqueue ⊢
    simp only [System.emit, System.setItem] at hg hr hqueue ⊢
    rw [getElem?_length_append] at hg
    simp only [Option.some.injEq, Goroutine.queueSelect.injEq] at hg
    obtain ⟨rfl, _⟩ := hg
    have hr1 : s.threads[r]? = some (some (.workerSelect ctx)) := by
      rcases getElem?_append_cases _ _ _ _ hr with h1 | h1
      · exact h1
      · simp at h1
    have hlt : r < s.threads.length := by
      by_contra hge
      rw [List.getElem?_eq_none (Nat.le_of_not_lt hge)] at hr1
      simp at hr1
    refine ⟨by simp [GetQueueLength, hqueue], by simp [GetQueueLength, hqueue], by simp,
      by simp, ?_, ctx, hr1⟩
    rw [set_length_append, List.set_append_left _ _ hlt]
  · intro r ctx hr hlen hstop hdone
    have hlt : r < s.threads.length := by
      by_contra hge
      rw [List.getElem?_eq_none (Nat.le_of_not_lt hge)] at hr
      simp at hr
    have hqueue : s.engine.queue = [] := by
      simpa [GetQueueLength] using hlen
    have hr2 : (s.threads ++ [some (Goroutine.queueSelect item c)])[r]?
        = some (some (.workerSelect ctx)) := by
      rw [List.getElem?_append_left hlt]
      exact hr
    have hdone1 : ctx ∉ s.cancelled := by simpa [System.ctxDone] using hdone
    rw [hq]
    simp [handOff, System.emit, System.setItem, hpanic, hr2, hqueue, hstop, System.ctxDone, hdone1]

/-- C11 (as stated) fails: the engine is running, its scope has not ended, the
queue is empty and the worker waits in its `select`; `Queue(a.msi)` hands the
item to the worker, and the queue length is 0 after the call as before it, with
the item not in the queue. -/
theorem Queue_enqueues_counterexample :
    IsRunning (Start (newSystem sampleItems true)) = true ∧
    (Start (newSystem sampleItems true)).ctxDone 0 = false ∧
    GetQueueLength (Start (newSystem sampleItems true)) = 0 ∧
    (Start (newSystem sampleItems true)).live = [.workerSelect 0] ∧
    (handOff (Queue (Start (newSystem sampleItems true)) 0) 1 0).map
      (fun s => (GetQueueLength s, s.engine.queue, s.threads, s.status 0))
      = some (0, [], [some (.workerGot 0), none], "Queued") := by
  refine ⟨?_, ?_, ?_, ?_, ?_⟩ <;> decide

/-- C12: on an engine that is not running, `Queue(item)` does not enqueue: the
queue and its length, the item's `Progress`, the running flag and the
goroutines are the same after the call, which has returned. -/
theorem Queue_rejected (s : System) (item : Ref) (hrun : IsRunning s = false) :
    (Queue s item).engine.queue = s.engine.queue ∧
    GetQueueLength (Queue s item) = GetQueueLength s ∧
    ((Queue s item).items item).Progress = (s.items item).Progress ∧
    IsRunning (Queue s item) = IsRunning s ∧
    (Queue s item).threads = s.threads := by
  unfold IsRunning at hrun
  simp [Queue, hrun, System.emit, System.setItem, GetQueueLength, IsRunning]

theorem Queue_enqueues_witness :
    (Start (newSystem sampleItems true)).panicked = false ∧
    IsRunning (Start (newSystem sampleItems true)) = true ∧
    (Start (newSystem sampleItems true)).ctxDone 0 = false ∧
    GetQueueLength (Start (newSystem sampleItems true)) < queueCap ∧
    (∃ s2, run unixLib (Start (newSystem sampleItems true)) [.callQueue 0, .go 1 .send] = some s2 ∧
      (s2.items 0).Status = "Queued" ∧ (s2.items 0).Progress = "Waiting in queue" ∧
      s2.engine.queue = [some 0] ∧
      GetQueueLength s2 = 1 ∧
      s2.threads = [some (.workerSelect 0), none]) :=
  ⟨rfl, rfl, rfl, by decide,
   (Queue_enqueues unixLib (Start (newSystem sampleItems true)) 0 0 rfl rfl rfl rfl
      (by decide)).1⟩

theorem Queue_rejected_witness :
    IsRunning (newSystem sampleItems true) = false ∧
    GetQueueLength (Queue (newSystem sampleItems true) 0) = 0 ∧
    IsRunning (Queue (newSystem sampleItems true) 0) = false :=
  have h := Queue_rejected (newSystem sampleItems true) 0 rfl
  ⟨rfl, h.2.1, h.2.2.2.1⟩

/-- C13 (as stated) fails: `a.msi` is `Ready`, the engine was never started,
and after `Queue` the item's `Status` is not `Ready` and its progress message
is not "Engine not running". -/
theorem Queue_stopped_status_counterexample :
    (sampleItems 0).Status = "Ready" ∧ IsRunning (newSystem sampleItems true) = false ∧
    ((Queue (newSystem sampleItems true) 0).items 0).Status ≠ "Ready" ∧
    ((Queue (newSystem sampleItems true) 0).items 0).Progress ≠ "Engine not running" := by
  decide

/-- C13 (amended): `Queue(item)` called while the engine is not running
writes the explanation "Engine not running" into the item's `Status`,
whatever it was, and leaves the item's `Progress` and its other fields as
they were. -/
theorem Queue_stopped_status (s : System) (item : Ref) (hrun : IsRunning s = false) :
    ((Queue s item).items item).Status = "Engine not running" ∧
    ((Queue s item).items item).Progress = (s.items item).Progress ∧
    ((Queue s item).items item).Path = (s.items item).Path ∧
    ((Queue s item).items item).Size = (s.items item).Size ∧
    ((Queue s item).items item).Selected = (s.items item).Selected := by
  unfold IsRunning at hrun
  simp [Queue, hrun, System.emit, System.setItem]

theorem Queue_stopped_status_witness :
    IsRunning (newSystem sampleItems true) = false ∧
    ((Queue (newSystem sampleItems true) 0).items 0).Status = "Engine not running" ∧
    ((Queue (newSystem sampleItems true) 0).items 0).Progress = "" :=
  have h := Queue_stopped_status (newSystem sampleItems true) 0 rfl
  ⟨rfl, h.1, h.2.1⟩

/-- C14 (code at the failing input): the caller of `Queue(a.msi)` has seen the
engine running, then `Stop()` cancels the scope, and the cleanup and the
worker return; the caller's `select` has both cases ready and takes the send
case: the call returns with the item `Queued` in the queue of a stopped
engine that has no goroutine left to take it out. -/
theorem Queue_after_Stop_enqueues :
    (run unixLib (newSystem sampleItems true) schedQueueThenStop).map
      (fun s => (s.live, s.ctxDone 0, IsRunning s, s.engine.queue))
      = some ([.queueSelect 0 0], true, false, []) ∧
    (run unixLib (newSystem sampleItems true) (schedQueueThenStop ++ [.go 1 .send])).map
      (fun s => (s.live, IsRunning s, s.engine.queue, (s.items 0).Status, (s.items 0).Progress))
      = some ([], false, [some 0], "Queued", "Waiting in queue") := by
  constructor
  · decide
  · decide

/-! ## The lifecycle: `Start` and `Stop` -/

theorem workers_set (ths : List (Option Goroutine)) (g : Nat) (t : Goroutine)
    (next : Option Goroutine) (hg : ths[g]? = some (some t))
    (hw : nextIsWorker next = t.isWorker) :
    ((ths.set g next).filterMap id).countP Goroutine.isWorker
      = (ths.filterMap id).countP Goroutine.isWorker := by
  induction ths generalizing g with
  | nil => simp at hg
  | cons x xs ih =>
    cases g with
    | zero =>
      simp only [List.getElem?_cons_zero, Option.some.injEq] at hg
      subst hg
      cases next with
      | none =>
        simp only [nextIsWorker] at hw
        simp [List.filterMap_cons, List.countP_cons, ← hw]
      | some t1 =>
        simp only [nextIsWorker] at hw
        simp [List.filterMap_cons, List.countP_cons, hw]
    | succ n =>
      simp only [List.getElem?_cons_succ] at hg
      have := ih n hg
      cases x with
      | none => simpa [List.filterMap_cons] using this
      | some y => simpa [List.filterMap_cons, List.countP_cons] using this

theorem workers_append (s : System) (t : Goroutine) :
    ((s.threads ++ [some t]).filterMap id).countP Goroutine.isWorker
      = s.workers + (if t.isWorker then 1 else 0) := by
  simp [System.workers, System.live, List.filterMap_append, List.countP_cons]

theorem workerLoop_some (s : System) (c : Nat) (h : s.engine.ctx = some c) :
    workerLoop s = (s, some (.workerSelect c)) := by
  simp [workerLoop, h]

/-- While the engine has not been stopped, a step of a goroutine leaves the
lifecycle fields alone and a worker stays a worker. -/
theorem goStep_firstRun (lib : GoLib) (s s1 : System) (t : Goroutine) (m : Move)
    (next : Option Goroutine) (hstop : s.engine.stopClosed = false) (hcan : s.cancelled = [])
    (hctx : t.isWorker = true → s.engine.ctx ≠ none)
    (h : goStep lib s t m = some (s1, next)) :
    s1.panicked = s.panicked ∧ s1.engine.stopClosed = false ∧ s1.cancelled = [] ∧
      s1.engine.running = s.engine.running ∧ s1.engine.ctx = s.engine.ctx ∧
      nextIsWorker next = t.isWorker := by
  have hdone : ∀ c, s.ctxDone c = false := by
    intro c
    simp [System.ctxDone, hcan]
  cases t with
  | queueSelect item ctx =>
    cases m <;> simp [goStep, hdone] at h
    case send =>
      obtain ⟨_, h1, h2⟩ := h
      subst h1
      subst h2
      simp [System.emit, hstop, hcan, nextIsWorker, Goroutine.isWorker]
  | workerSelect ctx =>
    obtain ⟨c, hc⟩ := Option.ne_none_iff_exists'.mp (hctx rfl)
    cases m <;> simp [goStep, hdone, hstop] at h
    case recv =>
      split at h
      · exact absurd h (by simp)
      · rw [workerLoop_some _ c (by simpa using hc)] at h
        simp only [Option.some.injEq, Prod.mk.injEq] at h
        obtain ⟨h1, h2⟩ := h
        subst h1
        subst h2
        simp [hstop, hcan, nextIsWorker, Goroutine.isWorker]
      · simp only [Option.some.injEq, Prod.mk.injEq] at h
        obtain ⟨h1, h2⟩ := h
        subst h1
        subst h2
        simp [hstop, hcan, nextIsWorker, Goroutine.isWorker]
  | workerGot item =>
    cases m <;> simp [goStep] at h
    case run =>
      obtain ⟨h1, h2⟩ := h
      subst h1
      subst h2
      simp [System.emit, System.setItem, hstop, hcan, nextIsWorker, Goroutine.isWorker]
  | workerInstalling item =>
    obtain ⟨c, hc⟩ := Option.ne_none_iff_exists'.mp (hctx rfl)
    cases m <;> simp [goStep, hc] at h
    case launch spawnErr =>
      split at h
      · rw [workerLoop_some _ c (by simpa [System.emit, System.setItem] using hc)] at h
        simp only [Option.some.injEq, Prod.mk.injEq] at h
        obtain ⟨h1, h2⟩ := h
        subst h1
        subst h2
        simp [System.emit, System.setItem, hstop, hcan, nextIsWorker, Goroutine.isWorker]
      · simp only [Option.some.injEq, Prod.mk.injEq] at h
        obtain ⟨h1, h2⟩ := h
        subst h1
        subst h2
        simp [System.emit, System.setItem, hstop, hcan, nextIsWorker, Goroutine.isWorker]
  | workerWaiting item ctx cmd =>
    obtain ⟨c, hc⟩ := Option.ne_none_iff_exists'.mp (hctx rfl)
    cases m <;> simp [goStep, hdone] at h
    case finish stdout stderr result =>
      rw [workerLoop_some _ c (by simpa [System.emit, System.setItem] using hc)] at h
      simp only [Prod.mk.injEq] at h
      obtain ⟨h1, h2⟩ := h
      subst h1
      subst h2
      simp [System.emit, System.setItem, hstop, hcan, nextIsWorker, Goroutine.isWorker]
  | drainSelect =>
    cases m <;> simp [goStep] at h
    case recv =>
      split at h
      · exact absurd h (by simp)
      · simp only [Option.some.injEq, Prod.mk.injEq] at h
        obtain ⟨h1, h2⟩ := h
        subst h1
        subst h2
        simp [hstop, hcan, nextIsWorker, Goroutine.isWorker]
      · simp only [Option.some.injEq, Prod.mk.injEq] at h
        obtain ⟨h1, h2⟩ := h
        subst h1
        subst h2
        simp [hstop, hcan, nextIsWorker, Goroutine.isWorker]
    case dflt =>
      obtain ⟨_, h1, h2⟩ := h
      subst h1
      subst h2
      simp [hstop, hcan, nextIsWorker, Goroutine.isWorker]
  | drainGot item =>
    cases m <;> simp [goStep] at h
    case run =>
      obtain ⟨h1, h2⟩ := h
      subst h1
      subst h2
      simp [System.emit, System.setItem, hstop, hcan, nextIsWorker, Goroutine.isWorker]

theorem workers_pos (s : System) (g : Nat) (t : Goroutine)
    (hg : s.threads[g]? = some (some t)) (hw : t.isWorker = true) : 0 < s.workers := by
  unfold System.workers
  rw [List.countP_pos_iff]
  exact ⟨t, live_of_getElem? s g t hg, hw⟩

/-- Every action other than `Stop` keeps the engine in its first run. -/
theorem step_firstRun (lib : GoLib) (s s1 : System) (a : Action)
    (hinv : FirstRun s) (ha : a ≠ .callStop) (h : step lib s a = some s1) : FirstRun s1 := by
  obtain ⟨hp, hstop, hcan, hrun, hidle⟩ := hinv
  unfold step at h
  simp only [hp, Bool.false_eq_true, if_false] at h
  cases a with
  | callStart =>
    simp only [Option.some.injEq] at h
    subst h
    unfold Start
    cases hr : s.engine.running with
    | true =>
      simp only [if_true]
      exact ⟨hp, hstop, hcan, hrun, hidle⟩
    | false =>
      simp only [Bool.false_eq_true, if_false]
      refine ⟨hp, hstop, hcan, fun _ => ⟨by simp, ?_⟩, fun hf => absurd hf (by simp)⟩
      show ((s.threads ++ [some (Goroutine.workerSelect s.ctxCount)]).filterMap id).countP
        Goroutine.isWorker = 1
      rw [workers_append, hidle hr]
      rfl
  | callStop => exact absurd rfl ha
  | callQueue item =>
    simp only [Option.some.injEq] at h
    subst h
    unfold Queue
    cases hr : s.engine.running with
    | false =>
      simp only [Bool.not_false, if_true]
      exact ⟨hp, hstop, hcan, fun hf => absurd hf (by simp [System.emit, System.setItem, hr]),
        fun _ => hidle hr⟩
    | true =>
      obtain ⟨hne, hw⟩ := hrun hr
      obtain ⟨c, hc⟩ := Option.ne_none_iff_exists'.mp hne
      simp only [Bool.not_true, Bool.false_eq_true, if_false, hc]
      refine ⟨hp, hstop, hcan, fun _ => ⟨by simp [System.emit, System.setItem, hc], ?_⟩,
        fun hf => absurd hf (by simp [System.emit, System.setItem, hr])⟩
      show ((s.threads ++ [some (Goroutine.queueSelect item c)]).filterMap id).countP
        Goroutine.isWorker = 1
      rw [workers_append, hw]
      rfl
  | go g m =>
    simp only at h
    split at h
    · rename_i t hg
      split at h
      · exact absurd h (by simp)
      · rename_i s2 next hstep
        simp only [Option.some.injEq] at h
        subst h
        have hctx : t.isWorker = true → s.engine.ctx ≠ none := by
          intro hw
          have hpos := workers_pos s g t hg hw
          cases hr : s.engine.running with
          | true => exact (hrun hr).1
          | false =>
            rw [hidle hr] at hpos
            exact absurd hpos (Nat.lt_irrefl 0)
        obtain ⟨a1, a2, a3, a4, a5, a6⟩ := goStep_firstRun lib s s2 t m next hstop hcan hctx hstep
        have hcount : System.workers { s2 with threads := s.threads.set g next } = s.workers :=
          workers_set s.threads g t next hg a6
        refine ⟨a1.trans hp, a2, a3, ?_, ?_⟩
        · intro hr
          rw [hcount]
          have hr2 : s.engine.running = true := a4 ▸ hr
          exact ⟨by simpa [a5] using (hrun hr2).1, (hrun hr2).2⟩
        · intro hr
          rw [hcount]
          exact hidle (a4 ▸ hr)
    · exact absurd h (by simp)

theorem newSystem_firstRun (items : Ref → InstallerItem) (cb : Bool) :
    FirstRun (newSystem items cb) :=
  ⟨rfl, rfl, rfl, fun h => absurd h (by simp [newSystem]), fun _ => rfl⟩

/-- A schedule without `Stop` keeps the engine in its first run. -/
theorem run_firstRun (lib : GoLib) (sched : List Action) :
    ∀ s s1 : System, FirstRun s → Action.callStop ∉ sched → run lib s sched = some s1 →
      FirstRun s1 := by
  induction sched with
  | nil =>
    intro s s1 hinv _ h
    simp only [run, Option.some.injEq] at h
    exact h ▸ hinv
  | cons a rest ih =>
    intro s s1 hinv hno h
    have ha : a ≠ .callStop := fun e => hno (by rw [e]; exact List.mem_cons_self _ _)
    have hrest : Action.callStop ∉ rest := fun hmem => hno (List.mem_cons_of_mem _ hmem)
    simp only [run] at h
    split at h
    · exact absurd h (by simp)
    · rename_i s2 hstep
      exact ih s2 s1 (step_firstRun lib s s2 a hinv ha hstep) hrest h

theorem workerLoop_fields (s s1 : System) (next : Option Goroutine)
    (h : workerLoop s = (s1, next)) :
    s1.cancelled = s.cancelled ∧ s1.ctxCount = s.ctxCount ∧ s1.engine = s.engine ∧
      s1.items = s.items ∧ s1.events = s.events := by
  unfold workerLoop at h
  split at h <;> simp only [Prod.mk.injEq] at h <;> obtain ⟨h1, _⟩ := h <;> subst h1 <;> simp

/-! ## What a step writes and reports -/

theorem notify_no_progress (cb : Bool) (path status : String) :
    Event.progressCallback ∉ notify cb path status := by
  unfold notify
  split <;> simp

theorem notify_mem (path status : String) :
    Event.statusCallback path status ∈ notify true path status := by
  simp [notify]

theorem logOutput_quiet (path stdout stderr : String) :
    Event.progressCallback ∉ logOutput path stdout stderr := by
  unfold logOutput
  split <;> split <;> simp

theorem execBegin_write (lib : GoLib) (cb : Bool) (item : InstallerItem) :
    ExecWrite cb item (execBegin lib cb item).1 (execBegin lib cb item).2 := by
  refine ⟨rfl, ?_, Or.inr ⟨by simp [execBegin], ?_⟩⟩
  · simp [execBegin, notify_no_progress]
  · intro h
    subst h
    simp [execBegin, notify]

theorem execLaunch_write (lib : GoLib) (cb ctxDone : Bool) (spawnErr : Option String)
    (item it : InstallerItem) (evs : List Event) (started : Option (String × List String))
    (h : execLaunch lib cb ctxDone spawnErr item = (it, evs, started)) :
    ExecWrite cb item it evs := by
  unfold execLaunch at h
  simp only at h
  split at h
  · simp only [Prod.mk.injEq] at h
    obtain ⟨h1, h2, _⟩ := h
    subst h1
    subst h2
    refine ⟨rfl, by simp [notify_no_progress], Or.inr ⟨by simp, ?_⟩⟩
    intro hcb
    subst hcb
    simp [notify]
  · split at h
    · simp only [Prod.mk.injEq] at h
      obtain ⟨h1, h2, _⟩ := h
      subst h1
      subst h2
      refine ⟨rfl, by simp [notify_no_progress], Or.inr ⟨by simp, ?_⟩⟩
      intro hcb
      subst hcb
      simp [notify]
    · simp only [Prod.mk.injEq] at h
      obtain ⟨h1, h2, _⟩ := h
      subst h1
      subst h2
      exact ⟨rfl, by simp, Or.inl rfl⟩

theorem execWait_write (lib : GoLib) (cb : Bool) (cmd : String) (ev : WaitEvent)
    (item : InstallerItem) :
    ExecWrite cb item (execWait lib cb cmd ev item).1 (execWait lib cb cmd ev item).2 := by
  unfold execWait
  cases ev with
  | ctxDone =>
    refine ⟨rfl, by simp [notify_no_progress], Or.inr ⟨by simp, ?_⟩⟩
    intro hcb
    subst hcb
    simp [notify]
  | done stdout stderr result =>
    simp only
    split
    · refine ⟨rfl, by simp [notify_no_progress, logOutput_quiet], Or.inr ⟨by simp, ?_⟩⟩
      intro hcb
      subst hcb
      simp [notify]
    · refine ⟨rfl, by simp [notify_no_progress, logOutput_quiet], Or.inr ⟨by simp, ?_⟩⟩
      intro hcb
      subst hcb
      simp [notify]
    · refine ⟨rfl, by simp [notify_no_progress, logOutput_quiet], Or.inr ⟨by simp, ?_⟩⟩
      intro hcb
      subst hcb
      simp [notify]

theorem touch_write (s : System) (it : Ref) (v : InstallerItem) (evs : List Event) :
    Touch s ((s.setItem it v).emit evs) evs (some (it, v)) :=
  ⟨rfl, rfl, rfl, rfl, rfl, rfl, rfl⟩

theorem touch_queue (s : System) (q : List (Option Ref)) :
    Touch s { s with engine := { s.engine with queue := q } } [] none :=
  ⟨rfl, rfl, rfl, rfl, rfl, (List.append_nil _).symm, rfl⟩

theorem touch_loop (s s0 s1 : System) (next : Option Goroutine) (evs : List Event)
    (w : Option (Ref × InstallerItem)) (h : workerLoop s0 = (s1, next))
    (ht : Touch s s0 evs w) : Touch s s1 evs w := by
  obtain ⟨a, b, c, d, e⟩ := workerLoop_fields _ _ _ h
  obtain ⟨t1, t2, t3, t4, t5, t6, t7⟩ := ht
  exact ⟨a.trans t1, b.trans t2, by rw [c]; exact t3, by rw [c]; exact t4, by rw [c]; exact t5,
    e.trans t6, d.trans t7⟩

/-- Every step of a goroutine appends events and writes at most the item the
goroutine holds; a write inside `executeInstaller` reports the new status,
every other write is a silent cancellation. -/
theorem goStep_touch (lib : GoLib) (s s1 : System) (t : Goroutine) (m : Move)
    (next : Option Goroutine) (h : goStep lib s t m = some (s1, next)) :
    ∃ evs w, Touch s s1 evs w ∧ Written s t evs w := by
  have hnil : ∀ e ∈ ([] : List Event), Event.isCallback e = false := by simp
  cases t with
  | queueSelect item ctx =>
    cases m <;> simp [goStep] at h
    case send =>
      obtain ⟨_, h1, _⟩ := h
      subst h1
      exact ⟨_, none, ⟨rfl, rfl, rfl, rfl, rfl, rfl, rfl⟩, by simp [Written, Event.isCallback]⟩
    case ctxDone =>
      obtain ⟨_, h1, _⟩ := h
      subst h1
      exact ⟨_, _, touch_write _ _ _ _, rfl,
        Or.inr ⟨rfl, rfl, rfl, by simp [Event.isCallback]⟩⟩
  | workerSelect ctx =>
    cases m <;> simp [goStep] at h
    case ctxDone =>
      obtain ⟨_, h1⟩ := h
      simp only [workerExit, Prod.mk.injEq] at h1
      obtain ⟨h1, _⟩ := h1
      subst h1
      exact ⟨[], none, ⟨rfl, rfl, rfl, rfl, rfl, (List.append_nil _).symm, rfl⟩, hnil⟩
    case stop =>
      obtain ⟨_, h1⟩ := h
      simp only [workerExit, Prod.mk.injEq] at h1
      obtain ⟨h1, _⟩ := h1
      subst h1
      exact ⟨[], none, ⟨rfl, rfl, rfl, rfl, rfl, (List.append_nil _).symm, rfl⟩, hnil⟩
    case recv =>
      split at h
      · exact absurd h (by simp)
      · rename_i rest hq
        exact ⟨[], none, touch_loop _ _ _ _ _ _ (Option.some.inj h) (touch_queue s rest), hnil⟩
      · rename_i item rest hq
        simp only [Option.some.injEq, Prod.mk.injEq] at h
        obtain ⟨h1, _⟩ := h
        subst h1
        exact ⟨[], none, touch_queue s rest, hnil⟩
  | workerGot item =>
    cases m <;> simp [goStep] at h
    case run =>
      obtain ⟨h1, _⟩ := h
      subst h1
      exact ⟨_, _, touch_write _ _ _ _, rfl, Or.inl ⟨rfl, execBegin_write _ _ _⟩⟩
  | workerInstalling item =>
    cases m <;> simp [goStep] at h
    case launch spawnErr =>
      split at h
      · simp only [Option.some.injEq, Prod.mk.injEq] at h
        obtain ⟨h1, _⟩ := h
        subst h1
        exact ⟨[], none, ⟨rfl, rfl, rfl, rfl, rfl, (List.append_nil _).symm, rfl⟩, hnil⟩
      · rename_i c hc
        split at h
        · rename_i it evs hl
          exact ⟨_, _, touch_loop _ _ _ _ _ _ (Option.some.inj h) (touch_write _ _ _ _), rfl,
            Or.inl ⟨rfl, execLaunch_write _ _ _ _ _ _ _ _ hl⟩⟩
        · rename_i it evs cmd args hl
          simp only [Option.some.injEq, Prod.mk.injEq] at h
          obtain ⟨h1, _⟩ := h
          subst h1
          exact ⟨_, _, touch_write _ _ _ _, rfl,
            Or.inl ⟨rfl, execLaunch_write _ _ _ _ _ _ _ _ hl⟩⟩
  | workerWaiting item ctx cmd =>
    cases m <;> simp [goStep] at h
    case ctxDone =>
      exact ⟨_, _, touch_loop _ _ _ _ _ _ h.2 (touch_write _ _ _ _), rfl,
        Or.inl ⟨rfl, execWait_write _ _ _ _ _⟩⟩
    case finish stdout stderr result =>
      exact ⟨_, _, touch_loop _ _ _ _ _ _ h (touch_write _ _ _ _), rfl,
        Or.inl ⟨rfl, execWait_write _ _ _ _ _⟩⟩
  | drainSelect =>
    cases m <;> simp [goStep] at h
    case recv =>
      split at h
      · exact absurd h (by simp)
      · rename_i rest hq
        simp only [Option.some.injEq, Prod.mk.injEq] at h
        obtain ⟨h1, _⟩ := h
        subst h1
        exact ⟨[], none, touch_queue s rest, hnil⟩
      · rename_i item rest hq
        simp only [Option.some.injEq, Prod.mk.injEq] at h
        obtain ⟨h1, _⟩ := h
        subst h1
        exact ⟨[], none, touch_queue s rest, hnil⟩
    case dflt =>
      obtain ⟨_, h1, _⟩ := h
      subst h1
      exact ⟨[], none, ⟨rfl, rfl, rfl, rfl, rfl, (List.append_nil _).symm, rfl⟩, hnil⟩
  | drainGot item =>
    cases m <;> simp [goStep] at h
    case run =>
      obtain ⟨h1, _⟩ := h
      subst h1
      exact ⟨_, _, touch_write _ _ _ _, rfl,
        Or.inr ⟨rfl, rfl, rfl, by simp [Event.isCallback]⟩⟩

/-! ## The lifecycle claims -/

theorem newSystem_scopesMade (items : Ref → InstallerItem) (cb : Bool) :
    (newSystem items cb).scopesMade := by
  constructor
  · intro c hc
    simp [newSystem] at hc
  · intro c hc
    simp [newSystem] at hc

/-- Every step keeps the counter of scopes above the scopes in use. -/
theorem step_scopesMade (lib : GoLib) (s s1 : System) (a : Action)
    (hinv : s.scopesMade) (h : step lib s a = some s1) : s1.scopesMade := by
  obtain ⟨hcan, hctx⟩ := hinv
  unfold step at h
  split at h
  · exact absurd h (by simp)
  · cases a with
    | callStart =>
      simp only [Option.some.injEq] at h
      subst h
      unfold Start
      split
      · exact ⟨hcan, hctx⟩
      · constructor
        · intro c hc
          exact Nat.lt_succ_of_lt (hcan c hc)
        · intro c hc
          simp only [Option.some.injEq] at hc
          subst hc
          exact Nat.lt_succ_self _
    | callStop =>
      simp only [Option.some.injEq] at h
      subst h
      have hcons : ∀ c ∈ (match s.engine.ctx with
          | some c => c :: s.cancelled
          | none => s.cancelled), c < s.ctxCount := by
        intro c hc
        split at hc
        · rename_i c0 h0
          rcases List.mem_cons.mp hc with e | e
          · exact e ▸ hctx c0 h0
          · exact hcan c e
        · exact hcan c hc
      unfold Stop
      split
      · exact ⟨hcan, hctx⟩
      · simp only
        split
        · exact ⟨hcons, hctx⟩
        · exact ⟨hcons, hctx⟩
    | callQueue item =>
      simp only [Option.some.injEq] at h
      subst h
      unfold Queue
      simp only
      split
      · exact ⟨hcan, hctx⟩
      · split
        · exact ⟨hcan, hctx⟩
        · exact ⟨hcan, hctx⟩
    | go g m =>
      simp only at h
      split at h
      · rename_i t hg
        split at h
        · exact absurd h (by simp)
        · rename_i s2 next hstep
          simp only [Option.some.injEq] at h
          subst h
          obtain ⟨evs, w, ⟨t1, t2, t3, _⟩, _⟩ := goStep_touch lib s s2 t m next hstep
          constructor
          · intro c hc
            have hc2 : c ∈ s2.cancelled := hc
            rw [t1] at hc2
            rw [show System.ctxCount _ = s2.ctxCount from rfl, t2]
            exact hcan c hc2
          · intro c hc
            have hc2 : s2.engine.ctx = some c := hc
            rw [t3] at hc2
            rw [show System.ctxCount _ = s2.ctxCount from rfl, t2]
            exact hctx c hc2
      · exact absurd h (by simp)

/-- The method `Start` on a running engine changes nothing (running flag, scope,
queue, items and goroutines are the same); on a stopped engine it sets the
running flag, takes a fresh scope, which is not cancelled and is not the old
one, and launches one worker, leaving queue and items alone; and on an engine
that has not been stopped a running engine has exactly one live worker, before
and after a further `Start()`. -/
theorem Start_idempotent (lib : GoLib) (s : System) (items : Ref → InstallerItem) (cb : Bool)
    (sched : List Action) (s1 : System) :
    (IsRunning s = true → Start s = s) ∧
    (IsRunning s = false → s.scopesMade →
      IsRunning (Start s) = true ∧
      (Start s).engine.ctx = some s.ctxCount ∧ (Start s).ctxDone s.ctxCount = false ∧
      s.engine.ctx ≠ some s.ctxCount ∧
      (Start s).threads = s.threads ++ [some (.workerSelect s.ctxCount)] ∧
      (Start s).workers = s.workers + 1 ∧
      (Start s).engine.queue = s.engine.queue ∧ (Start s).items = s.items) ∧
    (Action.callStop ∉ sched → run lib (newSystem items cb) sched = some s1 →
      IsRunning s1 = true → s1.workers = 1 ∧ (Start s1).workers = 1) := by
  unfold IsRunning
  refine ⟨?_, ?_, ?_⟩
  · intro hr
    simp [Start, hr]
  · intro hr hsc
    have hfresh : s.ctxCount ∉ s.cancelled := fun hmem => Nat.lt_irrefl _ (hsc.1 _ hmem)
    have hold : s.engine.ctx ≠ some s.ctxCount := fun e => Nat.lt_irrefl _ (hsc.2 _ e)
    refine ⟨by simp [Start, hr], by simp [Start, hr], by simp [Start, hr, System.ctxDone, hfresh],
      hold, by simp [Start, hr], ?_, by simp [Start, hr], by simp [Start, hr]⟩
    simp [Start, hr, System.workers, System.live, Goroutine.isWorker]
  · intro hno hrun hr
    have hinv := run_firstRun lib sched _ s1 (newSystem_firstRun items cb) hno hrun
    have hw := (hinv.2.2.2.1 hr).2
    refine ⟨hw, ?_⟩
    simp [Start, hr, hw]

theorem Start_idempotent_witness :
    IsRunning (newSystem sampleItems true) = false ∧
    IsRunning (Start (newSystem sampleItems true)) = true ∧
    (Start (newSystem sampleItems true)).workers = 1 ∧
    Start (Start (newSystem sampleItems true)) = Start (newSystem sampleItems true) ∧
    (Start (Start (newSystem sampleItems true))).workers = 1 :=
  have h0 := Start_idempotent unixLib (newSystem sampleItems true) sampleItems true
    [.callStart] (Start (newSystem sampleItems true))
  have h := Start_idempotent unixLib (Start (newSystem sampleItems true)) sampleItems true
    [.callStart] (Start (newSystem sampleItems true))
  ⟨rfl, (h0.2.1 rfl (newSystem_scopesMade sampleItems true)).1,
    (h0.2.1 rfl (newSystem_scopesMade sampleItems true)).2.2.2.2.2.1, h.1 rfl,
    (h.2.2 (by decide) rfl rfl).2⟩

/-- C16: `Stop()` on an engine that is not running changes nothing (no scope
is cancelled, the channel `stop` is not closed, no cleanup is launched, no
item is written), so a `Stop()` after a `Stop()` that left the engine stopped
changes nothing. -/
theorem Stop_idempotent (s : System) :
    (IsRunning s = false → Stop s = s) ∧
    (IsRunning (Stop s) = false → Stop (Stop s) = Stop s) ∧
    (IsRunning s = false ∨ s.engine.stopClosed = false → IsRunning (Stop s) = false) := by
  have hnoop : ∀ s0 : System, s0.engine.running = false → Stop s0 = s0 := by
    intro s0 h0
    simp [Stop, h0]
  unfold IsRunning
  refine ⟨hnoop s, hnoop (Stop s), ?_⟩
  intro h
  cases hr : s.engine.running with
  | false => rw [hnoop s hr, hr]
  | true =>
    rcases h with h | h
    · rw [hr] at h
      exact absurd h (by simp)
    · simp [Stop, hr, h]

theorem Stop_idempotent_witness :
    IsRunning (Start (newSystem sampleItems true)) = true ∧
    Stop (Stop (Start (newSystem sampleItems true))) = Stop (Start (newSystem sampleItems true)) ∧
    Stop (newSystem sampleItems true) = newSystem sampleItems true :=
  ⟨rfl,
   (Stop_idempotent (Start (newSystem sampleItems true))).2.1
     ((Stop_idempotent (Start (newSystem sampleItems true))).2.2 (Or.inr rfl)),
   (Stop_idempotent (newSystem sampleItems true)).1 rfl⟩

/-- C17 (code at the failing input): after `Start()`, `Stop()`, `Start()` the
engine is running under the fresh scope 1, which is not cancelled, but the
channel `stop` is still closed; the new worker's `select` takes the stop case
and returns, or the first worker returns on its cancelled scope, and either
way the deferred function clears the running flag although the last
lifecycle call was `Start()`. -/
theorem restart_clears_running :
    (run unixLib (newSystem sampleItems true) schedStartStopStart).map
      (fun s => (IsRunning s, s.engine.ctx, s.ctxDone 1, s.engine.stopClosed, s.live))
      = some (true, some 1, false, true, [.workerSelect 0, .drainSelect, .workerSelect 1]) ∧
    (run unixLib (newSystem sampleItems true) (schedStartStopStart ++ [.go 2 .stop])).map
      (fun s => (IsRunning s, s.live)) = some (false, [.workerSelect 0, .drainSelect]) ∧
    (run unixLib (newSystem sampleItems true) (schedStartStopStart ++ [.go 0 .ctxDone])).map
      (fun s => (IsRunning s, s.live)) = some (false, [.drainSelect, .workerSelect 1]) := by
  refine ⟨?_, ?_, ?_⟩ <;> decide

/-! ## Status values, finality and reports -/

theorem quiet_no_progress (evs : List Event) (h : ∀ e ∈ evs, Event.isCallback e = false) :
    Event.progressCallback ∉ evs := by
  intro hmem
  have := h _ hmem
  simp [Event.isCallback] at this

/-- A step of a goroutine changes the status of the item it holds only: inside
`executeInstaller` to one of four values, reported to the registered status
callback; elsewhere to `Cancelled`, with no callback; and the progress
callback is not called. -/
theorem goStep_report (lib : GoLib) (s s1 : System) (t : Goroutine) (m : Move)
    (next : Option Goroutine) (h : goStep lib s t m = some (s1, next)) :
    ∃ evs, s1.events = s.events ++ evs ∧ Event.progressCallback ∉ evs ∧
      ∀ r, s1.status r ≠ s.status r →
        t.item = some r ∧
        s1.status r ∈ ["Installing", "Completed", "Failed", "Cancelled"] ∧
        ((t.inExec = true ∧ (s.engine.hasStatusCallback = true →
            Event.statusCallback (s.items r).Path (s1.status r) ∈ evs)) ∨
          (t.inExec = false ∧ s1.status r = "Cancelled" ∧
            ∀ e ∈ evs, Event.isCallback e = false)) := by
  obtain ⟨evs, w, ⟨_, _, _, _, _, hev, hitems⟩, hw⟩ := goStep_touch lib s s1 t m next h
  cases w with
  | none =>
    refine ⟨evs, hev, quiet_no_progress evs hw, ?_⟩
    intro r hr
    exact absurd (by unfold System.status; rw [hitems]) hr
  | some p =>
    obtain ⟨it, v⟩ := p
    obtain ⟨hit, hcase⟩ := hw
    have hst : ∀ r, s1.status r ≠ s.status r → r = it ∧ s1.status r = v.Status := by
      intro r hr
      by_cases e : r = it
      · subst e
        exact ⟨rfl, by unfold System.status; rw [hitems]; simp⟩
      · exact absurd (by unfold System.status; rw [hitems]; simp [Function.update_noteq e]) hr
    rcases hcase with ⟨hexec, _, hnp, hv⟩ | ⟨hexec, _, hv, hq⟩
    · refine ⟨evs, hev, hnp, ?_⟩
      intro r hr
      obtain ⟨e, hs⟩ := hst r hr
      subst e
      rcases hv with hv | ⟨hv, hcb⟩
      · exact absurd (hs.trans hv) hr
      · exact ⟨hit, hs ▸ hv, Or.inl ⟨hexec, fun hc => hs ▸ hcb hc⟩⟩
    · refine ⟨evs, hev, quiet_no_progress evs hq, ?_⟩
      intro r hr
      obtain ⟨e, hs⟩ := hst r hr
      subst e
      exact ⟨hit, by rw [hs, hv]; simp, Or.inr ⟨hexec, hs.trans hv, hq⟩⟩

theorem Queue_status (s : System) (r : Ref) :
    (Queue s r).status r = if s.engine.running then "Queued" else "Engine not running" := by
  unfold Queue
  cases hr : s.engine.running with
  | false => simp [System.status, System.setItem, System.emit]
  | true =>
    simp only [Bool.not_true, Bool.false_eq_true, if_false, if_true]
    split <;> simp [System.status, System.setItem, System.emit]

theorem Queue_events (s : System) (r : Ref) :
    ∃ line, (Queue s r).events = s.events ++ [Event.log line] := by
  unfold Queue
  simp only
  split
  · exact ⟨_, rfl⟩
  · split <;> exact ⟨_, rfl⟩

theorem Start_items (s : System) : (Start s).items = s.items ∧ (Start s).events = s.events := by
  unfold Start
  split <;> exact ⟨rfl, rfl⟩

theorem Stop_items (s : System) :
    (Stop s).items = s.items ∧
      ((Stop s).events = s.events ∨
        (Stop s).events = s.events ++ [Event.log "Stopping installer engine"]) := by
  unfold Stop
  split
  · exact ⟨rfl, Or.inl rfl⟩
  · simp only
    split <;> exact ⟨rfl, Or.inr rfl⟩

/-- Every step appends events without a call of the progress callback, and a
step that changes the status of an item is either a `Queue` of that item,
which calls no callback, or a step of the goroutine that holds the item, as
in `goStep_report`. -/
theorem step_report (lib : GoLib) (s s1 : System) (a : Action)
    (h : step lib s a = some s1) :
    ∃ evs, s1.events = s.events ++ evs ∧ Event.progressCallback ∉ evs ∧
      ∀ r, s1.status r ≠ s.status r →
        (a = .callQueue r ∧
          s1.status r = (if s.engine.running then "Queued" else "Engine not running") ∧
          ∀ e ∈ evs, Event.isCallback e = false) ∨
        (∃ g m t, a = .go g m ∧ s.threads[g]? = some (some t) ∧ t.item = some r ∧
          s1.status r ∈ ["Installing", "Completed", "Failed", "Cancelled"] ∧
          ((t.inExec = true ∧ (s.engine.hasStatusCallback = true →
              Event.statusCallback (s.items r).Path (s1.status r) ∈ evs)) ∨
            (t.inExec = false ∧ s1.status r = "Cancelled" ∧
              ∀ e ∈ evs, Event.isCallback e = false))) := by
  unfold step at h
  split at h
  · exact absurd h (by simp)
  · cases a with
    | callStart =>
      simp only [Option.some.injEq] at h
      subst h
      obtain ⟨hi, he⟩ := Start_items s
      refine ⟨[], by rw [he]; simp, by simp, ?_⟩
      intro r hr
      exact absurd (by unfold System.status; rw [hi]) hr
    | callStop =>
      simp only [Option.some.injEq] at h
      subst h
      obtain ⟨hi, he⟩ := Stop_items s
      have hsame : ∀ r, (Stop s).status r ≠ s.status r → False := by
        intro r hr
        exact hr (by unfold System.status; rw [hi])
      rcases he with he | he
      · exact ⟨[], by rw [he]; simp, by simp, fun r hr => (hsame r hr).elim⟩
      · exact ⟨_, he, by simp, fun r hr => (hsame r hr).elim⟩
    | callQueue item =>
      simp only [Option.some.injEq] at h
      subst h
      obtain ⟨line, he⟩ := Queue_events s item
      refine ⟨_, he, by simp, ?_⟩
      intro r hr
      by_cases e : r = item
      · subst e
        exact Or.inl ⟨rfl, Queue_status s r, by simp [Event.isCallback]⟩
      · exact absurd (Queue_other s item r e).1 hr
    | go g m =>
      simp only at h
      split at h
      · rename_i t hg
        split at h
        · exact absurd h (by simp)
        · rename_i s2 next hstep
          simp only [Option.some.injEq] at h
          subst h
          obtain ⟨evs, he, hnp, hrep⟩ := goStep_report lib s s2 t m next hstep
          refine ⟨evs, he, hnp, ?_⟩
          intro r hr
          obtain ⟨hit, hval, hcase⟩ := hrep r hr
          exact Or.inr ⟨g, m, t, rfl, hg, hit, hval, hcase⟩
      · exact absurd h (by simp)

/-- C18 (amended): for an item that was handed to the engine once, every
engine operation other than a new `Queue` of it (Start, Stop, Queue of
another item, a worker step, a cleanup step) leaves a terminal status as it
is and changes any status only forward, Queued to Installing, Installing to
a terminal status, or Queued to Cancelled; a new `Queue` of the item sets its
status to `Queued` on a running engine and to "Engine not running" on a
stopped one, whatever it was. -/
theorem terminal_final (lib : GoLib) (s s1 : System) (a : Action) (r : Ref)
    (hinv : Tracked s r) (h : step lib s a = some s1) :
    (a ≠ .callQueue r →
      Tracked s1 r ∧
      (terminal (s.status r) → s1.status r = s.status r) ∧
      (s1.status r = s.status r ∨ Allowed (s.status r) (s1.status r))) ∧
    (a = .callQueue r →
      s1.status r = if IsRunning s then "Queued" else "Engine not running") := by
  constructor
  · intro ha
    obtain ⟨hinv1, htrans⟩ := step_tracked lib s s1 a r hinv ha h
    refine ⟨hinv1, ?_, htrans⟩
    intro hterm
    rcases htrans with hsame | hallowed
    · exact hsame
    · exfalso
      rcases hallowed with ⟨ha1, _⟩ | ⟨ha1, _⟩ | ⟨ha1, _⟩ <;>
        rcases hterm with ht | ht | ht <;> rw [ht] at ha1 <;> revert ha1 <;> decide
  · intro ha
    subst ha
    unfold step at h
    split at h
    · exact absurd h (by simp)
    · simp only [Option.some.injEq] at h
      subst h
      exact Queue_status s r

theorem terminal_final_witness :
    Tracked (newSystem doneItems true) 1 ∧
    (Start (newSystem doneItems true)).status 1 = "Completed" :=
  have hinv : Tracked (newSystem doneItems true) 1 :=
    tracked_of_holdsNot (newSystem doneItems true) 1 (by unfold System.holdsNot; decide) _
  have h := terminal_final unixLib (newSystem doneItems true) (Start (newSystem doneItems true))
    .callStart 1 hinv rfl
  ⟨hinv, (h.1 (by decide)).2.1 (Or.inl rfl)⟩

/-- C18 (as stated) fails: `b.exe` is installed and `Completed`, and a new
`Queue(b.exe)` on the running engine changes its status back to `Queued`. -/
theorem terminal_final_counterexample :
    (run unixLib (Queue (Start (newSystem sampleItems true)) 1) schedInstall).map
      (fun s => (s.status 1, IsRunning s)) = some ("Completed", true) ∧
    (run unixLib (Queue (Start (newSystem sampleItems true)) 1)
      (schedInstall ++ [.callQueue 1])).map (fun s => s.status 1) = some "Queued" := by
  constructor <;> decide

theorem executeInstaller_terminal (lib : GoLib) (cb : Bool) (env : ExecEnv)
    (item : InstallerItem) : terminal (executeInstaller lib cb env item).1.Status := by
  unfold executeInstaller
  simp only
  split
  · rename_i it evs hl
    rcases execLaunch_status _ _ _ _ _ _ _ _ hl with ⟨_, hf⟩ | ⟨hne, _⟩
    · exact Or.inr (Or.inl hf)
    · exact absurd rfl hne
  · exact execWait_terminal _ _ _ _ _

/-- C19 (as stated) fails: `a.msi` is `Ready`, one of the six values, the
engine was never started, and `Queue` leaves the item with a status that is
none of the six values. -/
theorem status_values_counterexample :
    (newSystem sampleItems true).status 0 ∈ sixStatuses ∧
    (Queue (newSystem sampleItems true) 0).status 0 ∉ sixStatuses := by
  decide

/-- C19 (amended): every engine operation other than a `Queue` on a stopped
engine keeps the status of every item among the six values: `Queue` on a
running engine, every step of `executeInstaller` and of `cancelQueuedItems`,
`Start` and `Stop` write only `Queued`, `Installing`, `Completed`, `Failed`
and `Cancelled`, and `executeInstaller` returns with a terminal status; a
`Queue` on a stopped engine writes "Engine not running", so what every
operation keeps is that the status is one of the six values or "Engine not
running". -/
theorem status_values (lib : GoLib) (s s1 : System) (a : Action) (r : Ref) (cb : Bool)
    (env : ExecEnv) (item : InstallerItem) (h : step lib s a = some s1) :
    (s.status r ∈ sixStatuses →
      s1.status r ∈ sixStatuses ∨
        (a = .callQueue r ∧ IsRunning s = false ∧ s1.status r = "Engine not running")) ∧
    (s.status r ∈ "Engine not running" :: sixStatuses →
      s1.status r ∈ "Engine not running" :: sixStatuses) ∧
    (executeInstaller lib cb env item).1.Status ∈ sixStatuses := by
  have key : s1.status r = s.status r ∨
      s1.status r ∈ ["Queued", "Installing", "Completed", "Failed", "Cancelled"] ∨
      (a = .callQueue r ∧ IsRunning s = false ∧ s1.status r = "Engine not running") := by
    by_cases hsame : s1.status r = s.status r
    · exact Or.inl hsame
    · obtain ⟨evs, _, _, hrep⟩ := step_report lib s s1 a h
      rcases hrep r hsame with ⟨ha, hst, _⟩ | ⟨g, m, t, _, _, _, hval, _⟩
      · cases hr : s.engine.running with
        | true =>
          rw [hr] at hst
          exact Or.inr (Or.inl (by rw [hst]; simp))
        | false =>
          rw [hr] at hst
          exact Or.inr (Or.inr ⟨ha, hr, by simpa using hst⟩)
      · refine Or.inr (Or.inl ?_)
        simp only [List.mem_cons, List.mem_singleton, List.not_mem_nil, or_false] at hval ⊢
        exact Or.inr hval
  have hfive : ∀ x : String, x ∈ ["Queued", "Installing", "Completed", "Failed", "Cancelled"] →
      x ∈ sixStatuses := by
    intro x hx
    exact List.mem_cons_of_mem _ hx
  refine ⟨?_, ?_, ?_⟩
  · intro hin
    rcases key with hk | hk | hk
    · exact Or.inl (hk ▸ hin)
    · exact Or.inl (hfive _ hk)
    · exact Or.inr hk
  · intro hin
    rcases key with hk | hk | hk
    · exact hk ▸ hin
    · exact List.mem_cons_of_mem _ (hfive _ hk)
    · rw [hk.2.2]
      exact List.mem_cons_self _ _
  · rcases executeInstaller_terminal lib cb env item with ht | ht | ht <;> rw [ht] <;> decide

theorem status_values_witness :
    (Start (newSystem sampleItems true)).status 0 ∈ sixStatuses ∧
    (Queue (Start (newSystem sampleItems true)) 0).status 0 ∈ "Engine not running" :: sixStatuses :=
  have h := status_values unixLib (Start (newSystem sampleItems true))
    (Queue (Start (newSystem sampleItems true)) 0) (.callQueue 0) 0 true
    ⟨false, none, .ctxDone⟩ (sampleItems 0) rfl
  ⟨by decide, h.2.1 (by decide)⟩

/-- With the status callback registered, a run of `executeInstaller` reports
`Installing` and its final status, and does not call the progress callback. -/
theorem executeInstaller_reports (lib : GoLib) (env : ExecEnv) (item : InstallerItem) :
    Event.statusCallback item.Path "Installing" ∈ (executeInstaller lib true env item).2 ∧
    Event.statusCallback item.Path (executeInstaller lib true env item).1.Status
      ∈ (executeInstaller lib true env item).2 ∧
    Event.progressCallback ∉ (executeInstaller lib true env item).2 := by
  obtain ⟨_, hb2, _⟩ := execBegin_write lib true item
  have hbegin : Event.statusCallback item.Path "Installing" ∈ (execBegin lib true item).2 := by
    simp [execBegin, notify]
  unfold executeInstaller
  simp only
  split
  · rename_i it evs hl
    obtain ⟨hp, hn, hv⟩ := execLaunch_write _ _ _ _ _ _ _ _ hl
    have hfailed : it.Status = "Failed" := by
      rcases execLaunch_status _ _ _ _ _ _ _ _ hl with ⟨_, hf⟩ | ⟨hne, _⟩
      · exact hf
      · exact absurd rfl hne
    refine ⟨List.mem_append_left _ hbegin, ?_, ?_⟩
    · rcases hv with hv | ⟨_, hv⟩
      · rw [hfailed] at hv
        exact absurd hv (by simp [execBegin])
      · exact List.mem_append_right _ (hv rfl)
    · simp only [List.mem_append, not_or]
      exact ⟨hb2, hn⟩
  · rename_i it evs cmd args hl
    obtain ⟨hp, hn, _⟩ := execLaunch_write _ _ _ _ _ _ _ _ hl
    have hinst : it.Status = "Installing" := by
      rcases execLaunch_status _ _ _ _ _ _ _ _ hl with ⟨hnone, _⟩ | ⟨_, hs⟩
      · exact absurd hnone (by simp)
      · exact hs
    obtain ⟨_, hwn, hwv⟩ := execWait_write lib true cmd env.wait it
    have hpath : it.Path = item.Path := hp
    refine ⟨List.mem_append_left _ (List.mem_append_left _ hbegin), ?_, ?_⟩
    · rcases hwv with hwv | ⟨_, hwv⟩
      · exfalso
        rw [hinst] at hwv
        rcases execWait_terminal lib true cmd env.wait it with ht | ht | ht <;>
          rw [ht] at hwv <;> revert hwv <;> decide
      · rw [← hpath]
        exact List.mem_append_right _ (hwv rfl)
    · simp only [List.mem_append, not_or]
      exact ⟨⟨hb2, hn⟩, hwn⟩

/-- C20 (as stated) fails, with the status callback registered: the
transition of `b.exe` to `Queued` calls no callback; its whole installation
calls the status callback for `Installing` and `Completed` only and never the
progress callback; and the cancellation of the queued `a.msi` by the cleanup
calls no callback at all. -/
theorem status_reported_counterexample :
    (Start (newSystem sampleItems true)).engine.hasStatusCallback = true ∧
    ((Queue (Start (newSystem sampleItems true)) 1).status 1,
      callbacks (Queue (Start (newSystem sampleItems true)) 1).events) = ("Queued", []) ∧
    (run unixLib (Queue (Start (newSystem sampleItems true)) 1) schedInstall).map
      (fun s => (s.status 1, callbacks s.events))
      = some ("Completed",
          [.statusCallback "b.exe" "Installing", .statusCallback "b.exe" "Completed"]) ∧
    (run unixLib (Queue (Start (newSystem sampleItems true)) 0) schedCancelQueued).map
      (fun s => (s.status 0, callbacks s.events)) = some ("Cancelled", []) := by
  refine ⟨rfl, ?_, ?_, ?_⟩ <;> decide

/-- C20 (amended): with the status callback registered, every step that
changes the status of an item to `Installing`, `Completed` or `Failed`, and
every step of `executeInstaller` that changes it to `Cancelled`, calls the
status callback with the item's path and the new status, so every failure is
reported; a run of `executeInstaller` reports `Installing` and its final
status; the changes made by `Queue` (to `Queued`, or "Engine not running")
call no callback; and no step calls the progress callback. -/
theorem status_reported (lib : GoLib) (s s1 : System) (a : Action) (r : Ref)
    (env : ExecEnv) (item : InstallerItem)
    (h : step lib s a = some s1) (hcb : s.engine.hasStatusCallback = true) :
    (∃ evs, s1.events = s.events ++ evs ∧ Event.progressCallback ∉ evs ∧
      (s1.status r ≠ s.status r →
        (s1.status r ∈ ["Installing", "Completed", "Failed"] →
          Event.statusCallback (s.items r).Path (s1.status r) ∈ evs) ∧
        (s1.status r = "Cancelled" →
          (∀ g m t, a = .go g m → s.threads[g]? = some (some t) → t.inExec = true →
            Event.statusCallback (s.items r).Path "Cancelled" ∈ evs)) ∧
        (a = .callQueue r → ∀ e ∈ evs, Event.isCallback e = false))) ∧
    Event.statusCallback item.Path "Installing" ∈ (executeInstaller lib true env item).2 ∧
    Event.statusCallback item.Path (executeInstaller lib true env item).1.Status
      ∈ (executeInstaller lib true env item).2 ∧
    Event.progressCallback ∉ (executeInstaller lib true env item).2 := by
  refine ⟨?_, executeInstaller_reports lib env item⟩
  obtain ⟨evs, he, hnp, hrep⟩ := step_report lib s s1 a h
  refine ⟨evs, he, hnp, ?_⟩
  intro hr
  rcases hrep r hr with ⟨ha, hst, hq⟩ | ⟨g, m, t, ha, hg, _, _, hcase⟩
  · have hne : s1.status r ≠ "Installing" ∧ s1.status r ≠ "Completed" ∧
        s1.status r ≠ "Failed" ∧ s1.status r ≠ "Cancelled" := by
      rw [hst]
      split <;> decide
    refine ⟨?_, ?_, fun _ => hq⟩
    · intro hin
      simp only [List.mem_cons, List.mem_singleton, List.not_mem_nil, or_false] at hin
      rcases hin with e | e | e
      · exact absurd e hne.1
      · exact absurd e hne.2.1
      · exact absurd e hne.2.2.1
    · intro e
      exact absurd e hne.2.2.2
  · rcases hcase with ⟨_, hrepd⟩ | ⟨hquiet, hcan, _⟩
    · refine ⟨fun _ => hrepd hcb, ?_, ?_⟩
      · intro e _ _ _ _ _ _
        rw [← e]
        exact hrepd hcb
      · intro e
        rw [ha] at e
        exact absurd e (by simp)
    · refine ⟨?_, ?_, ?_⟩
      · intro hin
        rw [hcan] at hin
        exact absurd hin (by decide)
      · intro _ g1 m1 t1 e hg1 hexec
        rw [ha] at e
        injection e with e1 _
        rw [← e1, hg] at hg1
        rw [← Option.some.inj (Option.some.inj hg1)] at hexec
        rw [hquiet] at hexec
        exact absurd hexec (by simp)
      · intro e
        rw [ha] at e
        exact absurd e (by simp)

theorem status_reported_witness :
    gotSystem.engine.hasStatusCallback = true ∧
    ∃ s1, step unixLib gotSystem (.go 0 .run) = some s1 ∧ s1.status 1 = "Installing" ∧
      ∃ evs, s1.events = gotSystem.events ++ evs ∧ Event.progressCallback ∉ evs ∧
        Event.statusCallback "b.exe" "Installing" ∈ evs := by
  refine ⟨rfl, _, rfl, by decide, ?_⟩
  obtain ⟨⟨evs, he, hnp, hrep⟩, _⟩ := status_reported unixLib gotSystem _ (.go 0 .run) 1
    ⟨false, none, .ctxDone⟩ (sampleItems 1) rfl rfl
  exact ⟨evs, he, hnp, (hrep (by decide)).1 (by decide)⟩

/-! ## What a run of `executeInstaller` reports and logs -/

theorem callbacks_append (a b : List Event) : callbacks (a ++ b) = callbacks a ++ callbacks b := by
  simp [callbacks]

theorem callbacks_logOutput (path stdout stderr : String) :
    callbacks (logOutput path stdout stderr) = [] := by
  unfold logOutput callbacks
  split <;> split <;> simp [Event.isCallback]

theorem callbacks_execWait (lib : GoLib) (cmd : String) (ev : WaitEvent) (item : InstallerItem) :
    callbacks (execWait lib true cmd ev item).2
      = [.statusCallback item.Path (execWait lib true cmd ev item).1.Status] := by
  unfold execWait
  cases ev with
  | ctxDone => simp [callbacks, notify, Event.isCallback]
  | done stdout stderr result =>
    simp only
    split <;>
      simp [callbacks_append, callbacks_logOutput] <;>
      simp [callbacks, notify, Event.isCallback]

theorem callbacks_execLaunch (lib : GoLib) (ctxDone : Bool) (spawnErr : Option String)
    (item it : InstallerItem) (evs : List Event) (started : Option (String × List String))
    (h : execLaunch lib true ctxDone spawnErr item = (it, evs, started)) :
    (started = none ∧ callbacks evs = [.statusCallback item.Path it.Status]) ∨
      (started ≠ none ∧ callbacks evs = [] ∧ it.Path = item.Path) := by
  unfold execLaunch at h
  simp only at h
  split at h
  · simp only [Prod.mk.injEq] at h
    obtain ⟨h1, h2, h3⟩ := h
    subst h1
    subst h2
    exact Or.inl ⟨h3.symm, by simp [callbacks, notify, Event.isCallback]⟩
  · split at h
    · simp only [Prod.mk.injEq] at h
      obtain ⟨h1, h2, h3⟩ := h
      subst h1
      subst h2
      exact Or.inl ⟨h3.symm, by simp [callbacks, notify, Event.isCallback]⟩
    · simp only [Prod.mk.injEq] at h
      obtain ⟨h1, h2, h3⟩ := h
      subst h1
      subst h2
      exact Or.inr ⟨by rw [← h3]; simp, by simp [callbacks, Event.isCallback], rfl⟩

/-- C25: for every item and every outcome of resolution, spawn and wait,
`executeInstaller` returns with the item's status `Completed`, `Failed` or
`Cancelled`, and with the status callback registered its callbacks are exactly
two: first `(path, "Installing")`, then `(path, s)` for the status `s` on
return. -/
theorem executeInstaller_two_callbacks (lib : GoLib) (env : ExecEnv) (item : InstallerItem) :
    terminal (executeInstaller lib true env item).1.Status ∧
    (executeInstaller lib true env item).1.Status ≠ "Installing" ∧
    callbacks (executeInstaller lib true env item).2
      = [.statusCallback item.Path "Installing",
         .statusCallback item.Path (executeInstaller lib true env item).1.Status] := by
  have hterm := executeInstaller_terminal lib true env item
  refine ⟨hterm, ?_, ?_⟩
  · rcases hterm with h | h | h <;> rw [h] <;> decide
  · have hbegin : callbacks (execBegin lib true item).2
        = [.statusCallback item.Path "Installing"] := by
      simp [execBegin, callbacks, notify, Event.isCallback]
    unfold executeInstaller
    simp only
    split
    · rename_i it evs hl
      rcases callbacks_execLaunch _ _ _ _ _ _ _ hl with ⟨_, hc⟩ | ⟨hne, _⟩
      · rw [callbacks_append, hbegin, hc]
        rfl
      · exact absurd rfl hne
    · rename_i it evs cmd args hl
      rcases callbacks_execLaunch _ _ _ _ _ _ _ hl with ⟨hnone, _⟩ | ⟨_, hc, hp⟩
      · exact absurd hnone (by simp)
      · rw [callbacks_append, callbacks_append, hbegin, hc, callbacks_execWait, hp]
        rfl

/-- C21 (code at the failing input): the process of `a.msi` is spawned and
the run is cancelled; whatever the process has written, the log lines of
`executeInstaller` are the start line, the command line and the `CANCELLED`
line, with no line for the captured output; when the same process ends by
itself, its output is logged as `STDOUT` and `STDERR` lines. -/
theorem cancelled_output_not_logged :
    spawned unixLib ⟨false, none, .ctxDone⟩ (sampleItems 0) = true ∧
    (executeInstaller unixLib true ⟨false, none, .ctxDone⟩ (sampleItems 0)).1.Status = "Cancelled" ∧
    (executeInstaller unixLib true ⟨false, none, .ctxDone⟩ (sampleItems 0)).2.filterMap
        (fun e => match e with | .log line => some line | _ => none)
      = ["Starting installation: a.msi",
         "Executing command: msiexec [/i a.msi /qn /norestart]",
         "CANCELLED: a.msi"] ∧
    (executeInstaller unixLib true ⟨false, none, .done "out" "err" (.exited 0)⟩
        (sampleItems 0)).2.filterMap
        (fun e => match e with | .log line => some line | _ => none)
      = ["Starting installation: a.msi",
         "Executing command: msiexec [/i a.msi /qn /norestart]",
         "STDOUT for a.msi:\nout", "STDERR for a.msi:\nerr",
         "COMPLETED: a.msi - Installation successful"] := by
  refine ⟨?_, ?_, ?_, ?_⟩ <;> decide

/-! ## The flag prober -/

theorem tryExecuteWithFlags_rejected (p : Probe) (rest : List Probe) (hctx : p.ctxDone = false)
    (hrej : p.rejected) :
    tryExecuteWithFlags true (p :: rest)
      = (tryExecuteWithFlags true rest).map (fun r => (r.1, p.flags :: r.2)) := by
  rcases hrej with h | h | ⟨t, h⟩ <;> simp [tryExecuteWithFlags, hctx, h]

theorem tryExecuteWithFlags_accepted (p : Probe) (rest : List Probe) (hctx : p.ctxDone = false)
    (hacc : p.accepted) :
    tryExecuteWithFlags true (p :: rest) = some (p.full.map .run, [p.flags, p.flags]) := by
  rcases hacc with h | ⟨c, h, h1, h87⟩ <;> simp [tryExecuteWithFlags, hctx, h]
  intro hc
  exact absurd (hc h1) h87

theorem Probe.accepted_or_rejected (p : Probe) : p.accepted ∨ p.rejected := by
  unfold Probe.accepted Probe.rejected
  cases h : p.trial with
  | none => exact Or.inl (Or.inl rfl)
  | some e =>
    cases e with
    | other t => exact Or.inr (Or.inr (Or.inr ⟨t, rfl⟩))
    | exitError c =>
      by_cases h1 : c = 1
      · subst h1
        exact Or.inr (Or.inl rfl)
      · by_cases h87 : c = 87
        · subst h87
          exact Or.inr (Or.inr (Or.inl rfl))
        · exact Or.inl (Or.inr ⟨c, rfl, h1, h87⟩)

theorem Probe.not_accepted_of_rejected (p : Probe) (h : p.rejected) : ¬ p.accepted := by
  rintro (ha | ⟨c, ha, h1, h87⟩) <;> rcases h with h | h | ⟨t, h⟩ <;> rw [h] at ha <;> simp at ha
  · exact h1 ha.symm
  · exact h87 ha.symm

/-- C27: with the scope of the engine set and not cancelled,
`tryExecuteWithFlags` returns; it runs the trials in list order up to the
first flag set whose trial succeeds or exits with a code other than 1 and 87,
then makes the full run with that flag set and returns its result; and it
returns the error "no suitable silent installation flags found" exactly when
every trial exits with code 1 or 87 or fails with an error that is not an
exit-code error, as for the empty list. -/
theorem tryExecuteWithFlags_spec (probes : List Probe) (hctx : ∀ p ∈ probes, p.ctxDone = false) :
    (∃ r, tryExecuteWithFlags true probes = some r) ∧
    (∀ pre p post, probes = pre ++ p :: post → (∀ q ∈ pre, q.rejected) → p.accepted →
      tryExecuteWithFlags true probes
        = some (p.full.map .run, pre.map Probe.flags ++ [p.flags, p.flags])) ∧
    ((tryExecuteWithFlags true probes).map Prod.fst = some (some .noSuitableFlags)
      ↔ ∀ p ∈ probes, p.rejected) ∧
    tryExecuteWithFlags true [] = some (some .noSuitableFlags, []) := by
  refine ⟨?_, ?_, ?_, rfl⟩
  · induction probes with
    | nil => exact ⟨_, rfl⟩
    | cons q rest ih =>
      have hq := hctx q (List.mem_cons_self _ _)
      obtain ⟨r, hr⟩ := ih (fun x hx => hctx x (List.mem_cons_of_mem _ hx))
      rcases q.accepted_or_rejected with hacc | hrej
      · exact ⟨_, tryExecuteWithFlags_accepted q rest hq hacc⟩
      · rw [tryExecuteWithFlags_rejected q rest hq hrej, hr]
        exact ⟨_, rfl⟩
  · intro pre
    induction pre generalizing probes with
    | nil =>
      intro p post hp _ hacc
      subst hp
      simp only [List.nil_append] at hctx ⊢
      rw [tryExecuteWithFlags_accepted p post (hctx p (List.mem_cons_self _ _)) hacc]
      rfl
    | cons q pre ih =>
      intro p post hp hrej hacc
      subst hp
      have hq := hctx q (List.mem_cons_self _ _)
      have hrest : ∀ x ∈ pre ++ p :: post, x.ctxDone = false :=
        fun x hx => hctx x (List.mem_cons_of_mem _ hx)
      rw [List.cons_append,
        tryExecuteWithFlags_rejected q _ hq (hrej q (List.mem_cons_self _ _)),
        ih (pre ++ p :: post) hrest p post rfl
          (fun x hx => hrej x (List.mem_cons_of_mem _ hx)) hacc]
      rfl
  · induction probes with
    | nil => simp [tryExecuteWithFlags]
    | cons q rest ih =>
      have hq := hctx q (List.mem_cons_self _ _)
      have hrest : ∀ x ∈ rest, x.ctxDone = false :=
        fun x hx => hctx x (List.mem_cons_of_mem _ hx)
      rcases q.accepted_or_rejected with hacc | hrej
      · rw [tryExecuteWithFlags_accepted q rest hq hacc]
        constructor
        · intro h
          cases hf : q.full <;> rw [hf] at h <;> simp at h
        · intro h
          exact absurd hacc (q.not_accepted_of_rejected (h q (List.mem_cons_self _ _)))
      · rw [tryExecuteWithFlags_rejected q rest hq hrej]
        simp only [List.mem_cons, forall_eq_or_imp, Option.map_map]
        rw [← ih hrest]
        constructor
        · intro h
          refine ⟨hrej, ?_⟩
          cases hr : tryExecuteWithFlags true rest with
          | none => rw [hr] at h; simp at h
          | some r => rw [hr] at h; simpa using h
        · intro h
          cases hr : tryExecuteWithFlags true rest with
          | none => rw [hr] at h; simp at h
          | some r => rw [hr] at h; simpa using h.2

theorem tryExecuteWithFlags_spec_witness :
    (∀ p ∈ sampleProbes, p.ctxDone = false) ∧
    tryExecuteWithFlags true sampleProbes
      = some (none, [["/S"], ["/silent"], ["/qn"], ["/qn"]]) :=
  ⟨by decide,
   (tryExecuteWithFlags_spec sampleProbes (by decide)).2.1
     [⟨["/S"], some (.exitError 87), false, none⟩,
      ⟨["/silent"], some (.other "fork/exec: permission denied"), false, none⟩]
     ⟨["/qn"], some (.exitError 3), false, none⟩ [⟨["/quiet"], none, false, none⟩] rfl
     (by
       intro q hq
       simp only [List.mem_cons, List.mem_singleton, List.not_mem_nil, or_false] at hq
       rcases hq with e | e
       · subst e
         exact Or.inr (Or.inl rfl)
       · subst e
         exact Or.inr (Or.inr ⟨_, rfl⟩))
     (Or.inr ⟨3, rfl, by decide, by decide⟩)⟩

/-! ## File sizes -/

theorem unitLoop_succ (fuel : Nat) (n div : Int) (exp : Nat) :
    unitLoop (fuel + 1) n div exp
      = if n ≥ 1024 then unitLoop fuel (n / 1024) (wrap64 (div * 1024)) (exp + 1)
        else some (div, exp) := rfl

theorem wrap64_small (x : Int) (h0 : 0 ≤ x) (h1 : x < 2 ^ 63) : wrap64 x = x := by
  unfold wrap64
  omega

/-- The loop of `formatFileSize` from a state that satisfies its invariant:
`div` is a power of 1024 that has not overflowed and `n` is the quotient of
`bytes` by `div`. -/
theorem unitLoop_invariant (bytes : Int) :
    ∀ (k fuel : Nat) (n : Int) (exp : Nat),
      exp + k = 5 → k < fuel → 0 ≤ n → n < 1024 ^ (k + 1) →
      n * 1024 ^ (exp + 1) ≤ bytes → bytes < (n + 1) * 1024 ^ (exp + 1) →
      1024 ^ (exp + 1) ≤ bytes →
      ∃ div e, unitLoop fuel n (1024 ^ (exp + 1)) exp = some (div, e) ∧ e ≤ 5 ∧
        div = 1024 ^ (e + 1) ∧ div < 2 ^ 63 ∧ div ≤ bytes ∧ bytes < 1024 * div := by
  intro k
  induction k with
  | zero =>
    intro fuel n exp hk hf h0 hlt hlo hhi hle
    obtain ⟨f, rfl⟩ : ∃ f, fuel = f + 1 := ⟨fuel - 1, by omega⟩
    have hexp : exp = 5 := by omega
    subst hexp
    have hn1 : n < 1024 := by simpa using hlt
    rw [unitLoop_succ, if_neg (by omega)]
    refine ⟨_, _, rfl, le_refl _, rfl, by norm_num, hle, ?_⟩
    have hpos : (0 : Int) < 1024 ^ (5 + 1) := by norm_num
    have := mul_le_mul_of_nonneg_right (show n + 1 ≤ 1024 by omega) (le_of_lt hpos)
    linarith
  | succ k ih =>
    intro fuel n exp hk hf h0 hlt hlo hhi hle
    obtain ⟨f, rfl⟩ : ∃ f, fuel = f + 1 := ⟨fuel - 1, by omega⟩
    have hpos : (0 : Int) < 1024 ^ (exp + 1) := by positivity
    rw [unitLoop_succ]
    by_cases hge : n ≥ 1024
    · rw [if_pos hge]
      have hpow : (1024 : Int) ^ (exp + 1) * 1024 = 1024 ^ (exp + 1 + 1) := by ring
      have hsmall : (1024 : Int) ^ (exp + 1 + 1) ≤ 1024 ^ 6 :=
        pow_le_pow_right₀ (by norm_num) (by omega)
      have hw : wrap64 ((1024 : Int) ^ (exp + 1) * 1024) = 1024 ^ (exp + 1 + 1) := by
        rw [hpow]
        exact wrap64_small _ (by positivity) (lt_of_le_of_lt hsmall (by norm_num))
      rw [hw]
      have hq1 : 1024 * (n / 1024) ≤ n := by omega
      have hq2 : n + 1 ≤ 1024 * (n / 1024 + 1) := by omega
      have hq3 : 1 ≤ n / 1024 := by omega
      have hlo2 : n / 1024 * 1024 ^ (exp + 1 + 1) ≤ bytes := by
        have := mul_le_mul_of_nonneg_right hq1 (le_of_lt hpos)
        rw [← hpow]
        linarith
      have hhi2 : bytes < (n / 1024 + 1) * 1024 ^ (exp + 1 + 1) := by
        have := mul_le_mul_of_nonneg_right hq2 (le_of_lt hpos)
        rw [← hpow]
        linarith
      have hle2 : (1024 : Int) ^ (exp + 1 + 1) ≤ bytes := by
        have := mul_le_mul_of_nonneg_right hq3 (le_of_lt (show (0 : Int) < 1024 ^ (exp + 1 + 1) by
          positivity))
        linarith
      have hlt2 : n / 1024 < 1024 ^ (k + 1) := by
        have h3 : n < 1024 ^ (k + 1) * 1024 := by
          have : (1024 : Int) ^ (k + 1 + 1) = 1024 ^ (k + 1) * 1024 := by ring
          rw [← this]
          exact hlt
        exact Int.ediv_lt_of_lt_mul (by norm_num) h3
      exact ih f (n / 1024) (exp + 1) (by omega) (by omega)
        (Int.ediv_nonneg h0 (by norm_num)) hlt2 hlo2 hhi2 hle2
    · rw [if_neg hge]
      have hexp : exp ≤ 5 := by omega
      have hsmall : (1024 : Int) ^ (exp + 1) ≤ 1024 ^ 6 :=
        pow_le_pow_right₀ (by norm_num) (by omega)
      refine ⟨_, _, rfl, hexp, rfl, lt_of_le_of_lt hsmall (by norm_num), hle, ?_⟩
      have := mul_le_mul_of_nonneg_right (show n + 1 ≤ 1024 by omega) (le_of_lt hpos)
      linarith

/-- C28: for every 64-bit signed byte count of at least 1024, the loop of
`formatFileSize` ends (within its fuel) with `exp` at most 5, so that the
index into `"KMGTPE"` is in range, and with `div` equal to `1024^(exp+1)`,
which no multiplication has wrapped, and `div ≤ bytes < 1024·div`. -/
theorem unitLoop_spec (bytes : Int) (h1 : 1024 ≤ bytes) (h2 : bytes < 2 ^ 63) :
    ∃ div exp, unitLoop 64 (bytes / 1024) 1024 0 = some (div, exp) ∧ exp ≤ 5 ∧
      (∃ c, "KMGTPE".data[exp]? = some c) ∧
      div = 1024 ^ (exp + 1) ∧ div < 2 ^ 63 ∧ div ≤ bytes ∧ bytes < 1024 * div := by
  have h := unitLoop_invariant bytes 5 64 (bytes / 1024) 0 (by norm_num) (by norm_num)
    (Int.ediv_nonneg (by omega) (by norm_num))
    (by
      have : bytes / 1024 < 2 ^ 53 := by omega
      exact lt_trans this (by norm_num))
    (by
      simp only [zero_add, pow_one]
      omega)
    (by
      simp only [zero_add, pow_one]
      omega)
    (by simpa using h1)
  simp only [zero_add, pow_one] at h
  obtain ⟨div, e, hrun, he, hdiv, hlt, hle, hub⟩ := h
  refine ⟨div, e, hrun, he, ?_, hdiv, hlt, hle, hub⟩
  have : e = 0 ∨ e = 1 ∨ e = 2 ∨ e = 3 ∨ e = 4 ∨ e = 5 := by omega
  rcases this with r | r | r | r | r | r <;> subst r <;> exact ⟨_, rfl⟩

/-- The integer part of `formatFileSize`: below 1024 the result is the decimal
number and `" B"`; from 1024 on it is the text of the scaled value for the
divisor `1024^(exp+1)`, the largest power of 1024 that is at most `bytes`,
a space, the letter at `exp` of `"KMGTPE"` and `"B"`. -/
theorem formatFileSize_units (scaled : Int → Int → String) (bytes : Int) (h2 : bytes < 2 ^ 63) :
    (bytes < 1024 → formatFileSize scaled bytes = some (fmtInt bytes ++ " B")) ∧
    (1024 ≤ bytes → ∃ (exp : Nat) (c : Char), exp ≤ 5 ∧ "KMGTPE".data[exp]? = some c ∧
      1024 ^ (exp + 1) ≤ bytes ∧ bytes < 1024 ^ (exp + 2) ∧
      formatFileSize scaled bytes
        = some (scaled bytes (1024 ^ (exp + 1)) ++ " " ++ String.mk [c] ++ "B")) := by
  constructor
  · intro h
    simp [formatFileSize, h]
  · intro h1
    have h := unitLoop_invariant bytes 5 64 (bytes / 1024) 0 (by norm_num) (by norm_num)
      (Int.ediv_nonneg (by omega) (by norm_num))
      (by
        have : bytes / 1024 < 2 ^ 53 := by omega
        exact lt_trans this (by norm_num))
      (by
        simp only [zero_add, pow_one]
        omega)
      (by
        simp only [zero_add, pow_one]
        omega)
      (by simpa using h1)
    simp only [zero_add, pow_one] at h
    obtain ⟨div, e, hrun, he, hdiv, _, hle, hub⟩ := h
    have hc : ∃ c, "KMGTPE".data[e]? = some c := by
      have : e = 0 ∨ e = 1 ∨ e = 2 ∨ e = 3 ∨ e = 4 ∨ e = 5 := by omega
      rcases this with r | r | r | r | r | r <;> subst r <;> exact ⟨_, rfl⟩
    obtain ⟨c, hc⟩ := hc
    refine ⟨e, c, he, hc, by rw [← hdiv]; exact hle, ?_, ?_⟩
    · have : (1024 : Int) ^ (e + 2) = 1024 * 1024 ^ (e + 1) := by ring
      rw [this, ← hdiv]
      exact hub
    · have hnot : ¬ bytes < 1024 := by omega
      simp only [formatFileSize, if_neg hnot, hrun, hc, hdiv]

theorem unitLoop_spec_witness :
    ∃ div exp, unitLoop 64 (1536 / 1024) 1024 0 = some (div, exp) ∧ exp = 0 ∧ div = 1024 := by
  obtain ⟨div, exp, hrun, _, _, hdiv, _, hle, hub⟩ := unitLoop_spec 1536 (by norm_num) (by norm_num)
  have h0 : unitLoop 64 (1536 / 1024) 1024 0 = some (1024, 0) := by decide
  rw [h0] at hrun
  simp only [Option.some.injEq, Prod.mk.injEq] at hrun
  exact ⟨div, exp, by rw [h0, hrun.1, hrun.2], hrun.2.symm, hrun.1.symm⟩

/-! ## The installer list of the window -/

theorem scanEntry_paths (lib : GoLib) (found : List InstallerItem) (e : WalkEntry) :
    (scanEntry lib found e).map InstallerItem.Path
      = found.map InstallerItem.Path ++
        (if !e.walkErr && !e.isDir &&
            (decide (lib.ToLower (lib.Ext e.name) = ".exe") ||
              decide (lib.ToLower (lib.Ext e.name) = ".msi")) && e.info.isSome
          then [e.path] else []) := by
  unfold scanEntry
  cases e.walkErr <;> cases e.isDir <;> simp
  split
  · cases e.info <;> simp_all
  · simp_all

theorem scanFound_paths (lib : GoLib) (entries : List WalkEntry) :
    ∀ found : List InstallerItem,
      (entries.foldl (scanEntry lib) found).map InstallerItem.Path
        = found.map InstallerItem.Path ++
          (entries.filter (fun e => !e.walkErr && !e.isDir &&
            (decide (lib.ToLower (lib.Ext e.name) = ".exe") ||
              decide (lib.ToLower (lib.Ext e.name) = ".msi")) && e.info.isSome)).map
            WalkEntry.path := by
  induction entries with
  | nil => simp
  | cons e rest ih =>
    intro found
    rw [List.foldl_cons, ih, scanEntry_paths, List.filter_cons]
    split <;> simp

/-- C23: the directory scan accepts exactly the files whose lower-cased
extension is `.exe` or `.msi`, in the order met (directories and unreadable
entries apart), and the drop handling makes the same test: a dropped path is
added exactly when it exists, has such an extension, is not yet in the map
and can be read; from the five names of the test, `installer1.exe`,
`installer2.msi` and `setup.EXE` are accepted. -/
theorem installer_filter (lib : GoLib) (entries : List WalkEntry) (st : UI × Nat × Nat)
    (f : Dropped) :
    ((∀ e ∈ entries, e.walkErr = false ∧ e.isDir = false ∧ e.info ≠ none) →
      (scanFound lib entries).map InstallerItem.Path
        = (entries.filter (fun e =>
            decide (lib.ToLower (lib.Ext e.name) = ".exe") ||
              decide (lib.ToLower (lib.Ext e.name) = ".msi"))).map WalkEntry.path) ∧
    ((dropFile lib st f).1.count = st.1.count + 1 ↔
      (f.notExist = false ∧
        (lib.ToLower (lib.Ext f.path) = ".exe" ∨ lib.ToLower (lib.Ext f.path) = ".msi") ∧
        st.1.installerMap f.path = false ∧ f.stat ≠ none)) ∧
    ((dropFile lib st f).1.count = st.1.count + 1 ∨ (dropFile lib st f).1 = st.1) ∧
    (scanFound unixLib sampleEntries).map InstallerItem.Path
      = ["tmp/installer1.exe", "tmp/installer2.msi", "tmp/setup.EXE"] := by
  refine ⟨?_, ?_, ?_, by decide⟩
  · intro hreg
    unfold scanFound
    rw [scanFound_paths]
    simp only [List.map_nil, List.nil_append]
    congr 1
    apply List.filter_congr
    intro e he
    obtain ⟨h1, h2, h3⟩ := hreg e he
    cases hi : e.info with
    | none => exact absurd hi h3
    | some v => simp [h1, h2]
  · obtain ⟨ui, a, k⟩ := st
    unfold dropFile addInstallerFromPath
    cases f.notExist <;> cases hm : ui.installerMap f.path <;> cases f.stat <;>
      by_cases he : lib.ToLower (lib.Ext f.path) = ".exe" <;>
      by_cases hmsi : lib.ToLower (lib.Ext f.path) = ".msi" <;>
      simp [he, hmsi, hm]
  · obtain ⟨ui, a, k⟩ := st
    unfold dropFile addInstallerFromPath
    cases f.notExist <;> cases hm : ui.installerMap f.path <;> cases f.stat <;>
      by_cases he : lib.ToLower (lib.Ext f.path) = ".exe" <;>
      by_cases hmsi : lib.ToLower (lib.Ext f.path) = ".msi" <;>
      simp [he, hmsi, hm]

theorem installer_filter_witness :
    (∀ e ∈ sampleEntries, e.walkErr = false ∧ e.isDir = false ∧ e.info ≠ none) ∧
    (scanFound unixLib sampleEntries).map InstallerItem.Path
      = (sampleEntries.filter (fun e =>
          decide (unixLib.ToLower (unixLib.Ext e.name) = ".exe") ||
            decide (unixLib.ToLower (unixLib.Ext e.name) = ".msi"))).map WalkEntry.path :=
  ⟨by decide,
   (installer_filter unixLib sampleEntries (newUI sampleItems 2, 0, 0) ⟨"x.exe", false, some 1⟩).1
     (by decide)⟩

theorem installers_append (ui : UI) (v : InstallerItem) (m : String → Bool) :
    UI.installers { ui with sys := ui.sys.setItem ui.count v, count := ui.count + 1,
                            installerMap := m }
      = ui.installers ++ [v] := by
  unfold UI.installers System.setItem
  simp only [List.range_succ, List.map_append, List.map_cons, List.map_nil, Function.update_same]
  congr 1
  apply List.map_congr_left
  intro i hi
  have : i ≠ ui.count := Nat.ne_of_lt (List.mem_range.mp hi)
  simp [Function.update_noteq this]

/-- What one dropped file does to the installer list: nothing, or one new
entry that is `Ready`, is an installer file and was not in the list. -/
theorem dropFile_installers (lib : GoLib) (st : UI × Nat × Nat) (f : Dropped) :
    ((dropFile lib st f).1.installers = st.1.installers ∧
      (dropFile lib st f).1.installerMap = st.1.installerMap) ∨
    (∃ v : InstallerItem, (dropFile lib st f).1.installers = st.1.installers ++ [v] ∧
      (dropFile lib st f).1.installerMap = Function.update st.1.installerMap f.path true ∧
      st.1.installerMap f.path = false ∧ v.Path = f.path ∧ v.Status = "Ready" ∧
      (lib.ToLower (lib.Ext v.Path) = ".exe" ∨ lib.ToLower (lib.Ext v.Path) = ".msi")) := by
  obtain ⟨ui, a, k⟩ := st
  unfold dropFile
  simp only
  split
  · exact Or.inl ⟨rfl, rfl⟩
  · split
    · exact Or.inl ⟨rfl, rfl⟩
    · rename_i hext
      split
      · exact Or.inl ⟨rfl, rfl⟩
      · rename_i hmap
        cases hs : f.stat with
        | none => exact Or.inl (by simp [addInstallerFromPath])
        | some size =>
          right
          refine ⟨{ Path := f.path, Size := size, Selected := false, Status := "Ready",
                    Progress := "" }, ?_, ?_, by simpa using hmap, rfl, rfl, ?_⟩
          · simp only [addInstallerFromPath]
            exact installers_append ui _ _
          · simp [addInstallerFromPath]
          · simp only [Bool.and_eq_true, decide_eq_true_eq, not_and, ne_eq, Decidable.not_not] at hext
            by_cases he : lib.ToLower (lib.Ext f.path) = ".exe"
            · exact Or.inl he
            · exact Or.inr (hext he)

theorem dropFile_noDuplicates (lib : GoLib) (st : UI × Nat × Nat) (f : Dropped)
    (h : st.1.noDuplicates) : (dropFile lib st f).1.noDuplicates := by
  obtain ⟨hnd, hmap⟩ := h
  rcases dropFile_installers lib st f with ⟨hi, hm⟩ | ⟨v, hi, hm, hnew, hp, _, _⟩
  · unfold UI.noDuplicates
    rw [hi, hm]
    exact ⟨hnd, hmap⟩
  · have hnot : f.path ∉ st.1.installers.map InstallerItem.Path := by
      intro hmem
      have := (hmap f.path).mpr hmem
      rw [hnew] at this
      exact absurd this (by simp)
    unfold UI.noDuplicates
    rw [hi, hm]
    constructor
    · rw [List.map_append, List.map_cons, List.map_nil, hp]
      exact List.Nodup.append hnd (List.nodup_singleton _)
        (by
          intro x hx hx2
          rw [List.mem_singleton] at hx2
          exact hnot (hx2 ▸ hx))
    · intro p
      rw [List.map_append, List.map_cons, List.map_nil, hp, List.mem_append, List.mem_singleton]
      by_cases e : p = f.path
      · subst e
        simp
      · rw [Function.update_noteq e, hmap p]
        simp [e]

/-- C29: `processDroppedFiles` keeps the installer list free of duplicates
and the map in step with it, for every list of dropped paths (with repeated
paths, or paths already present), and it only appends entries, each of them
`Ready`, with a lower-cased extension `.exe` or `.msi` and with a path from
the drop. -/
theorem processDroppedFiles_noDuplicates (lib : GoLib) (ui : UI) (filePaths : List Dropped)
    (h : ui.noDuplicates) :
    (processDroppedFiles lib ui filePaths).1.noDuplicates ∧
    ∃ added : List InstallerItem,
      (processDroppedFiles lib ui filePaths).1.installers = ui.installers ++ added ∧
      ∀ v ∈ added, v.Status = "Ready" ∧
        (lib.ToLower (lib.Ext v.Path) = ".exe" ∨ lib.ToLower (lib.Ext v.Path) = ".msi") ∧
        v.Path ∈ filePaths.map Dropped.path := by
  unfold processDroppedFiles
  have key : ∀ (fs : List Dropped) (st : UI × Nat × Nat), st.1.noDuplicates →
      (fs.foldl (dropFile lib) st).1.noDuplicates ∧
      ∃ added : List InstallerItem,
        (fs.foldl (dropFile lib) st).1.installers = st.1.installers ++ added ∧
        ∀ v ∈ added, v.Status = "Ready" ∧
          (lib.ToLower (lib.Ext v.Path) = ".exe" ∨ lib.ToLower (lib.Ext v.Path) = ".msi") ∧
          v.Path ∈ fs.map Dropped.path := by
    intro fs
    induction fs with
    | nil =>
      intro st hst
      exact ⟨hst, [], by simp, by simp⟩
    | cons f rest ih =>
      intro st hst
      obtain ⟨hnd, added, hadd, hprop⟩ := ih (dropFile lib st f) (dropFile_noDuplicates lib st f hst)
      refine ⟨hnd, ?_⟩
      rcases dropFile_installers lib st f with ⟨hi, _⟩ | ⟨v, hi, _, _, hp, hs, he⟩
      · refine ⟨added, by rw [List.foldl_cons, hadd, hi], ?_⟩
        intro x hx
        obtain ⟨a, b, c⟩ := hprop x hx
        exact ⟨a, b, List.mem_cons_of_mem _ c⟩
      · refine ⟨v :: added, by rw [List.foldl_cons, hadd, hi]; simp, ?_⟩
        intro x hx
        rcases List.mem_cons.mp hx with e | e
        · subst e
          exact ⟨hs, he, by rw [hp]; exact List.mem_cons_self _ _⟩
        · obtain ⟨a, b, c⟩ := hprop x e
          exact ⟨a, b, List.mem_cons_of_mem _ c⟩
  exact key filePaths (ui, 0, 0) h

theorem newUI_noDuplicates : (newUI sampleItems 2).noDuplicates := by
  constructor
  · decide
  · intro p
    simp [newUI, UI.installers, newSystem]

theorem processDroppedFiles_noDuplicates_witness :
    (newUI sampleItems 2).noDuplicates ∧
    (processDroppedFiles unixLib (newUI sampleItems 2) sampleDrop).1.noDuplicates ∧
    (processDroppedFiles unixLib (newUI sampleItems 2) sampleDrop).1.installers.map
      InstallerItem.Path = ["a.msi", "b.exe", "new.exe"] :=
  ⟨newUI_noDuplicates,
   (processDroppedFiles_noDuplicates unixLib (newUI sampleItems 2) sampleDrop
      newUI_noDuplicates).1,
   by decide⟩

/-! ## The progress counters of the window -/

/-- C30 (code at the failing input): `a.msi` is the one selected installer;
Start is clicked, the worker starts the installation, and Stop is clicked
while the item is `Installing`: `onStopClicked` counts the item as finished,
and when the worker then sees its cancelled scope the status callback counts
it again, so `completedItems` is 2 with `totalSelected` 1. -/
theorem completed_counted_twice :
    (uiRun unixLib (newUI oneSelected 2) clicksStartStop).map
      (fun ui => (ui.totalSelected, ui.completedItems, ui.sys.status 0, ui.sys.live))
      = some (1, 1, "Cancelled", [.workerWaiting 0 0 "msiexec", .drainSelect]) ∧
    (uiRun unixLib (newUI oneSelected 2) (clicksStartStop ++ [.engine 0 .ctxDone])).map
      (fun ui => (ui.totalSelected, ui.completedItems, ui.overallProgress, ui.sys.status 0))
      = some (1, 2, (2, 1), "Cancelled") := by
  constructor <;> decide

/-! ## The worker loop -/

/-- C24: with the scope of the engine set, a worker returns only by a case of
its `select` whose channel has fired (the stop signal, or the scope the
`select` waits for); while neither has fired the `select` is blocked on the
empty queue and takes nothing but the receive case, with the first queued item
and the rest of the queue in order, when the queue is not empty; and every
step inside `executeInstaller` is enabled, leaves the engine (the running flag
and the queue) as it was, and after every end of the process, an unknown type
or a spawn failure the worker is back at the `select` of its loop. -/
theorem worker_loop_continues (lib : GoLib) (s : System) (c : Nat)
    (hctx : s.engine.ctx = some c) :
    (∀ (t : Goroutine) (m : Move) (s1 : System), t.isWorker = true →
      goStep lib s t m = some (s1, none) →
      s.engine.stopClosed = true ∨ ∃ ctx, t = .workerSelect ctx ∧ s.ctxDone ctx = true) ∧
    (∀ ctx : Nat, s.engine.stopClosed = false → s.ctxDone ctx = false →
      (s.engine.queue = [] → ∀ m : Move, goStep lib s (.workerSelect ctx) m = none) ∧
      (∀ (item : Ref) (rest : List (Option Ref)), s.engine.queue = some item :: rest →
        ∀ m : Move, goStep lib s (.workerSelect ctx) m =
          if m = .recv then
            some ({ s with engine := { s.engine with queue := rest } }, some (.workerGot item))
          else none)) ∧
    (∀ item : Ref, ∃ s1 : System,
      goStep lib s (.workerGot item) .run = some (s1, some (.workerInstalling item)) ∧
      s1.engine = s.engine ∧ s1.status item = "Installing") ∧
    (∀ (item : Ref) (spawnErr : Option String), ∃ (s1 : System) (next : Goroutine),
      goStep lib s (.workerInstalling item) (.launch spawnErr) = some (s1, some next) ∧
      s1.engine = s.engine ∧
      ((next = .workerSelect c ∧ s1.status item = "Failed") ∨
        ∃ cmd, next = .workerWaiting item c cmd) ∧
      ((determineSilentFlags lib (s.items item).Path).1 = "" ∨ spawnErr ≠ none →
        next = .workerSelect c)) ∧
    (∀ (item : Ref) (ctx : Nat) (cmd stdout stderr : String) (result : ProcExit),
      ∃ s1 : System,
        goStep lib s (.workerWaiting item ctx cmd) (.finish stdout stderr result)
          = some (s1, some (.workerSelect c)) ∧
        s1.engine = s.engine ∧
        (s1.status item = "Completed" ∨ s1.status item = "Failed")) := by
  refine ⟨?_, ?_, ?_, ?_, ?_⟩
  · intro t m s1 hw h
    cases t <;> cases m <;> simp [goStep, Goroutine.isWorker] at h hw
    case workerSelect.ctxDone ctx =>
      exact Or.inr ⟨ctx, rfl, h.1⟩
    case workerSelect.stop ctx =>
      exact Or.inl h.1
    case workerSelect.recv ctx =>
      split at h
      · exact absurd h (by simp)
      · rw [workerLoop_some _ c (by simpa using hctx)] at h
        simp at h
      · simp at h
    case workerInstalling.launch item spawnErr =>
      rw [hctx] at h
      simp only at h
      split at h
      · rw [workerLoop_some _ c (by simpa [System.setItem, System.emit] using hctx)] at h
        simp at h
      · simp at h
    case workerWaiting.ctxDone item ctx cmd =>
      obtain ⟨_, h⟩ := h
      rw [workerLoop_some _ c (by simpa [System.setItem, System.emit] using hctx)] at h
      simp at h
    case workerWaiting.finish item ctx cmd stdout stderr result =>
      rw [workerLoop_some _ c (by simpa [System.setItem, System.emit] using hctx)] at h
      simp at h
  · intro ctx hstop hdone
    refine ⟨?_, ?_⟩
    · intro hq m
      cases m <;> simp [goStep, hstop, hdone, hq]
    · intro item rest hq m
      cases m <;> simp [goStep, hstop, hdone, hq]
  · intro item
    refine ⟨_, rfl, ?_, ?_⟩
    · simp [execBegin, System.setItem, System.emit]
    · simp [execBegin, System.setItem, System.emit, System.status]
  · intro item spawnErr
    rcases hl : execLaunch lib s.engine.hasStatusCallback (s.ctxDone c) spawnErr (s.items item)
      with ⟨it, evs, started⟩
    have hst := execLaunch_status lib _ _ _ _ _ _ _ hl
    have hflags :
        ((determineSilentFlags lib (s.items item).Path).1 = "" ∨ spawnErr ≠ none) →
          started = none := by
      intro hor
      unfold execLaunch at hl
      simp only at hl
      split at hl
      · simp only [Prod.mk.injEq] at hl
        exact hl.2.2.symm
      · rename_i hne
        rcases hor with h0 | h0
        · exact absurd h0 hne
        · cases spawnErr with
          | none => exact absurd rfl h0
          | some e =>
            simp only [cmdStart, Prod.mk.injEq] at hl
            exact hl.2.2.symm
    cases started with
    | none =>
      refine ⟨(s.setItem item it).emit evs, .workerSelect c, ?_, ?_, ?_, ?_⟩
      · simp only [goStep, hctx, hl]
        rw [workerLoop_some _ c (by simpa [System.setItem, System.emit] using hctx)]
      · simp [System.setItem, System.emit]
      · left
        refine ⟨rfl, ?_⟩
        rcases hst with ⟨_, h2⟩ | ⟨h1, _⟩
        · rw [setItem_emit_status]
          exact h2
        · exact absurd rfl h1
      · intro _
        rfl
    | some p =>
      obtain ⟨cmd, args⟩ := p
      refine ⟨(s.setItem item it).emit evs, .workerWaiting item c cmd, ?_, ?_, ?_, ?_⟩
      · simp only [goStep, hctx, hl]
      · simp [System.setItem, System.emit]
      · right
        exact ⟨cmd, rfl⟩
      · intro hor
        exact absurd (hflags hor) (by simp)
  · intro item ctx cmd stdout stderr result
    refine ⟨(s.setItem item (execWait lib s.engine.hasStatusCallback cmd
      (.done stdout stderr result) (s.items item)).1).emit
      (execWait lib s.engine.hasStatusCallback cmd (.done stdout stderr result)
        (s.items item)).2, ?_, ?_, ?_⟩
    · simp only [goStep]
      rw [workerLoop_some _ c (by simpa [System.setItem, System.emit] using hctx)]
    · simp [System.setItem, System.emit]
    · rw [setItem_emit_status]
      unfold execWait
      simp only
      split <;> simp

theorem worker_loop_continues_witness :
    (Start (newSystem sampleItems true)).engine.ctx = some 0 ∧
    (∀ m : Move, goStep unixLib (Start (newSystem sampleItems true)) (.workerSelect 0) m = none) ∧
    ∃ s1 : System,
      goStep unixLib (Start (newSystem sampleItems true)) (.workerWaiting 2 0 "c.exe")
          (.finish "" "" (.exited 3)) = some (s1, some (.workerSelect 0)) ∧
        s1.engine = (Start (newSystem sampleItems true)).engine ∧
        (s1.status 2 = "Completed" ∨ s1.status 2 = "Failed") :=
  ⟨rfl,
   ((worker_loop_continues unixLib (Start (newSystem sampleItems true)) 0 rfl).2.1 0 rfl rfl).1
     rfl,
   (worker_loop_continues unixLib (Start (newSystem sampleItems true)) 0 rfl).2.2.2.2
     2 0 "c.exe" "" "" (.exited 3)⟩

/-! ## A second cycle of `Start()` and `Stop()` -/

/-- C26 (code at the failing input): after `Start()`, `Stop()`, `Start()` the
engine is running and the channel `stop`, made once by `NewInstallerEngine`,
is still closed; the next `Stop()` passes the guard on `running` and closes
the closed channel, which panics. -/
theorem second_Stop_panics :
    (run unixLib (newSystem sampleItems true) schedStartStopStart).map
      (fun s => (s.panicked, IsRunning s, s.engine.stopClosed)) = some (false, true, true) ∧
    (run unixLib (newSystem sampleItems true) (schedStartStopStart ++ [.callStop])).map
      (fun s => s.panicked) = some true := by
  constructor <;> decide

/-! ## The text of `formatFileSize` -/

theorem toFloat64_exact (x : Int) (h : x < 2 ^ 53) : toFloat64 x = x := by
  have h0 : lostBits 10 x = 0 := by
    rw [lostBits]
    exact if_pos h
  simp [toFloat64, h0]

theorem roundTenths_nearest (num den : Int) (hden : 0 < den) :
    NearestTenth num den (roundTenths num den) := by
  unfold NearestTenth roundTenths
  have h1 := Int.ediv_add_emod (10 * num) den
  have h2 := Int.emod_nonneg (10 * num) (ne_of_gt hden)
  have h3 := Int.emod_lt_of_pos (10 * num) hden
  generalize 10 * num / den = q at *
  generalize 10 * num % den = r at *
  simp only
  split
  · rename_i hc
    have e : (q + 1) * den = den * q + den := by ring
    rw [e]
    rcases hc with hc | ⟨hc, _⟩ <;> constructor <;> omega
  · rename_i hc
    have e : q * den = den * q := by ring
    rw [e]
    push_neg at hc
    have hle : 2 * r ≤ den := by
      by_contra hgt
      exact absurd (hc.1) (by omega)
    constructor <;> omega

/-- C22 (as stated) fails above `2^53`: for 9063494250083123 bytes the unit is
the petabyte (`1024^5 ≤ bytes < 1024^6`) and `bytes / 1024^5` is below 8.05,
so that rounded to one decimal place it is 8.0; `float64(bytes)` is the next
integer, the quotient is above 8.05, and the result is "8.1 PB". -/
theorem formatFileSize_rounding_counterexample :
    formatFileSize sprintfScaled 9063494250083123 = some "8.1 PB" ∧
    (1024 : Int) ^ 5 ≤ 9063494250083123 ∧ (9063494250083123 : Int) < 1024 ^ 6 ∧
    toFloat64 9063494250083123 = 9063494250083124 ∧
    NearestTenth 9063494250083123 (1024 ^ 5) 80 ∧
    ¬ NearestTenth 9063494250083123 (1024 ^ 5) 81 := by
  unfold NearestTenth
  refine ⟨?_, ?_, ?_, ?_, ?_, ?_⟩ <;> decide

/-- C22 (amended): for `bytes < 1024` the result of `formatFileSize` is the
decimal number and `" B"`; for `1024 ≤ bytes < 2^63` it is a number with one
decimal, a space, the `k`-th letter of `"KMGTPE"` and `"B"`, where `k ≥ 1` is
the largest integer with `1024^k ≤ bytes` and the number is
`float64(bytes) / 1024^k` rounded to one decimal place, which below `2^53` is
`bytes / 1024^k` rounded to one decimal place; the six values of the test are
as listed. -/
theorem formatFileSize_spec (bytes : Int) (h2 : bytes < 2 ^ 63) :
    (bytes < 1024 → formatFileSize sprintfScaled bytes = some (fmtInt bytes ++ " B")) ∧
    (1024 ≤ bytes → ∃ (k : Nat) (c : Char) (t : Int),
      1 ≤ k ∧ 1024 ^ k ≤ bytes ∧ bytes < 1024 ^ (k + 1) ∧
      "KMGTPE".data[k - 1]? = some c ∧
      formatFileSize sprintfScaled bytes = some (fmtTenths t ++ " " ++ String.mk [c] ++ "B") ∧
      NearestTenth (toFloat64 bytes) (1024 ^ k) t ∧
      (bytes < 2 ^ 53 → NearestTenth bytes (1024 ^ k) t)) ∧
    [0, 500, 1024, 1536, 1048576, 1073741824].map (formatFileSize sprintfScaled)
      = [some "0 B", some "500 B", some "1.0 KB", some "1.5 KB", some "1.0 MB",
         some "1.0 GB"] := by
  obtain ⟨hsmall, hbig⟩ := formatFileSize_units sprintfScaled bytes h2
  refine ⟨hsmall, ?_, by decide⟩
  intro h1
  obtain ⟨exp, c, _, hc, hle, hlt, hres⟩ := hbig h1
  have hpos : (0 : Int) < 1024 ^ (exp + 1) := by positivity
  have hn := roundTenths_nearest (toFloat64 bytes) (1024 ^ (exp + 1)) hpos
  refine ⟨exp + 1, c, roundTenths (toFloat64 bytes) (1024 ^ (exp + 1)), by omega, hle, hlt,
    by simpa using hc, ?_, hn, ?_⟩
  · rw [hres]
    rfl
  · intro h53
    have e := toFloat64_exact bytes h53
    rw [e] at hn
    rw [e]
    exact hn

theorem formatFileSize_spec_witness :
    (1536 : Int) < 2 ^ 63 ∧
    ∃ (k : Nat) (c : Char) (t : Int),
      1 ≤ k ∧ 1024 ^ k ≤ (1536 : Int) ∧ (1536 : Int) < 1024 ^ (k + 1) ∧
      "KMGTPE".data[k - 1]? = some c ∧
      formatFileSize sprintfScaled 1536 = some (fmtTenths t ++ " " ++ String.mk [c] ++ "B") ∧
      NearestTenth (toFloat64 1536) (1024 ^ k) t ∧
      ((1536 : Int) < 2 ^ 53 → NearestTenth 1536 (1024 ^ k) t) :=
  ⟨by decide, (formatFileSize_spec 1536 (by decide)).2.1 (by decide)⟩

/-! ## Cancellation against the end of the process -/

/-- C6 (code at the failing input): the process of `a.msi` is spawned and the
engine is stopped, so the cancellation scope has ended before any exit of the
process is observed; the `select` at the end of `executeInstaller` then has
both cases ready when the process ends, and taking the `done` case leaves the
item `Completed` (or `Failed`, for an exit code other than 0) without the call
of `Process.Kill`, where the case of the scope leaves it `Cancelled` with that
call. -/
theorem exit_wins_over_cancel :
    (run unixLib (newSystem sampleItems true) schedStopWhileInstalling).map
      (fun s => (s.ctxDone 0, s.status 0, s.live, s.events.filter Event.isKill))
      = some (true, "Installing", [.workerWaiting 0 0 "msiexec", .drainSelect], []) ∧
    (run unixLib (newSystem sampleItems true)
        (schedStopWhileInstalling ++ [.go 0 (.finish "" "" (.exited 0))])).map
      (fun s => (s.status 0, (s.items 0).Progress, s.events.filter Event.isKill))
      = some ("Completed", "Installation completed successfully", []) ∧
    (run unixLib (newSystem sampleItems true)
        (schedStopWhileInstalling ++ [.go 0 (.finish "" "" (.exited (-1)))])).map
      (fun s => (s.status 0, (s.items 0).Progress, s.events.filter Event.isKill))
      = some ("Failed", "Installation failed with exit code -1", []) ∧
    (run unixLib (newSystem sampleItems true)
        (schedStopWhileInstalling ++ [.go 0 .ctxDone])).map
      (fun s => (s.status 0, (s.items 0).Progress, s.events.filter Event.isKill))
      = some ("Cancelled", "Installation was cancelled", [.kill "msiexec"]) := by
  refine ⟨?_, ?_, ?_, ?_⟩ <;> decide

/-! ## The workers after a restart -/

/-- C15 (code at the failing input): after `Start()`, `Stop()`, `Start()` the
engine is running, and a further `Start()` leaves the goroutines as they are,
but the worker of the first run has not returned: the live workers are two,
before and after the further `Start()`. -/
theorem restart_two_workers :
    (run unixLib (newSystem sampleItems true) schedStartStopStart).map
      (fun s => (IsRunning s, s.live, s.workers, (Start s).live, (Start s).workers))
      = some (true, [.workerSelect 0, .drainSelect, .workerSelect 1], 2,
          [.workerSelect 0, .drainSelect, .workerSelect 1], 2) := by
  decide

end NullInstaller
